import Mathlib

/-!
Verification of the ps17-cli core: schema inference from a sample XML document
and columnar decoding of data XML documents against the inferred schema.

Shallow embedding notes:
* Rust `Result` together with Rust panics (`assert_eq!`, slice-index panics) is
  modelled by `Res`: `.ok`, `.err` (a recoverable `anyhow` error) and `.panic`
  (an unrecoverable assertion failure).  `?` propagates `.err`; both propagate
  through `bind`.
* `roxmltree` nodes are modelled by `XmlNode`: tag name, attributes, the text
  returned by `node.text()` (the first text child, `none` when there is none;
  `roxmltree` never materialises an empty text node), and the element children
  (the sequence produced by `elements_of`, i.e. with non-element children
  already filtered out).  A mutual inductive (`XmlNode`/`XmlForest`) is used so
  that all functions stay structurally recursive and kernel-evaluable.
* The `arrow2` mutable builders are modelled by `Builder`/`Fields`.  As in
  `arrow2`, a struct builder's `len` is the length of its first child and
  `MutableStructArray::push_null` pushes a null onto every child before
  recording the invalid slot.  The struct validity bitmap is lazy exactly as in
  `arrow2` (`Option (List Bool)`): `push(true)` on an unmaterialised bitmap is
  a no-op, `push(false)` materialises it via `init_validity` (all earlier
  slots valid, the newest invalid), and a materialised bitmap appends either
  bit; the `StructArray::try_new` checks run by `as_box` at the end of
  `parse_response_to_arrow` are modelled by `Builder.finalizeOk`.
* A list builder is modelled by its inner values builder plus one entry per
  sealed slot: `some k` for a valid slot of `k` items (`try_push_valid`
  records `values.len() - last_offset`), `none` for a null slot (`push_null`
  repeats the offset).
* Machine floats and chrono timestamps never have their numeric values
  inspected by the code under verification, only parse success/failure and
  null-ness; their columns therefore store the accepted source text, and
  `floatTextOk` / `dateTextOk` model the accept/reject behaviour of Rust's
  `f64::from_str` and chrono's `parse_from_str(s, "%Y-%m-%d %H:%M:%S")`.
* The recursive parsing functions take an explicit fuel argument (the Rust
  recursion is structural on the XML tree; fuel exhaustion is modelled as an
  `.err`, so every theorem conditioned on `.ok` or on the absence of `.panic`
  holds for every fuel).
-/

namespace PS17

/-! ## Result type: Ok / anyhow error / Rust panic -/

inductive Res (α : Type) where
  | ok (a : α)
  | err (msg : String)
  | panic (msg : String)

def Res.bind {α β : Type} : Res α → (α → Res β) → Res β
  | .ok a, f => f a
  | .err m, _ => .err m
  | .panic m, _ => .panic m

instance : Monad Res where
  pure := .ok
  bind := Res.bind

def Res.isPanic {α : Type} : Res α → Bool
  | .panic _ => true
  | _ => false

/-! ## XML tree model (roxmltree) -/

structure XAttr where
  name : String
  value : String

mutual
inductive XmlNode where
  | mk (name : String) (attrs : List XAttr) (text : Option String) (children : XmlForest)
inductive XmlForest where
  | nil
  | cons (n : XmlNode) (rest : XmlForest)
end

def XmlNode.name : XmlNode → String
  | .mk n _ _ _ => n

def XmlNode.attrs : XmlNode → List XAttr
  | .mk _ a _ _ => a

def XmlNode.text : XmlNode → Option String
  | .mk _ _ t _ => t

def XmlNode.children : XmlNode → XmlForest
  | .mk _ _ _ c => c

def XmlNode.attribute (n : XmlNode) (key : String) : Option String :=
  (n.attrs.find? (fun a => a.name == key)).map XAttr.value

def XmlForest.toList : XmlForest → List XmlNode
  | .nil => []
  | .cons n rest => n :: rest.toList

def XmlForest.ofList : List XmlNode → XmlForest
  | [] => .nil
  | n :: rest => .cons n (XmlForest.ofList rest)

/-- Convenience constructor for concrete documents: an element with children. -/
def el (name : String) (children : List XmlNode) : XmlNode :=
  .mk name [] none (XmlForest.ofList children)

/-- Convenience constructor: an element holding only text. -/
def elT (name : String) (text : String) : XmlNode :=
  .mk name [] (some text) .nil

/-- Convenience constructor: an element with attributes, text and children. -/
def elA (name : String) (attrs : List (String × String)) (text : Option String)
    (children : List XmlNode) : XmlNode :=
  .mk name (attrs.map fun p => ⟨p.1, p.2⟩) text (XmlForest.ofList children)

/-! ## Text-to-primitive parsing (Rust `FromStr` / chrono) -/

/-- Models `str::trim` (a reimplementation of `String.trim` that reduces in
the kernel). -/
def rustTrim (s : String) : String :=
  ⟨((s.data.dropWhile Char.isWhitespace).reverse.dropWhile Char.isWhitespace).reverse⟩

/-- Models `str::starts_with` on string patterns. -/
def strStartsWith (s pat : String) : Bool :=
  pat.data.isPrefixOf s.data

/-- Models `str::ends_with` on string patterns. -/
def strEndsWith (s pat : String) : Bool :=
  pat.data.reverse.isPrefixOf s.data.reverse

/-- Rust's `&field.name[0..1]` succeeds only when the name is nonempty and
its first character is a single UTF-8 byte; otherwise it panics (byte index 1
out of bounds for the empty name, byte index 1 not a char boundary for a
multi-byte first character). -/
def nameByteOk (s : String) : Bool :=
  match s.data with
  | [] => false
  | c :: _ => c.utf8Size == 1

/-- Models `&name[1..name.len()]` on a name with a one-byte first char. -/
def strDrop1 (s : String) : String :=
  ⟨s.data.drop 1⟩

/-- Numeric value of a list of ASCII digits. -/
def digitsToNat (cs : List Char) : Nat :=
  cs.foldl (fun acc c => acc * 10 + (c.toNat - 48)) 0

/-- Models `u32::from_str`: optional leading `+`, one or more ASCII digits,
value within `u32` range; anything else (including whitespace) is an error. -/
def rustParseU32 (s : String) : Option Nat :=
  let cs := match s.data with
    | '+' :: rest => rest
    | cs => cs
  if cs ≠ [] ∧ cs.all Char.isDigit then
    let n := digitsToNat cs
    if n < 4294967296 then some n else none
  else none

/-- Models `i32::from_str`: optional sign, digits, `i32` range check. -/
def rustParseI32 (s : String) : Option Int :=
  match s.data with
  | '-' :: rest =>
      if rest ≠ [] ∧ rest.all Char.isDigit then
        let n := digitsToNat rest
        if n ≤ 2147483648 then some (-(n : Int)) else none
      else none
  | '+' :: rest =>
      if rest ≠ [] ∧ rest.all Char.isDigit then
        let n := digitsToNat rest
        if n ≤ 2147483647 then some (n : Int) else none
      else none
  | cs =>
      if cs ≠ [] ∧ cs.all Char.isDigit then
        let n := digitsToNat cs
        if n ≤ 2147483647 then some (n : Int) else none
      else none

/-- Exponent part of the Rust float grammar: empty, or `e`/`E`, optional
sign, one or more digits. -/
def floatExpOk : List Char → Bool
  | [] => true
  | c :: rest =>
      if c = 'e' ∨ c = 'E' then
        let rest := match rest with
          | '+' :: r => r
          | '-' :: r => r
          | r => r
        decide (rest ≠ []) && rest.all Char.isDigit
      else false

/-- Models the accept/reject behaviour of `f64::from_str`: optional sign, then
`inf`/`infinity`/`nan` (case-insensitive) or a decimal number with at least
one mantissa digit and an optional exponent. -/
def floatTextOk (s : String) : Bool :=
  let cs := match s.data with
    | '+' :: rest => rest
    | '-' :: rest => rest
    | cs => cs
  let lower := cs.map Char.toLower
  if lower = "inf".data ∨ lower = "infinity".data ∨ lower = "nan".data then true
  else
    let intPart := cs.takeWhile Char.isDigit
    let rest := cs.dropWhile Char.isDigit
    match rest with
    | '.' :: rest2 =>
        let fracPart := rest2.takeWhile Char.isDigit
        let rest3 := rest2.dropWhile Char.isDigit
        (decide (intPart ≠ []) || decide (fracPart ≠ [])) && floatExpOk rest3
    | _ => decide (intPart ≠ []) && floatExpOk rest

/-- Two ASCII digits as a number, when both characters are digits. -/
def twoDigits (a b : Char) : Option Nat :=
  if a.isDigit ∧ b.isDigit then some ((a.toNat - 48) * 10 + (b.toNat - 48)) else none

/-- Models the accept/reject behaviour of chrono's
`NaiveDateTime::parse_from_str(s, "%Y-%m-%d %H:%M:%S")` on a four-digit year
(calendar day-of-month bounds are approximated by 1..=31). -/
def dateTextOk (s : String) : Bool :=
  match s.data with
  | [y1, y2, y3, y4, '-', m1, m2, '-', d1, d2, ' ', h1, h2, ':', n1, n2, ':', s1, s2] =>
      ([y1, y2, y3, y4].all Char.isDigit) &&
      (match twoDigits m1 m2, twoDigits d1 d2, twoDigits h1 h2,
             twoDigits n1 n2, twoDigits s1 s2 with
       | some mo, some da, some ho, some mi, some se =>
           decide (1 ≤ mo) && decide (mo ≤ 12) && decide (1 ≤ da) && decide (da ≤ 31) &&
           decide (ho ≤ 23) && decide (mi ≤ 59) && decide (se ≤ 59)
       | _, _, _, _, _ => false)
  | _ => false

/-! ## arrow2 mutable builders -/

mutual
inductive Builder where
  | utf8 (vals : List (Option String))
  | boolean (vals : List (Option Bool))
  | uint32 (vals : List (Option Nat))
  | int32 (vals : List (Option Int))
  | float64 (vals : List (Option String))
  | timestamp (vals : List (Option String))
  | list (values : Builder) (slots : List (Option Nat))
  | strct (children : Fields) (validity : Option (List Bool))
inductive Fields where
  | nil
  | cons (name : String) (b : Builder) (rest : Fields)
end

mutual
/-- `MutableArray::len`; a struct's length is its first child's length, as in
arrow2's `MutableStructArray`. -/
def Builder.len : Builder → Nat
  | .utf8 vs => vs.length
  | .boolean vs => vs.length
  | .uint32 vs => vs.length
  | .int32 vs => vs.length
  | .float64 vs => vs.length
  | .timestamp vs => vs.length
  | .list _ slots => slots.length
  | .strct cs _ => Fields.headLen cs
def Fields.headLen : Fields → Nat
  | .nil => 0
  | .cons _ b _ => Builder.len b
end

/-- `MutableStructArray::push` with arrow2's lazy validity bitmap: a
materialised bitmap appends the bit; on an unmaterialised bitmap `push(true)`
is a no-op and `push(false)` materialises it via `init_validity`, which marks
the `len - 1` earlier slots valid and the newest invalid (`len` is the
struct's length at that point, i.e. after its children were pushed). -/
def struct_push : Option (List Bool) → Bool → Nat → Option (List Bool)
  | some v, valid, _ => some (v ++ [valid])
  | none, true, _ => none
  | none, false, len => some (List.replicate (len - 1) true ++ [false])

mutual
/-- `MutableArray::push_null`; for structs, arrow2 pushes a null onto every
child and then records the invalid slot with `push(false)`. -/
def Builder.pushNull : Builder → Builder
  | .utf8 vs => .utf8 (vs ++ [none])
  | .boolean vs => .boolean (vs ++ [none])
  | .uint32 vs => .uint32 (vs ++ [none])
  | .int32 vs => .int32 (vs ++ [none])
  | .float64 vs => .float64 (vs ++ [none])
  | .timestamp vs => .timestamp (vs ++ [none])
  | .list values slots => .list values (slots ++ [none])
  | .strct cs validity =>
      .strct (Fields.pushNullAll cs)
        (struct_push validity false (Fields.headLen (Fields.pushNullAll cs)))
def Fields.pushNullAll : Fields → Fields
  | .nil => .nil
  | .cons n b rest => .cons n b.pushNull (Fields.pushNullAll rest)
end

def Fields.isNil : Fields → Bool
  | .nil => true
  | .cons _ _ _ => false

def Fields.names : Fields → List String
  | .nil => []
  | .cons n _ rest => n :: rest.names

def Fields.lens : Fields → List Nat
  | .nil => []
  | .cons _ b rest => b.len :: rest.lens

/-- First field with the given name (the `position`-based lookup in
`parse_field_struct` targets the first match). -/
def Fields.find? : Fields → String → Option Builder
  | .nil, _ => none
  | .cons n b rest, key => if n = key then some b else rest.find? key

mutual
/-- Structure of a builder with values erased; parsing preserves it. -/
inductive BShape where
  | utf8
  | boolean
  | uint32
  | int32
  | float64
  | timestamp
  | list (s : BShape)
  | strct (fs : FShape)
inductive FShape where
  | nil
  | cons (name : String) (s : BShape) (rest : FShape)
end

mutual
def Builder.shape : Builder → BShape
  | .utf8 _ => .utf8
  | .boolean _ => .boolean
  | .uint32 _ => .uint32
  | .int32 _ => .int32
  | .float64 _ => .float64
  | .timestamp _ => .timestamp
  | .list values _ => .list values.shape
  | .strct cs _ => .strct cs.shapeF
def Fields.shapeF : Fields → FShape
  | .nil => .nil
  | .cons n b rest => .cons n b.shape rest.shapeF
end

def FShape.find? : FShape → String → Option BShape
  | .nil, _ => none
  | .cons n s rest, key => if n = key then some s else rest.find? key

/-- Whether the field list contains a pseudo field that the attribute/`#text`
loop of `parse_field_struct` always feeds (setting `parsed_any`): an
`@`-named UInt32 field or a `#text` Utf8 field.  Depends only on the shape. -/
def FShape.hasPseudo : FShape → Bool
  | .nil => false
  | .cons n s rest =>
      (if strStartsWith n "@" then
        (match s with | .uint32 => true | _ => false)
      else if n = "#text" then
        (match s with | .utf8 => true | _ => false)
      else false) || rest.hasPseudo

/-- Sum of the recorded slot sizes of a list builder (`null` slots repeat the
previous offset, i.e. contribute 0); this is the last offset of the arrow2
`MutableListArray`. -/
def consumed (slots : List (Option Nat)) : Nat :=
  (slots.map (fun s => s.getD 0)).sum

/-- `MutableListArray::try_push_valid`: seal one valid slot holding every value
pushed since the previous offset. -/
def try_push_valid (values : Builder) (slots : List (Option Nat)) : List (Option Nat) :=
  slots ++ [some (values.len - consumed slots)]

/-! ## Primitive pushes (`parse_response.rs` helpers) -/

/-- `parse_utf8` / `parse_field_utf8`: text verbatim, absent text is null. -/
def parse_utf8 (vals : List (Option String)) (src : Option String) :
    Res (List (Option String)) :=
  match src with
  | some s => .ok (vals ++ [some s])
  | none => .ok (vals ++ [none])

/-- `parse_bool`: "1" is true, "0" is false, absent text is null, anything
else (no trimming) is an error. -/
def parse_bool (vals : List (Option Bool)) (src : Option String) :
    Res (List (Option Bool)) :=
  match src with
  | some s =>
      if s = "1" then .ok (vals ++ [some true])
      else if s = "0" then .ok (vals ++ [some false])
      else .err ("invalid bool value " ++ s)
  | none => .ok (vals ++ [none])

/-- `non_empty`: trim, then map empty or absent text to `none`. -/
def non_empty (s : Option String) : Option String :=
  match s.map rustTrim with
  | some "" => none
  | none => none
  | some x => some x

/-- `parse_from_str`: trim/empty-check via `non_empty`, then parse with the
target primitive's `FromStr`; a present, non-empty, unparsable text is an
error. -/
def parse_from_str {α : Type} (parse : String → Option α) (vals : List (Option α))
    (src : Option String) : Res (List (Option α)) :=
  match non_empty src with
  | some s =>
      match parse s with
      | some a => .ok (vals ++ [some a])
      | none => .err ("cannot parse " ++ s)
  | none => .ok (vals ++ [none])

/-- `parse_u32` (used for struct `@`-attributes): no trimming, absent
attribute is null, unparsable value is an error. -/
def parse_u32 (vals : List (Option Nat)) (src : Option String) :
    Res (List (Option Nat)) :=
  match src with
  | some s =>
      match rustParseU32 s with
      | some n => .ok (vals ++ [some n])
      | none => .err ("invalid u32 value " ++ s)
  | none => .ok (vals ++ [none])

/-- `parse_field_date64`: no trimming and no `non_empty`; present text must
parse with chrono's `%Y-%m-%d %H:%M:%S` format, absent text is null.  The
column stores the accepted text (the code never inspects the numeric
timestamp). -/
def parse_date64 (vals : List (Option String)) (src : Option String) :
    Res (List (Option String)) :=
  match src with
  | some s =>
      if dateTextOk s then .ok (vals ++ [some s])
      else .err ("invalid date value " ++ s)
  | none => .ok (vals ++ [none])

/-! ## `parse_field_struct` helper loops -/

/-- The attribute/`#text` pseudo-field loop at the top of `parse_field_struct`:
a field named `@x` of type UInt32 is fed from the `x` attribute, a field named
`#text` of type Utf8 from the element text; both set `parsed_any`.  Rust's
`&field.name[0..1]` panics on an empty field name and on a name whose first
character is multi-byte. -/
def struct_pseudo_fields (src : XmlNode) : Fields → Res (Fields × Bool)
  | .nil => .ok (.nil, false)
  | .cons n b rest =>
      if nameByteOk n = false then .panic "byte index 1 is out of bounds or not a char boundary"
      else if strStartsWith n "@" then
        match b with
        | .uint32 vs => do
            let vs' ← parse_u32 vs (src.attribute (strDrop1 n))
            let (rest', _) ← struct_pseudo_fields src rest
            .ok (.cons n (.uint32 vs') rest', true)
        | _ => do
            let (rest', any) ← struct_pseudo_fields src rest
            .ok (.cons n b rest', any)
      else if n = "#text" then
        match b with
        | .utf8 vs => do
            let vs' ← parse_utf8 vs src.text
            let (rest', _) ← struct_pseudo_fields src rest
            .ok (.cons n (.utf8 vs') rest', true)
        | _ => do
            let (rest', any) ← struct_pseudo_fields src rest
            .ok (.cons n b rest', any)
      else do
        let (rest', any) ← struct_pseudo_fields src rest
        .ok (.cons n b rest', any)

/-- The null-padding loop at the end of `parse_field_struct`: every child not
at `initial + 1` must be exactly at `initial` (`assert_eq!`, a panic
otherwise) and is padded with a null. -/
def struct_pad (initial : Nat) : Fields → Res Fields
  | .nil => .ok .nil
  | .cons n b rest =>
      if b.len = initial + 1 then do
        let rest' ← struct_pad initial rest
        .ok (.cons n b rest')
      else if b.len = initial then do
        let rest' ← struct_pad initial rest
        .ok (.cons n b.pushNull rest')
      else .panic "assertion failed: child column length"

/-- The conditional padding at the end of `parse_field_struct`
(`if parsed_any { ... }`). -/
def struct_pad_if : Bool → Nat → Fields → Res Fields
  | true, initial, cs => struct_pad initial cs
  | false, _, cs => .ok cs

/-! ## `parse_field` (the recursive columnar decoder core) -/

mutual
/-- `parse_field`: dispatch on the builder's arrow2 data type.  Fuel models
the structural recursion on the XML tree; running out yields an `.err`. -/
def parse_field : Nat → Builder → XmlNode → Res Builder
  | 0, _, _ => .err "recursion limit"
  | _ + 1, .utf8 vs, src => do
      let vs' ← parse_utf8 vs src.text
      .ok (.utf8 vs')
  | _ + 1, .uint32 vs, src => do
      let vs' ← parse_from_str rustParseU32 vs src.text
      .ok (.uint32 vs')
  | _ + 1, .int32 vs, src => do
      let vs' ← parse_from_str rustParseI32 vs src.text
      .ok (.int32 vs')
  | _ + 1, .float64 vs, src => do
      let vs' ← parse_from_str (fun s => if floatTextOk s then some s else none) vs src.text
      .ok (.float64 vs')
  | _ + 1, .timestamp vs, src => do
      let vs' ← parse_date64 vs src.text
      .ok (.timestamp vs')
  | _ + 1, .boolean vs, src => do
      let vs' ← parse_bool vs src.text
      .ok (.boolean vs')
  | fuel + 1, .list values slots, src => parse_field_list fuel values slots src
  | fuel + 1, .strct cs validity, src => parse_field_struct fuel cs validity src
/-- `parse_field_list`: decode every element child into the inner values
builder, then seal exactly one valid slot. -/
def parse_field_list : Nat → Builder → List (Option Nat) → XmlNode → Res Builder
  | 0, _, _, _ => .err "recursion limit"
  | fuel + 1, values, slots, src => do
      let values' ← parse_list_items fuel values src.children.toList
      .ok (.list values' (try_push_valid values' slots))
def parse_list_items : Nat → Builder → List XmlNode → Res Builder
  | 0, _, _ => .err "recursion limit"
  | _ + 1, values, [] => .ok values
  | fuel + 1, values, elx :: rest => do
      let v ← parse_field fuel values elx
      parse_list_items fuel v rest
/-- `parse_field_struct`: pseudo fields, then the element-children loop, then
(only when anything was parsed) the null-padding loop, then `push(true)`. -/
def parse_field_struct : Nat → Fields → Option (List Bool) → XmlNode → Res Builder
  | 0, _, _, _ => .err "recursion limit"
  | fuel + 1, cs, validity, src => do
      let initial := Fields.headLen cs
      let (cs1, any1) ← struct_pseudo_fields src cs
      let (cs2, any2) ← parse_struct_children fuel cs1 src.children.toList
      let cs3 ← struct_pad_if (any1 || any2) initial cs2
      .ok (.strct cs3 (struct_push validity true (Fields.headLen cs3)))
def parse_struct_children : Nat → Fields → List XmlNode → Res (Fields × Bool)
  | 0, _, _ => .err "recursion limit"
  | _ + 1, cs, [] => .ok (cs, false)
  | fuel + 1, cs, elx :: rest => do
      let cs' ← parse_into_field fuel cs elx.name elx
      let (cs'', _) ← parse_struct_children fuel cs' rest
      .ok (cs'', true)
/-- One step of the element loop: find the first field whose name matches the
element tag (an unknown tag is a hard error), decode into it. -/
def parse_into_field : Nat → Fields → String → XmlNode → Res Fields
  | 0, _, _, _ => .err "recursion limit"
  | _ + 1, .nil, key, _ => .err ("unknown field " ++ key)
  | fuel + 1, .cons n b rest, key, elx =>
      if n = key then do
        let b' ← parse_field fuel b elx
        .ok (.cons n b' rest)
      else do
        let rest' ← parse_into_field fuel rest key elx
        .ok (.cons n b rest')
end

/-! ## Schema3 (arrow2 pathway schema model) -/

inductive DataType where
  | int32
  | date
  | boolean
  | uint32
  | float64
  | utf8
  | multilingualUtf8
deriving DecidableEq

structure Field3 where
  name : String
  data_type : DataType
deriving DecidableEq

structure Association where
  name : String
  element_name : String
  fields : List Field3
deriving DecidableEq

structure Schema3 where
  fields : List Field3
  associations : List Association
deriving DecidableEq

/-- `data_type_to_mutable_array`: fresh empty builder for a declared type.
A multilingual column is a list of structs with pseudo fields `@id`/`#text`. -/
def data_type_to_mutable_array : DataType → Builder
  | .int32 => .int32 []
  | .uint32 => .uint32 []
  | .float64 => .float64 []
  | .date => .timestamp []
  | .utf8 => .utf8 []
  | .boolean => .boolean []
  | .multilingualUtf8 =>
      .list (.strct (.cons "@id" (.uint32 []) (.cons "#text" (.utf8 []) .nil)) none) []

def fieldsBuilders : List Field3 → Fields
  | [] => .nil
  | f :: rest => .cons f.name (data_type_to_mutable_array f.data_type) (fieldsBuilders rest)

/-- `association_to_mutable_array`: a list of structs over the association's
declared fields. -/
def association_to_mutable_array (a : Association) : Builder :=
  .list (.strct (fieldsBuilders a.fields) none) []

def assocStructFields : List Association → Fields
  | [] => .nil
  | a :: rest => .cons a.name (association_to_mutable_array a) (assocStructFields rest)

/-- `associations_to_mutable_array`: the synthetic struct column holding one
list-of-records child per declared association. -/
def associations_to_mutable_array (as : List Association) : Builder :=
  .strct (assocStructFields as) none

/-! ## `parse_response_to_arrow` (row loop) -/

/-- The column map: the `HashMap<String, (usize, Box<dyn MutableArray>)>` of
`parse_response_to_arrow`, keyed by field name.  The index component is only
used for the final reordering of finished columns into a `Chunk`, which
permutes columns without changing any length, so it is not modelled. -/
abbrev Cols := List (String × Builder)

def lookupCol (m : Cols) (key : String) : Option Builder :=
  (m.find? (fun p => p.1 == key)).map Prod.snd

def updateCol (m : Cols) (key : String) (b : Builder) : Cols :=
  m.map (fun p => if p.1 = key then (p.1, b) else p)

/-- `HashMap::insert`: replace the value under an existing key, append
otherwise. -/
def insertReplace (m : Cols) (key : String) (b : Builder) : Cols :=
  if (lookupCol m key).isSome then updateCol m key b else m ++ [(key, b)]

def initColumns (schema : Schema3) : Cols :=
  let m := schema.fields.foldl
    (fun m f => insertReplace m f.name (data_type_to_mutable_array f.data_type)) []
  if schema.associations.isEmpty then m
  else insertReplace m "associations" (associations_to_mutable_array schema.associations)

/-- The inner loop of a row: every element child must name a column (an
unknown tag is a hard error) and is decoded into it. -/
def parseRowFields (fuel : Nat) (m : Cols) : List XmlNode → Res Cols
  | [] => .ok m
  | elx :: rest =>
      match lookupCol m elx.name with
      | none => .err ("unknown field " ++ elx.name)
      | some b => do
          let b' ← parse_field fuel b elx
          parseRowFields fuel (updateCol m elx.name b') rest

/-- The end-of-row padding loop: a column still at length `i` is padded with
a null; otherwise `assert_eq!(array.len(), i + 1)` (a panic on violation). -/
def padColumns (i : Nat) : Cols → Res Cols
  | [] => .ok []
  | (n, b) :: rest =>
      if b.len = i then do
        let rest' ← padColumns i rest
        .ok ((n, b.pushNull) :: rest')
      else if b.len = i + 1 then do
        let rest' ← padColumns i rest
        .ok ((n, b) :: rest')
      else .panic "assertion failed: array length"

def processRows (fuel : Nat) (m : Cols) : List XmlNode → Nat → Res Cols
  | [], _ => .ok m
  | row :: rest, i => do
      let m1 ← parseRowFields fuel m row.children.toList
      let m2 ← padColumns i m1
      processRows fuel m2 rest (i + 1)

mutual
/-- The checks of `StructArray::try_new`, reached through `as_box` at the end
of `parse_response_to_arrow` (and recursively for struct arrays sitting in
list values): a struct array must have at least one field, all children of
equal length, and any materialised validity bitmap of exactly that length;
`new` unwraps, so a violation is a panic.  List and primitive arrays are
consistent by construction. -/
def Builder.finalizeOk : Builder → Bool
  | .strct cs validity =>
      !cs.isNil &&
      cs.lens.all (fun l => l == cs.headLen) &&
      (match validity with
       | none => true
       | some v => v.length == cs.headLen) &&
      cs.finalizeOkF
  | .list values _ => values.finalizeOk
  | _ => true
def Fields.finalizeOkF : Fields → Bool
  | .nil => true
  | .cons _ b rest => b.finalizeOk && rest.finalizeOkF
end

/-- The finalisation loop of `parse_response_to_arrow` (`array.as_box()` on
every column, panicking inside `StructArray::new` on a violated array
invariant). -/
def finalize_columns (cols : Cols) : Res Cols :=
  if cols.all (fun p => p.2.finalizeOk) then .ok cols
  else .panic "StructArray invariant violated"

/-- `parse_response_to_arrow`: take the first element child of the root as the
row container, build one column per declared field plus the synthetic
`associations` column when associations exist, decode each row, then finalise
every column into an immutable array. -/
def parse_response_to_arrow (fuel : Nat) (schema : Schema3) (doc : XmlNode) : Res Cols :=
  match doc.children.toList.head? with
  | none => .err "no elements in root"
  | some container => do
      let cols ← processRows fuel (initColumns schema) container.children.toList 0
      finalize_columns cols

/-! ## Format table (`format.rs`) -/

inductive Format where
  | IsBool
  | IsFloat
  | IsInt
  | IsJson
  | IsNullOrUnsignedId
  | IsSerializedArray
  | IsString
  | IsUnsignedId
  | IsUnsignedInt
  | IsUnsignedFloat
  | IsAnything
  | IsApe
  | IsBirthDate
  | IsCleanHtml
  | IsColor
  | IsDate
  | IsDateFormat
  | IsEmail
  | IsImageSize
  | IsIp2Long
  | IsLanguageCode
  | IsLanguageIsoCode
  | IsLinkRewrite
  | IsLocale
  | IsMd5
  | IsNumericIsoCode
  | IsPasswd
  | IsPasswdAdmin
  | IsPercentage
  | IsPhpDateFormat
  | IsPriceDisplayMethod
  | IsReductionType
  | IsReference
  | IsSha1
  | IsThemeName
  | IsTrackingNumber
  | IsUrl
  | IsStockManagement
  | IsCatalogName
  | IsCarrierName
  | IsConfigName
  | IsCustomerName
  | IsGenericName
  | IsGenericName1
  | IsImageTypeName
  | IsModuleName
  | IsName
  | IsTplName
  | IsAbsoluteUrl
  | IsEan13
  | IsIsbn
  | IsMpn
  | IsNegativePrice
  | IsPrice
  | IsProductVisibility
  | IsUpc
  | IsAddress
  | IsDniLite
  | IsCityName
  | IsCoordinate
  | IsMessage
  | IsPhoneNumber
  | IsPostCode
  | IsStateIsoCode
  | IsZipCodeFormat
  | IsDateOrNull
deriving DecidableEq

/-- `Format::from_string` via serde with `rename_all = "camelCase"`; the
variant `IsGenericName1` carries an explicit `rename = "IsGenericName"`.  An
identifier outside the closed set fails to parse (modelled as `none`; both
call sites turn it into a hard error). -/
def Format.from_string : String → Option Format
  | "isBool" => some .IsBool
  | "isFloat" => some .IsFloat
  | "isInt" => some .IsInt
  | "isJson" => some .IsJson
  | "isNullOrUnsignedId" => some .IsNullOrUnsignedId
  | "isSerializedArray" => some .IsSerializedArray
  | "isString" => some .IsString
  | "isUnsignedId" => some .IsUnsignedId
  | "isUnsignedInt" => some .IsUnsignedInt
  | "isUnsignedFloat" => some .IsUnsignedFloat
  | "isAnything" => some .IsAnything
  | "isApe" => some .IsApe
  | "isBirthDate" => some .IsBirthDate
  | "isCleanHtml" => some .IsCleanHtml
  | "isColor" => some .IsColor
  | "isDate" => some .IsDate
  | "isDateFormat" => some .IsDateFormat
  | "isEmail" => some .IsEmail
  | "isImageSize" => some .IsImageSize
  | "isIp2Long" => some .IsIp2Long
  | "isLanguageCode" => some .IsLanguageCode
  | "isLanguageIsoCode" => some .IsLanguageIsoCode
  | "isLinkRewrite" => some .IsLinkRewrite
  | "isLocale" => some .IsLocale
  | "isMd5" => some .IsMd5
  | "isNumericIsoCode" => some .IsNumericIsoCode
  | "isPasswd" => some .IsPasswd
  | "isPasswdAdmin" => some .IsPasswdAdmin
  | "isPercentage" => some .IsPercentage
  | "isPhpDateFormat" => some .IsPhpDateFormat
  | "isPriceDisplayMethod" => some .IsPriceDisplayMethod
  | "isReductionType" => some .IsReductionType
  | "isReference" => some .IsReference
  | "isSha1" => some .IsSha1
  | "isThemeName" => some .IsThemeName
  | "isTrackingNumber" => some .IsTrackingNumber
  | "isUrl" => some .IsUrl
  | "isStockManagement" => some .IsStockManagement
  | "isCatalogName" => some .IsCatalogName
  | "isCarrierName" => some .IsCarrierName
  | "isConfigName" => some .IsConfigName
  | "isCustomerName" => some .IsCustomerName
  | "isGenericName" => some .IsGenericName
  | "IsGenericName" => some .IsGenericName1
  | "isImageTypeName" => some .IsImageTypeName
  | "isModuleName" => some .IsModuleName
  | "isName" => some .IsName
  | "isTplName" => some .IsTplName
  | "isAbsoluteUrl" => some .IsAbsoluteUrl
  | "isEan13" => some .IsEan13
  | "isIsbn" => some .IsIsbn
  | "isMpn" => some .IsMpn
  | "isNegativePrice" => some .IsNegativePrice
  | "isPrice" => some .IsPrice
  | "isProductVisibility" => some .IsProductVisibility
  | "isUpc" => some .IsUpc
  | "isAddress" => some .IsAddress
  | "isDniLite" => some .IsDniLite
  | "isCityName" => some .IsCityName
  | "isCoordinate" => some .IsCoordinate
  | "isMessage" => some .IsMessage
  | "isPhoneNumber" => some .IsPhoneNumber
  | "isPostCode" => some .IsPostCode
  | "isStateIsoCode" => some .IsStateIsoCode
  | "isZipCodeFormat" => some .IsZipCodeFormat
  | "isDateOrNull" => some .IsDateOrNull
  | _ => none

/-! ## Schema3 inference (`arrow2/schema3.rs`) -/

def Res.toOption {α : Type} : Res α → Option α
  | .ok a => some a
  | _ => none

/-- `type_from_name`: the name heuristic of the arrow2 pathway (both the `id`
rule and the `date` rule). -/
def type_from_name (name : String) : Option DataType :=
  if strStartsWith name "id" || strEndsWith name "id" then some .uint32
  else if strStartsWith name "date_" || strEndsWith name "_date" then some .date
  else none

/-- `type_from_format` (schema3): the eight supported formats; every other
`Format` is an error (`format {:?} is not supported`). -/
def type_from_format : Format → Res DataType
  | .IsBool => .ok .boolean
  | .IsUnsignedId => .ok .uint32
  | .IsUnsignedInt => .ok .uint32
  | .IsInt => .ok .int32
  | .IsUnsignedFloat => .ok .float64
  | .IsPrice => .ok .float64
  | .IsDateFormat => .ok .utf8
  | .IsDate => .ok .date
  | _ => .err "format is not supported"

/-- `parse_format_attribute`: an absent attribute is fine (`none`); a present
attribute whose value is outside the closed `Format` set is a hard error
(serde failure propagated with `?`). -/
def parse_format_attribute (node : XmlNode) : Res (Option Format) :=
  match node.attribute "format" with
  | some value =>
      match Format.from_string value with
      | some f => .ok (some f)
      | none => .err ("unknown format variant " ++ value)
  | none => .ok none

/-- `parse_simple_datatype`: format hint (an unsupported-but-known format is
dropped via `.ok()`), then the name heuristic, then `Utf8`. -/
def parse_simple_datatype (node : XmlNode) : Res DataType := do
  let fmt ← parse_format_attribute node
  let fromFmt := fmt.bind fun f => (type_from_format f).toOption
  let hinted := fromFmt.orElse fun _ => type_from_name node.name
  .ok (hinted.getD .utf8)

def has_language_child (node : XmlNode) : Bool :=
  node.children.toList.any fun c => c.name == "language" && (c.attribute "id").isSome

def parseAssocItems : List XmlNode → Res (List Field3)
  | [] => .ok []
  | elx :: rest => do
      let dt ← parse_simple_datatype elx
      let fs ← parseAssocItems rest
      .ok (⟨elx.name, dt⟩ :: fs)

def parseAssociationsNode : List XmlNode → Res (List Association)
  | [] => .ok []
  | assoc1 :: rest =>
      match assoc1.children.toList.head? with
      | none => .err "associations should have a child with fields"
      | some assoc2 => do
          let fs ← parseAssocItems assoc2.children.toList
          let more ← parseAssociationsNode rest
          .ok (⟨assoc1.name, assoc2.name, fs⟩ :: more)

def parseSchemaFields : List XmlNode → Res (List Field3 × List Association)
  | [] => .ok ([], [])
  | node :: rest =>
      if node.name = "associations" then do
        let as1 ← parseAssociationsNode node.children.toList
        let (fs, as2) ← parseSchemaFields rest
        .ok (fs, as1 ++ as2)
      else if has_language_child node then do
        let (fs, as2) ← parseSchemaFields rest
        .ok (⟨node.name, DataType.multilingualUtf8⟩ :: fs, as2)
      else do
        let dt ← parse_simple_datatype node
        let (fs, as2) ← parseSchemaFields rest
        .ok (⟨node.name, dt⟩ :: fs, as2)

/-- `schema3::parse_schema`: the container is the first element child of the
root; a synthetic `id: UInt32` field is placed first, then one field per
container child (`associations` being structural metadata, not a field). -/
def parse_schema3 (doc : XmlNode) : Res Schema3 :=
  match doc.children.toList.head? with
  | none => .err "no elements in root"
  | some container => do
      let (fs, as2) ← parseSchemaFields container.children.toList
      .ok ⟨⟨"id", DataType.uint32⟩ :: fs, as2⟩

/-! ## Tree navigator (`parser.rs`); breadcrumb paths carried by the Rust
`Parser` only decorate error messages and are not modelled. -/

def allNamed (name : String) : List XmlNode → Bool
  | [] => true
  | c :: rest => c.name == name && allNamed name rest

/-- `only_same_named_children`: all element children, which must share one
name; an empty child list is allowed. -/
def only_same_named_children (p : XmlNode) : Res (List XmlNode) :=
  match p.children.toList with
  | [] => .ok []
  | c :: rest =>
      if allNamed c.name rest then .ok (c :: rest)
      else .err "elements with differing names where a single name is expected"

/-- `only_same_named_children1`: additionally requires at least one child. -/
def only_same_named_children1 (p : XmlNode) : Res (List XmlNode) := do
  let out ← only_same_named_children p
  if out.isEmpty then .err "no children" else .ok out

def namesDupFree : List String → Bool
  | [] => true
  | x :: rest => !rest.contains x && namesDupFree rest

/-- `uniquely_named_children` (also the duplicate check performed by
`uniquely_named_children_map`): element children with pairwise distinct
names. -/
def uniquely_named_children (p : XmlNode) : Res (List XmlNode) :=
  if namesDupFree (p.children.toList.map XmlNode.name) then .ok p.children.toList
  else .err "there are more than one elements with the same name"

/-- `single_child`: exactly one element child. -/
def single_child (p : XmlNode) : Res XmlNode :=
  match p.children.toList with
  | [c] => .ok c
  | _ => .err "expected single child"

def has_elements (p : XmlNode) : Bool :=
  !p.children.toList.isEmpty

/-- First element child with the given tag (the lookup in the map built by
`uniquely_named_children_map`). -/
def findChild (p : XmlNode) (name : String) : Option XmlNode :=
  p.children.toList.find? fun c => c.name == name

/-! ## Schema2 model (`schema2.rs`); the Rust `Type` is `Ty2` (`Type` is a
Lean keyword) and `Field` is a name/type pair. -/

inductive Ty2 where
  | int32
  | uint32
  | float64
  | utf8
  | bool
  | record (fields : List (String × Ty2))
  | list (name : String) (ty : Ty2)
  | language (id : Nat)

structure Record2 where
  fields : List (String × Ty2)

structure Schema2 where
  record : Record2

/-- `Type::from_name`: only the `id` heuristic exists in this pathway. -/
def Ty2.from_name (name : String) : Option Ty2 :=
  if strStartsWith name "id" || strEndsWith name "id" then some .uint32 else none

/-- `Type::from_format` (schema2): a wider supported set than schema3's, and
in particular `IsDate` maps to `Utf8` here. -/
def Ty2.from_format : Format → Res Ty2
  | .IsBool => .ok .bool
  | .IsUnsignedId => .ok .uint32
  | .IsUnsignedInt => .ok .uint32
  | .IsInt => .ok .int32
  | .IsUnsignedFloat => .ok .float64
  | .IsPrice => .ok .float64
  | .IsEan13 => .ok .utf8
  | .IsUpc => .ok .utf8
  | .IsIsbn => .ok .utf8
  | .IsDateFormat => .ok .utf8
  | .IsDate => .ok .utf8
  | .IsProductVisibility => .ok .utf8
  | .IsString => .ok .utf8
  | .IsGenericName => .ok .utf8
  | .IsCatalogName => .ok .utf8
  | .IsCleanHtml => .ok .utf8
  | .IsLinkRewrite => .ok .utf8
  | .IsGenericName1 => .ok .utf8
  | .IsMpn => .ok .utf8
  | .IsReference => .ok .utf8
  | _ => .err "format is not supported"

/-- `try_type_from_format`: an absent attribute or an unsupported-but-known
format falls through to `Ok(None)`; an identifier outside the closed set is a
hard error (`Format::from_string(...)?`). -/
def try_type_from_format (p : XmlNode) : Res (Option Ty2) :=
  match p.attribute "format" with
  | some format_string =>
      match Format.from_string format_string with
      | none => .err ("unknown format variant " ++ format_string)
      | some format =>
          match Ty2.from_format format with
          | .ok ty => .ok (some ty)
          | _ => .ok none
  | none => .ok none

mutual
/-- `parse_schema_field_type`: format/name hint first (errors of
`try_type_from_format` propagate immediately), then the multilingual
(`language` child) test, then the `nodeType` list marker, then record
children, and only as a fallback the hint or `Utf8`. -/
def parse_schema_field_type : Nat → Option String → XmlNode → Res Ty2
  | 0, _, _ => .err "recursion limit"
  | fuel + 1, name, p => do
      let fmt ← try_type_from_format p
      let maybe_ty := fmt.orElse fun _ => name.bind Ty2.from_name
      match only_same_named_children1 p with
      | .ok v =>
          match v.head? with
          | some tmp =>
              if tmp.name = "language" ∧ has_elements tmp = false ∧
                  (tmp.attribute "id").isSome then
                match tmp.attribute "id" with
                | some value =>
                    match rustParseU32 value with
                    | some id => .ok (.language id)
                    | none => .err ("invalid u32 value " ++ value)
                | none => .err "expected attribute id"
              else parse_sft_rest fuel name p maybe_ty
          | none => parse_sft_rest fuel name p maybe_ty
      | _ => parse_sft_rest fuel name p maybe_ty
/-- Continuation of `parse_schema_field_type` after the multilingual test. -/
def parse_sft_rest : Nat → Option String → XmlNode → Option Ty2 → Res Ty2
  | 0, _, _, _ => .err "recursion limit"
  | fuel + 1, _, p, maybe_ty =>
      if (p.attribute "nodeType").isSome then do
        let pc ← single_child p
        let ty ← parse_schema_field_type fuel (some pc.name) pc
        .ok (.list pc.name ty)
      else do
        let children ← uniquely_named_children p
        let fields ← parse_sft_children fuel children
        if fields.length > 0 then .ok (.record fields)
        else
          match maybe_ty with
          | some ty => .ok ty
          | none => .ok .utf8
def parse_sft_children : Nat → List XmlNode → Res (List (String × Ty2))
  | 0, _ => .err "recursion limit"
  | _ + 1, [] => .ok []
  | fuel + 1, c :: rest => do
      let ty ← parse_schema_field_type fuel (some c.name) c
      let more ← parse_sft_children fuel rest
      .ok ((c.name, ty) :: more)
end

/-- `insert_id_field`: requires the first top-level field to be a record and
prepends `id: UInt32` to it (indexing `fields[0]` panics on an empty record,
which `parse_schema` cannot produce). -/
def insert_id_field (schema : Schema2) : Res Schema2 :=
  match schema.record.fields with
  | [] => .panic "index out of bounds"
  | (n, ty) :: rest =>
      match ty with
      | .record fs => .ok ⟨⟨(n, .record (("id", .uint32) :: fs)) :: rest⟩⟩
      | _ => .err "failed inserting id field"

/-- `schema2::parse_schema`. -/
def parse_schema2 (fuel : Nat) (p : XmlNode) : Res Schema2 := do
  let ty ← parse_schema_field_type fuel none p
  match ty with
  | .record fields => insert_id_field ⟨⟨fields⟩⟩
  | _ => .err "schema must parse to struct"

/-! ## Schema2 JSON decoding (`parse_xml_node_to_json` and friends).
`serde_json` objects are modelled as entry lists in insertion order (the
`BTreeMap` key ordering of `serde_json::Map` only permutes entries and no
claim compares multi-entry objects).  A `Float64` JSON number stores its
accepted source text (see the header note on floats); `Number::from_f64`
fails on the non-finite values `inf`/`infinity`/`nan`. -/

inductive JValue where
  | null
  | bool (b : Bool)
  | num (n : Int)
  | float (s : String)
  | str (s : String)
  | arr (xs : List JValue)
  | obj (entries : List (String × JValue))

/-- `text_to_json_number` (for `i32`/`u32`): unwrap-or-empty, trim, empty to
null, else parse or error. -/
def text_to_json_number (parse : String → Option Int) (p : XmlNode) : Res JValue :=
  let text := rustTrim ((p.text.getD ""))
  if text = "" then .ok .null
  else
    match parse text with
    | some n => .ok (.num n)
    | none => .err ("cannot parse " ++ text)

def floatKeyword (s : String) : Bool :=
  let cs := match s.data with
    | '+' :: rest => rest
    | '-' :: rest => rest
    | cs => cs
  let lower := cs.map Char.toLower
  decide (lower = "inf".data ∨ lower = "infinity".data ∨ lower = "nan".data)

/-- The `Type::Float64` case: `parse_from_str::<f64>` (trim/empty to null)
then `Number::from_f64`, which fails on non-finite values. -/
def text_to_json_float (p : XmlNode) : Res JValue :=
  let text := rustTrim ((p.text.getD ""))
  if text = "" then .ok .null
  else if floatTextOk text then
    if floatKeyword text then .err "failed parsing f64"
    else .ok (.float text)
  else .err ("cannot parse " ++ text)

mutual
/-- `parse_xml_node_to_json`: decode one element against a `Ty2`. -/
def parse_xml_node_to_json : Nat → XmlNode → Ty2 → Res JValue
  | 0, _, _ => .err "recursion limit"
  | fuel + 1, p, ty =>
      match ty with
      | .list fname fty => do
          let cs ← only_same_named_children p
          let vs ← parse_xml_list_items fuel cs fname fty
          .ok (.arr vs)
      | .language _ => do
          let cs ← only_same_named_children p
          let vs ← parse_language_items fuel cs
          .ok (.arr vs)
      | .record fields => parse_xml_record_to_json fuel p fields
      | .int32 => text_to_json_number rustParseI32 p
      | .uint32 => text_to_json_number (fun s => (rustParseU32 s).map Int.ofNat) p
      | .float64 => text_to_json_float p
      | .utf8 => .ok ((p.text.map JValue.str).getD .null)
      | .bool =>
          match p.text with
          | some "1" => .ok (.bool true)
          | some "0" => .ok (.bool false)
          | some z => .err ("invalid boolean " ++ z)
          | none => .ok .null
/-- `parse_xml_list_field` applied to each same-named child: check the child
name against the element field, decode, and wrap in a one-entry object. -/
def parse_xml_list_items : Nat → List XmlNode → String → Ty2 → Res (List JValue)
  | 0, _, _, _ => .err "recursion limit"
  | _ + 1, [], _, _ => .ok []
  | fuel + 1, c :: rest, fname, fty => do
      let pc ← if c.name = fname then Res.ok c
               else Res.err ("expected element name " ++ fname)
      let v ← parse_xml_node_to_json fuel pc fty
      let more ← parse_xml_list_items fuel rest fname fty
      .ok (.obj [(fname, v)] :: more)
/-- The `Type::Language` loop: each child must be named `language` and carry
a numeric `id` attribute. -/
def parse_language_items : Nat → List XmlNode → Res (List JValue)
  | 0, _ => .err "recursion limit"
  | _ + 1, [] => .ok []
  | fuel + 1, c :: rest => do
      let pc ← if c.name = "language" then Res.ok c
               else Res.err "expected element name language"
      let languageValue ← parse_xml_node_to_json fuel pc .utf8
      let idv ← match c.attribute "id" with
        | some value =>
            match rustParseU32 value with
            | some id => Res.ok id
            | none => Res.err ("invalid u32 value " ++ value)
        | none => Res.err "expected attribute id"
      let more ← parse_language_items fuel rest
      .ok (.obj [("language", languageValue), ("id", .num (Int.ofNat idv))] :: more)
/-- `parse_xml_record_to_json`: duplicate child names are an error; then each
declared field present among the children is decoded; children with no
declared field are silently ignored. -/
def parse_xml_record_to_json : Nat → XmlNode → List (String × Ty2) → Res JValue
  | 0, _, _ => .err "recursion limit"
  | fuel + 1, p, fields => do
      let _ ← uniquely_named_children p
      let entries ← parse_record_fields fuel p fields
      .ok (.obj entries)
def parse_record_fields : Nat → XmlNode → List (String × Ty2) → Res (List (String × JValue))
  | 0, _, _ => .err "recursion limit"
  | _ + 1, _, [] => .ok []
  | fuel + 1, p, (fname, fty) :: rest =>
      match findChild p fname with
      | some elc => do
          let v ← parse_xml_node_to_json fuel elc fty
          let more ← parse_record_fields fuel p rest
          .ok ((fname, v) :: more)
      | none => parse_record_fields fuel p rest
end

def parse_jsonl_rows (fuel : Nat) : List XmlNode → Ty2 → Res (List JValue)
  | [], _ => .ok []
  | r :: rest, ty => do
      let v ← parse_xml_node_to_json fuel r ty
      let more ← parse_jsonl_rows fuel rest ty
      .ok (.obj [(r.name, v)] :: more)

/-- `parse_data_to_jsonl`: rows are the same-named children of the single
child of the root; each decodes against the type of the first schema field
and is wrapped in an object keyed by the row's tag name. -/
def parse_data_to_jsonl (fuel : Nat) (p : XmlNode) (schema : Schema2) : Res (List JValue) :=
  match schema.record.fields with
  | [] => .panic "index out of bounds"
  | (_, fty) :: _ => do
      let container ← single_child p
      let rows ← only_same_named_children container
      parse_jsonl_rows fuel rows fty

/-! ## Panic-freedom invariants (well-formed builders and data elements) -/

mutual
/-- A builder shape on which `push_null` actually adds a slot: since a
struct's length is its first child's, a struct must have children (and
recursively so) for `push_null` to be observable.  Builders reached by
`push_null` in the code (top-level columns and struct children) all satisfy
this; an empty struct can only sit inside a list's values, which `push_null`
never enters. -/
def BShape.pnOk : BShape → Prop
  | .strct fs => fs ≠ FShape.nil ∧ fs.pnOkF
  | _ => True
def FShape.pnOkF : FShape → Prop
  | .nil => True
  | .cons _ s rest => s.pnOk ∧ rest.pnOkF
end

def FShape.names : FShape → List String
  | .nil => []
  | .cons n _ rest => n :: rest.names

/-- Number of children of an element carrying a given tag name. -/
def countName : List XmlNode → String → Nat
  | [], _ => 0
  | e :: rest, n => (if XmlNode.name e = n then 1 else 0) + countName rest n

/-- Pointwise length accounting between two field lists: names agree and each
field's length grows by at least zero and at most the budget for its name. -/
def GrowBound : Fields → Fields → (String → Nat) → Prop
  | .nil, .nil, _ => True
  | .cons n b rest, .cons n' b' rest', f =>
      n' = n ∧ b.len ≤ b'.len ∧ b'.len ≤ b.len + f n ∧ GrowBound rest rest' f
  | _, _, _ => False

mutual
/-- Value-level well-formedness of a builder: inside every struct all child
columns have the same length and a materialised validity bitmap has exactly
that length; a list's values builder has a `push_null`-observable shape (in
this program it is a nonempty struct); and every struct child has a sliceable
name (`&field.name[0..1]`), a `push_null`-observable shape, and is itself
well formed. -/
def Builder.inv : Builder → Prop
  | .list values _ => values.inv ∧ values.shape.pnOk
  | .strct cs validity =>
      (∀ l ∈ cs.lens, l = cs.headLen) ∧
      (∀ v, validity = some v → v.length = cs.headLen) ∧
      cs.invF
  | _ => True
def Fields.invF : Fields → Prop
  | .nil => True
  | .cons n b rest => nameByteOk n = true ∧ b.shape.pnOk ∧ b.inv ∧ rest.invF
end

/-- Well-formedness of a data element with respect to the builder shape it is
decoded into: a struct element never repeats a child tag, never carries a
child tag colliding with the attribute/`#text` pseudo fields, has each
matched child recursively well formed, and always matches something (a
pseudo field by shape, or at least one element child) — so it never leaves
`parsed_any` false, which on a materialised validity bitmap would append a
spurious valid bit and desynchronise the bitmap from the children; a list
element has well-formed items; primitive shapes accept anything. -/
inductive GoodS : BShape → XmlNode → Prop where
  | utf8 (e : XmlNode) : GoodS .utf8 e
  | boolean (e : XmlNode) : GoodS .boolean e
  | uint32 (e : XmlNode) : GoodS .uint32 e
  | int32 (e : XmlNode) : GoodS .int32 e
  | float64 (e : XmlNode) : GoodS .float64 e
  | timestamp (e : XmlNode) : GoodS .timestamp e
  | list (s : BShape) (e : XmlNode)
      (hitems : ∀ c ∈ e.children.toList, GoodS s c) : GoodS (.list s) e
  | strct (fs : FShape) (e : XmlNode)
      (hcount : ∀ nm, countName e.children.toList nm ≤ 1)
      (hpseudo : ∀ c ∈ e.children.toList,
        strStartsWith (XmlNode.name c) "@" = false ∧ XmlNode.name c ≠ "#text")
      (hrec : ∀ c ∈ e.children.toList, ∀ s,
        FShape.find? fs (XmlNode.name c) = some s → GoodS s c)
      (hpa : FShape.hasPseudo fs = true ∨ e.children.toList ≠ []) :
      GoodS (.strct fs) e

/-- Declared names that become struct children (the association columns)
must be sliceable at byte 1 — nonempty with a single-byte first character —
or the pseudo-field loop's `&field.name[0..1]` panics; and every association
must declare at least one field, or `StructArray::try_new` rejects the
finalised record array. -/
def schemaNamesOk (schema : Schema3) : Prop :=
  ∀ a ∈ schema.associations, nameByteOk a.name = true ∧ a.fields ≠ [] ∧
    ∀ f ∈ a.fields, nameByteOk f.name = true

/-! ## Result and forest helper lemmas -/

@[simp] theorem Res.bind_ok {α β : Type} (a : α) (f : α → Res β) :
    (Res.ok a >>= f) = f a := rfl

@[simp] theorem Res.bind_err {α β : Type} (m : String) (f : α → Res β) :
    (Res.err m >>= f) = Res.err m := rfl

@[simp] theorem Res.bind_panic {α β : Type} (m : String) (f : α → Res β) :
    (Res.panic m >>= f) = Res.panic m := rfl

@[simp] theorem Res.pure_eq {α : Type} (a : α) : (pure a : Res α) = Res.ok a := rfl

theorem Res.bind_eq_ok {α β : Type} {x : Res α} {f : α → Res β} {b : β} :
    (x >>= f) = Res.ok b ↔ ∃ a, x = Res.ok a ∧ f a = Res.ok b := by
  cases x <;> simp [Res.bind, Bind.bind]

theorem Res.bind_eq_panic {α β : Type} {x : Res α} {f : α → Res β} {m : String} :
    (x >>= f) = Res.panic m ↔
      x = Res.panic m ∨ ∃ a, x = Res.ok a ∧ f a = Res.panic m := by
  cases x <;> simp [Res.bind, Bind.bind]

@[simp] theorem Res.isPanic_ok {α : Type} (a : α) : (Res.ok a).isPanic = false := rfl

@[simp] theorem Res.isPanic_err {α : Type} (m : String) : (Res.err m : Res α).isPanic = false := rfl

@[simp] theorem Res.isPanic_panic {α : Type} (m : String) :
    (Res.panic m : Res α).isPanic = true := rfl

theorem Res.isPanic_bind {α β : Type} {x : Res α} {f : α → Res β}
    (hx : x.isPanic = false) (hf : ∀ a, x = Res.ok a → (f a).isPanic = false) :
    (x >>= f).isPanic = false := by
  cases x with
  | ok a => exact hf a rfl
  | err m => rfl
  | panic m => simp at hx

@[simp] theorem XmlForest.toList_ofList (l : List XmlNode) :
    (XmlForest.ofList l).toList = l := by
  induction l with
  | nil => rfl
  | cons n rest ih => simp [XmlForest.ofList, XmlForest.toList, ih]

/-! ## Basic builder lemmas -/

mutual
theorem Builder.pushNull_len (b : Builder) (h : b.shape.pnOk) :
    b.pushNull.len = b.len + 1 := by
  cases b with
  | list values slots => simp [Builder.pushNull, Builder.len]
  | strct cs validity =>
      cases cs with
      | nil =>
          exfalso
          simp only [Builder.shape, Fields.shapeF, BShape.pnOk] at h
          exact h.1 rfl
      | cons n b rest =>
          simp only [Builder.shape, Fields.shapeF, BShape.pnOk, FShape.pnOkF] at h
          simp [Builder.pushNull, Builder.len, Fields.pushNullAll, Fields.headLen,
            Builder.pushNull_len b h.2.1]
  | utf8 vs => simp [Builder.pushNull, Builder.len]
  | boolean vs => simp [Builder.pushNull, Builder.len]
  | uint32 vs => simp [Builder.pushNull, Builder.len]
  | int32 vs => simp [Builder.pushNull, Builder.len]
  | float64 vs => simp [Builder.pushNull, Builder.len]
  | timestamp vs => simp [Builder.pushNull, Builder.len]
theorem Fields.pushNullAll_lens (cs : Fields) (h : cs.shapeF.pnOkF) :
    cs.pushNullAll.lens = cs.lens.map (· + 1) := by
  cases cs with
  | nil => simp [Fields.pushNullAll, Fields.lens]
  | cons n b rest =>
      simp only [Fields.shapeF, FShape.pnOkF] at h
      simp [Fields.pushNullAll, Fields.lens, Builder.pushNull_len b h.1,
        Fields.pushNullAll_lens rest h.2]
end

theorem Builder.pushNull_len_bound (b : Builder) :
    b.pushNull.len = b.len ∨ b.pushNull.len = b.len + 1 := by
  cases b with
  | list values slots => right; simp [Builder.pushNull, Builder.len]
  | strct cs validity =>
      cases cs with
      | nil => left; simp [Builder.pushNull, Builder.len, Fields.pushNullAll, Fields.headLen]
      | cons n b rest =>
          have := Builder.pushNull_len_bound b
          simpa [Builder.pushNull, Builder.len, Fields.pushNullAll, Fields.headLen] using this
  | utf8 vs => right; simp [Builder.pushNull, Builder.len]
  | boolean vs => right; simp [Builder.pushNull, Builder.len]
  | uint32 vs => right; simp [Builder.pushNull, Builder.len]
  | int32 vs => right; simp [Builder.pushNull, Builder.len]
  | float64 vs => right; simp [Builder.pushNull, Builder.len]
  | timestamp vs => right; simp [Builder.pushNull, Builder.len]
  termination_by b

theorem Fields.pushNullAll_names (cs : Fields) : cs.pushNullAll.names = cs.names := by
  cases cs with
  | nil => rfl
  | cons n b rest => simp [Fields.pushNullAll, Fields.names, Fields.pushNullAll_names rest]

theorem Fields.headLen_eq_lens_head (cs : Fields) :
    cs.headLen = cs.lens.headD 0 := by
  cases cs <;> simp [Fields.headLen, Fields.lens]

/-! ## Shape preservation and per-call growth of the columnar decoder -/

theorem Fields.shapeF_nil_iff (cs : Fields) : cs.shapeF = FShape.nil ↔ cs = .nil := by
  cases cs <;> simp [Fields.shapeF]

theorem Fields.names_eq_shapeF_names (cs : Fields) : cs.names = cs.shapeF.names := by
  cases cs with
  | nil => rfl
  | cons n b rest => simp [Fields.names, Fields.shapeF, FShape.names,
      Fields.names_eq_shapeF_names rest]
  termination_by cs

mutual
theorem Builder.pushNull_shape (b : Builder) : b.pushNull.shape = b.shape := by
  cases b with
  | list values slots => simp [Builder.pushNull, Builder.shape]
  | strct cs validity =>
      simp [Builder.pushNull, Builder.shape, Fields.pushNullAll_shapeF cs]
  | utf8 vs => rfl
  | boolean vs => rfl
  | uint32 vs => rfl
  | int32 vs => rfl
  | float64 vs => rfl
  | timestamp vs => rfl
theorem Fields.pushNullAll_shapeF (cs : Fields) : cs.pushNullAll.shapeF = cs.shapeF := by
  cases cs with
  | nil => rfl
  | cons n b rest =>
      simp [Fields.pushNullAll, Fields.shapeF, Builder.pushNull_shape b,
        Fields.pushNullAll_shapeF rest]
end

theorem GrowBound.self (cs : Fields) (f : String → Nat) : GrowBound cs cs f := by
  cases cs with
  | nil => trivial
  | cons n b rest => exact ⟨rfl, le_refl _, Nat.le_add_right _ _, GrowBound.self rest f⟩
  termination_by cs

theorem GrowBound.mono {cs cs' : Fields} {f g : String → Nat} (hfg : ∀ n, f n ≤ g n)
    (h : GrowBound cs cs' f) : GrowBound cs cs' g := by
  cases cs with
  | nil => cases cs' with
    | nil => trivial
    | cons => exact absurd h (by simp [GrowBound])
  | cons n b rest =>
      cases cs' with
      | nil => exact absurd h (by simp [GrowBound])
      | cons n' b' rest' =>
          obtain ⟨h1, h2, h3, h4⟩ := h
          exact ⟨h1, h2, h3.trans (Nat.add_le_add_left (hfg n) _), GrowBound.mono hfg h4⟩
  termination_by cs

theorem GrowBound.comp {a b c : Fields} {f g : String → Nat}
    (hab : GrowBound a b f) (hbc : GrowBound b c g) :
    GrowBound a c (fun n => f n + g n) := by
  cases a with
  | nil =>
      cases b with
      | nil => cases c with
        | nil => trivial
        | cons => exact absurd hbc (by simp [GrowBound])
      | cons => exact absurd hab (by simp [GrowBound])
  | cons n x rest =>
      cases b with
      | nil => exact absurd hab (by simp [GrowBound])
      | cons n1 y rest1 =>
          cases c with
          | nil => exact absurd hbc (by simp [GrowBound])
          | cons n2 z rest2 =>
              obtain ⟨e1, l1, u1, r1⟩ := hab
              obtain ⟨e2, l2, u2, r2⟩ := hbc
              subst e1; subst e2
              refine ⟨rfl, l1.trans l2, ?_, GrowBound.comp r1 r2⟩
              show z.len ≤ x.len + (f n2 + g n2)
              omega
  termination_by a

theorem GrowBound.names_eq {cs cs' : Fields} {f : String → Nat}
    (h : GrowBound cs cs' f) : cs'.names = cs.names := by
  cases cs with
  | nil => cases cs' with
    | nil => rfl
    | cons => exact absurd h (by simp [GrowBound])
  | cons n b rest =>
      cases cs' with
      | nil => exact absurd h (by simp [GrowBound])
      | cons n' b' rest' =>
          obtain ⟨h1, _, _, h4⟩ := h
          simp [Fields.names, h1, GrowBound.names_eq h4]
  termination_by cs

/-! Per-push length lemmas for the primitive helpers. -/

theorem parse_utf8_len {vals : List (Option String)} {src : Option String}
    {vals' : List (Option String)} (h : parse_utf8 vals src = .ok vals') :
    vals'.length = vals.length + 1 := by
  cases src <;> simp only [parse_utf8, Res.ok.injEq] at h <;> subst h <;> simp

theorem parse_bool_len {vals : List (Option Bool)} {src : Option String}
    {vals' : List (Option Bool)} (h : parse_bool vals src = .ok vals') :
    vals'.length = vals.length + 1 := by
  unfold parse_bool at h
  split at h
  · split at h
    · simp only [Res.ok.injEq] at h; subst h; simp
    · split at h
      · simp only [Res.ok.injEq] at h; subst h; simp
      · exact absurd h (by simp)
  · simp only [Res.ok.injEq] at h; subst h; simp

theorem parse_from_str_len {α : Type} {parse : String → Option α}
    {vals : List (Option α)} {src : Option String} {vals' : List (Option α)}
    (h : parse_from_str parse vals src = .ok vals') :
    vals'.length = vals.length + 1 := by
  unfold parse_from_str at h
  split at h
  · split at h
    · simp only [Res.ok.injEq] at h; subst h; simp
    · exact absurd h (by simp)
  · simp only [Res.ok.injEq] at h; subst h; simp

theorem parse_u32_len {vals : List (Option Nat)} {src : Option String}
    {vals' : List (Option Nat)} (h : parse_u32 vals src = .ok vals') :
    vals'.length = vals.length + 1 := by
  unfold parse_u32 at h
  split at h
  · split at h
    · simp only [Res.ok.injEq] at h; subst h; simp
    · exact absurd h (by simp)
  · simp only [Res.ok.injEq] at h; subst h; simp

theorem parse_date64_len {vals : List (Option String)} {src : Option String}
    {vals' : List (Option String)} (h : parse_date64 vals src = .ok vals') :
    vals'.length = vals.length + 1 := by
  unfold parse_date64 at h
  split at h
  · split at h
    · simp only [Res.ok.injEq] at h; subst h; simp
    · exact absurd h (by simp)
  · simp only [Res.ok.injEq] at h; subst h; simp

/-- Behaviour of the pseudo-field loop: shapes are preserved, only fields
named `@...` or `#text` can grow (by exactly at most one), and when nothing
matched (`parsed_any = false`) the fields are returned unchanged. -/
theorem struct_pseudo_props {src : XmlNode} {cs cs1 : Fields} {any : Bool}
    (h : struct_pseudo_fields src cs = .ok (cs1, any)) :
    cs1.shapeF = cs.shapeF ∧
    GrowBound cs cs1 (fun n => if strStartsWith n "@" || n = "#text" then 1 else 0) ∧
    (any = false → cs1 = cs) := by
  match cs with
  | .nil =>
      simp only [struct_pseudo_fields] at h
      cases h
      exact ⟨rfl, trivial, fun _ => rfl⟩
  | .cons n b rest =>
      simp only [struct_pseudo_fields] at h
      by_cases hemp : nameByteOk n = false
      · rw [if_pos hemp] at h; exact absurd h (by simp)
      · rw [if_neg hemp] at h
        by_cases hat : strStartsWith n "@" = true
        · rw [if_pos hat] at h
          cases b with
          | uint32 vs =>
              simp only [Res.bind_eq_ok] at h
              obtain ⟨vs', hu, h⟩ := h
              obtain ⟨⟨rest', any'⟩, hrest, h⟩ := h
              cases h
              obtain ⟨hs, hg, _⟩ := struct_pseudo_props hrest
              refine ⟨by simp [Fields.shapeF, Builder.shape, hs], ?_, by simp⟩
              refine ⟨rfl, ?_, ?_, hg⟩
              · simp [Builder.len, parse_u32_len hu]
              · simp [Builder.len, parse_u32_len hu, hat]
          | utf8 vs =>
              simp only [Res.bind_eq_ok] at h
              obtain ⟨⟨rest', any'⟩, hrest, h⟩ := h
              cases h
              obtain ⟨hs, hg, hnoop⟩ := struct_pseudo_props hrest
              exact ⟨by simp [Fields.shapeF, hs], ⟨rfl, le_refl _, Nat.le_add_right _ _, hg⟩,
                fun ha => by rw [hnoop ha]⟩
          | boolean vs =>
              simp only [Res.bind_eq_ok] at h
              obtain ⟨⟨rest', any'⟩, hrest, h⟩ := h
              cases h
              obtain ⟨hs, hg, hnoop⟩ := struct_pseudo_props hrest
              exact ⟨by simp [Fields.shapeF, hs], ⟨rfl, le_refl _, Nat.le_add_right _ _, hg⟩,
                fun ha => by rw [hnoop ha]⟩
          | int32 vs =>
              simp only [Res.bind_eq_ok] at h
              obtain ⟨⟨rest', any'⟩, hrest, h⟩ := h
              cases h
              obtain ⟨hs, hg, hnoop⟩ := struct_pseudo_props hrest
              exact ⟨by simp [Fields.shapeF, hs], ⟨rfl, le_refl _, Nat.le_add_right _ _, hg⟩,
                fun ha => by rw [hnoop ha]⟩
          | float64 vs =>
              simp only [Res.bind_eq_ok] at h
              obtain ⟨⟨rest', any'⟩, hrest, h⟩ := h
              cases h
              obtain ⟨hs, hg, hnoop⟩ := struct_pseudo_props hrest
              exact ⟨by simp [Fields.shapeF, hs], ⟨rfl, le_refl _, Nat.le_add_right _ _, hg⟩,
                fun ha => by rw [hnoop ha]⟩
          | timestamp vs =>
              simp only [Res.bind_eq_ok] at h
              obtain ⟨⟨rest', any'⟩, hrest, h⟩ := h
              cases h
              obtain ⟨hs, hg, hnoop⟩ := struct_pseudo_props hrest
              exact ⟨by simp [Fields.shapeF, hs], ⟨rfl, le_refl _, Nat.le_add_right _ _, hg⟩,
                fun ha => by rw [hnoop ha]⟩
          | list values slots =>
              simp only [Res.bind_eq_ok] at h
              obtain ⟨⟨rest', any'⟩, hrest, h⟩ := h
              cases h
              obtain ⟨hs, hg, hnoop⟩ := struct_pseudo_props hrest
              exact ⟨by simp [Fields.shapeF, hs], ⟨rfl, le_refl _, Nat.le_add_right _ _, hg⟩,
                fun ha => by rw [hnoop ha]⟩
          | strct cs2 validity2 =>
              simp only [Res.bind_eq_ok] at h
              obtain ⟨⟨rest', any'⟩, hrest, h⟩ := h
              cases h
              obtain ⟨hs, hg, hnoop⟩ := struct_pseudo_props hrest
              exact ⟨by simp [Fields.shapeF, hs], ⟨rfl, le_refl _, Nat.le_add_right _ _, hg⟩,
                fun ha => by rw [hnoop ha]⟩
        · rw [if_neg hat] at h
          by_cases htx : n = "#text"
          · rw [if_pos htx] at h
            cases b with
            | utf8 vs =>
                simp only [Res.bind_eq_ok] at h
                obtain ⟨vs', hu, h⟩ := h
                obtain ⟨⟨rest', any'⟩, hrest, h⟩ := h
                cases h
                obtain ⟨hs, hg, _⟩ := struct_pseudo_props hrest
                refine ⟨by simp [Fields.shapeF, Builder.shape, hs], ?_, by simp⟩
                refine ⟨rfl, ?_, ?_, hg⟩
                · simp [Builder.len, parse_utf8_len hu]
                · simp [Builder.len, parse_utf8_len hu, htx]
            | boolean vs =>
                simp only [Res.bind_eq_ok] at h
                obtain ⟨⟨rest', any'⟩, hrest, h⟩ := h
                cases h
                obtain ⟨hs, hg, hnoop⟩ := struct_pseudo_props hrest
                exact ⟨by simp [Fields.shapeF, hs], ⟨rfl, le_refl _, Nat.le_add_right _ _, hg⟩,
                  fun ha => by rw [hnoop ha]⟩
            | uint32 vs =>
                simp only [Res.bind_eq_ok] at h
                obtain ⟨⟨rest', any'⟩, hrest, h⟩ := h
                cases h
                obtain ⟨hs, hg, hnoop⟩ := struct_pseudo_props hrest
                exact ⟨by simp [Fields.shapeF, hs], ⟨rfl, le_refl _, Nat.le_add_right _ _, hg⟩,
                  fun ha => by rw [hnoop ha]⟩
            | int32 vs =>
                simp only [Res.bind_eq_ok] at h
                obtain ⟨⟨rest', any'⟩, hrest, h⟩ := h
                cases h
                obtain ⟨hs, hg, hnoop⟩ := struct_pseudo_props hrest
                exact ⟨by simp [Fields.shapeF, hs], ⟨rfl, le_refl _, Nat.le_add_right _ _, hg⟩,
                  fun ha => by rw [hnoop ha]⟩
            | float64 vs =>
                simp only [Res.bind_eq_ok] at h
                obtain ⟨⟨rest', any'⟩, hrest, h⟩ := h
                cases h
                obtain ⟨hs, hg, hnoop⟩ := struct_pseudo_props hrest
                exact ⟨by simp [Fields.shapeF, hs], ⟨rfl, le_refl _, Nat.le_add_right _ _, hg⟩,
                  fun ha => by rw [hnoop ha]⟩
            | timestamp vs =>
                simp only [Res.bind_eq_ok] at h
                obtain ⟨⟨rest', any'⟩, hrest, h⟩ := h
                cases h
                obtain ⟨hs, hg, hnoop⟩ := struct_pseudo_props hrest
                exact ⟨by simp [Fields.shapeF, hs], ⟨rfl, le_refl _, Nat.le_add_right _ _, hg⟩,
                  fun ha => by rw [hnoop ha]⟩
            | list values slots =>
                simp only [Res.bind_eq_ok] at h
                obtain ⟨⟨rest', any'⟩, hrest, h⟩ := h
                cases h
                obtain ⟨hs, hg, hnoop⟩ := struct_pseudo_props hrest
                exact ⟨by simp [Fields.shapeF, hs], ⟨rfl, le_refl _, Nat.le_add_right _ _, hg⟩,
                  fun ha => by rw [hnoop ha]⟩
            | strct cs2 validity2 =>
                simp only [Res.bind_eq_ok] at h
                obtain ⟨⟨rest', any'⟩, hrest, h⟩ := h
                cases h
                obtain ⟨hs, hg, hnoop⟩ := struct_pseudo_props hrest
                exact ⟨by simp [Fields.shapeF, hs], ⟨rfl, le_refl _, Nat.le_add_right _ _, hg⟩,
                  fun ha => by rw [hnoop ha]⟩
          · rw [if_neg htx] at h
            simp only [Res.bind_eq_ok] at h
            obtain ⟨⟨rest', any'⟩, hrest, h⟩ := h
            cases h
            obtain ⟨hs, hg, hnoop⟩ := struct_pseudo_props hrest
            exact ⟨by simp [Fields.shapeF, hs], ⟨rfl, le_refl _, Nat.le_add_right _ _, hg⟩,
              fun ha => by rw [hnoop ha]⟩
  termination_by cs

theorem parse_struct_children_cons_any {fuel : Nat} {cs cs' : Fields} {e : XmlNode}
    {rest : List XmlNode} {any : Bool}
    (h : parse_struct_children fuel cs (e :: rest) = .ok (cs', any)) : any = true := by
  match fuel with
  | 0 => exact absurd h (by simp [parse_struct_children])
  | g + 1 =>
      simp only [parse_struct_children, Res.bind_eq_ok] at h
      obtain ⟨a, _, h⟩ := h
      obtain ⟨b, _, h⟩ := h
      cases h
      rfl

theorem parse_struct_children_false {fuel : Nat} {cs cs' : Fields} {els : List XmlNode}
    (h : parse_struct_children fuel cs els = .ok (cs', false)) : cs' = cs := by
  cases els with
  | nil =>
      match fuel with
      | 0 => exact absurd h (by simp [parse_struct_children])
      | g + 1 =>
          simp only [parse_struct_children, Res.ok.injEq, Prod.mk.injEq] at h
          exact h.1.symm
  | cons e rest => exact absurd (parse_struct_children_cons_any h) (by simp)

theorem struct_pad_shape {initial : Nat} {cs cs' : Fields}
    (h : struct_pad initial cs = .ok cs') : cs'.shapeF = cs.shapeF := by
  match cs with
  | .nil =>
      simp only [struct_pad, Res.ok.injEq] at h
      subst h
      rfl
  | .cons n b rest =>
      simp only [struct_pad] at h
      split at h
      · simp only [Res.bind_eq_ok] at h
        obtain ⟨rest', hrest, h⟩ := h
        simp only [Res.ok.injEq] at h
        subst h
        simp [Fields.shapeF, struct_pad_shape hrest]
      · split at h
        · simp only [Res.bind_eq_ok] at h
          obtain ⟨rest', hrest, h⟩ := h
          simp only [Res.ok.injEq] at h
          subst h
          simp [Fields.shapeF, struct_pad_shape hrest, Builder.pushNull_shape]
        · exact absurd h (by simp)
  termination_by cs

theorem struct_pad_headLen_cases {initial : Nat} {cs cs' : Fields}
    (h : struct_pad initial cs = .ok cs') :
    (cs = .nil ∧ cs' = .nil) ∨
      cs'.headLen = initial ∨ cs'.headLen = initial + 1 := by
  match cs with
  | .nil =>
      simp only [struct_pad, Res.ok.injEq] at h
      subst h
      exact Or.inl ⟨rfl, rfl⟩
  | .cons n b rest =>
      simp only [struct_pad] at h
      split at h
      · rename_i h1
        simp only [Res.bind_eq_ok] at h
        obtain ⟨rest', hrest, h⟩ := h
        simp only [Res.ok.injEq] at h
        subst h
        exact Or.inr (Or.inr (by simp [Fields.headLen, h1]))
      · split at h
        · rename_i h1 h0
          simp only [Res.bind_eq_ok] at h
          obtain ⟨rest', hrest, h⟩ := h
          simp only [Res.ok.injEq] at h
          subst h
          rcases Builder.pushNull_len_bound b with hb | hb
          · exact Or.inr (Or.inl (by simp [Fields.headLen, hb, h0]))
          · exact Or.inr (Or.inr (by simp [Fields.headLen, hb, h0]))
        · exact absurd h (by simp)

theorem struct_pad_ok_lens {initial : Nat} {cs cs' : Fields} (hpn : cs.shapeF.pnOkF)
    (h : struct_pad initial cs = .ok cs') : ∀ l ∈ cs'.lens, l = initial + 1 := by
  match cs with
  | .nil =>
      simp only [struct_pad, Res.ok.injEq] at h
      subst h
      simp [Fields.lens]
  | .cons n b rest =>
      simp only [struct_pad] at h
      simp only [Fields.shapeF, FShape.pnOkF] at hpn
      split at h
      · rename_i h1
        simp only [Res.bind_eq_ok] at h
        obtain ⟨rest', hrest, h⟩ := h
        simp only [Res.ok.injEq] at h
        subst h
        intro l hl
        simp only [Fields.lens, List.mem_cons] at hl
        rcases hl with hl | hl
        · exact hl ▸ h1
        · exact struct_pad_ok_lens hpn.2 hrest l hl
      · split at h
        · rename_i h1 h0
          simp only [Res.bind_eq_ok] at h
          obtain ⟨rest', hrest, h⟩ := h
          simp only [Res.ok.injEq] at h
          subst h
          intro l hl
          simp only [Fields.lens, List.mem_cons] at hl
          rcases hl with hl | hl
          · rw [hl, Builder.pushNull_len b hpn.1, h0]
          · exact struct_pad_ok_lens hpn.2 hrest l hl
        · exact absurd h (by simp)
  termination_by cs

theorem struct_pad_ok_of_bounds {initial : Nat} {cs : Fields}
    (hb : ∀ l ∈ cs.lens, l = initial ∨ l = initial + 1) :
    ∃ cs', struct_pad initial cs = .ok cs' := by
  match cs with
  | .nil => exact ⟨.nil, rfl⟩
  | .cons n b rest =>
      obtain ⟨rest', hrest⟩ :=
        @struct_pad_ok_of_bounds initial rest (fun l hl => hb l (by simp [Fields.lens, hl]))
      rcases hb b.len (by simp [Fields.lens]) with h0 | h1
      · by_cases he : b.len = initial + 1
        · exact ⟨.cons n b rest', by simp [struct_pad, he, hrest]⟩
        · exact ⟨.cons n b.pushNull rest', by simp [struct_pad, he, h0, hrest]⟩
      · exact ⟨.cons n b rest', by simp [struct_pad, h1, hrest]⟩
  termination_by cs

theorem struct_pseudo_noop {src : XmlNode} {cs : Fields}
    (h : ∀ n ∈ cs.names, strStartsWith n "@" = false ∧ n ≠ "#text" ∧ nameByteOk n = true) :
    struct_pseudo_fields src cs = .ok (cs, false) := by
  match cs with
  | .nil => rfl
  | .cons n b rest =>
      have hn := h n (by simp [Fields.names])
      have hrest : struct_pseudo_fields src rest = .ok (rest, false) :=
        struct_pseudo_noop fun m hm => h m (by simp [Fields.names, hm])
      simp [struct_pseudo_fields, hn.2.2, hn.1, hn.2.1, hrest]
  termination_by cs

/-- The central structural facts about one `parse_field` call: the builder's
shape is preserved; its length grows by zero or one; a list result seals
exactly one slot; a struct result records its slot with `push(true)`; and
inside a struct each field grows by at most the number of element children
carrying its name (plus at most one via the pseudo-field loop, accounted for
separately). -/
theorem parse_shape_grow : ∀ fuel : Nat,
    (∀ dst src b', parse_field fuel dst src = .ok b' →
      b'.shape = dst.shape ∧ (b'.len = dst.len ∨ b'.len = dst.len + 1)) ∧
    (∀ values slots src b', parse_field_list fuel values slots src = .ok b' →
      ∃ values', b' = .list values' (try_push_valid values' slots) ∧
        values'.shape = values.shape) ∧
    (∀ values els v', parse_list_items fuel values els = .ok v' →
      v'.shape = values.shape) ∧
    (∀ cs validity src b', parse_field_struct fuel cs validity src = .ok b' →
      ∃ cs', b' = .strct cs' (struct_push validity true cs'.headLen) ∧
        cs'.shapeF = cs.shapeF ∧
        (cs'.headLen = cs.headLen ∨ cs'.headLen = cs.headLen + 1)) ∧
    (∀ cs els out, parse_struct_children fuel cs els = .ok out →
      out.1.shapeF = cs.shapeF ∧ GrowBound cs out.1 (countName els)) ∧
    (∀ cs key elx cs', parse_into_field fuel cs key elx = .ok cs' →
      cs'.shapeF = cs.shapeF ∧
        GrowBound cs cs' (fun nm => if nm = key then 1 else 0)) := by
  intro fuel
  induction fuel with
  | zero =>
      refine ⟨?_, ?_, ?_, ?_, ?_, ?_⟩ <;> intros <;>
        simp_all [parse_field, parse_field_list, parse_list_items,
          parse_field_struct, parse_struct_children, parse_into_field]
  | succ n ih =>
      obtain ⟨ihf, ihl, ihi, ihs, ihc, ihin⟩ := ih
      refine ⟨?_, ?_, ?_, ?_, ?_, ?_⟩
      · intro dst src b' h
        cases dst with
        | utf8 vs =>
            simp only [parse_field, Res.bind_eq_ok] at h
            obtain ⟨vs', hu, h⟩ := h
            simp only [Res.ok.injEq] at h
            subst h
            exact ⟨rfl, Or.inr (by simp [Builder.len, parse_utf8_len hu])⟩
        | uint32 vs =>
            simp only [parse_field, Res.bind_eq_ok] at h
            obtain ⟨vs', hu, h⟩ := h
            simp only [Res.ok.injEq] at h
            subst h
            exact ⟨rfl, Or.inr (by simp [Builder.len, parse_from_str_len hu])⟩
        | int32 vs =>
            simp only [parse_field, Res.bind_eq_ok] at h
            obtain ⟨vs', hu, h⟩ := h
            simp only [Res.ok.injEq] at h
            subst h
            exact ⟨rfl, Or.inr (by simp [Builder.len, parse_from_str_len hu])⟩
        | float64 vs =>
            simp only [parse_field, Res.bind_eq_ok] at h
            obtain ⟨vs', hu, h⟩ := h
            simp only [Res.ok.injEq] at h
            subst h
            exact ⟨rfl, Or.inr (by simp [Builder.len, parse_from_str_len hu])⟩
        | timestamp vs =>
            simp only [parse_field, Res.bind_eq_ok] at h
            obtain ⟨vs', hu, h⟩ := h
            simp only [Res.ok.injEq] at h
            subst h
            exact ⟨rfl, Or.inr (by simp [Builder.len, parse_date64_len hu])⟩
        | boolean vs =>
            simp only [parse_field, Res.bind_eq_ok] at h
            obtain ⟨vs', hu, h⟩ := h
            simp only [Res.ok.injEq] at h
            subst h
            exact ⟨rfl, Or.inr (by simp [Builder.len, parse_bool_len hu])⟩
        | list values slots =>
            simp only [parse_field] at h
            obtain ⟨values', hb, hs⟩ := ihl values slots src b' h
            subst hb
            exact ⟨by simp [Builder.shape, hs],
              Or.inr (by simp [Builder.len, try_push_valid])⟩
        | strct cs validity =>
            simp only [parse_field] at h
            obtain ⟨cs', hb, hs, hl⟩ := ihs cs validity src b' h
            subst hb
            exact ⟨by simp [Builder.shape, hs], by simpa [Builder.len] using hl⟩
      · intro values slots src b' h
        simp only [parse_field_list, Res.bind_eq_ok] at h
        obtain ⟨values', hv, h⟩ := h
        simp only [Res.ok.injEq] at h
        subst h
        exact ⟨values', rfl, ihi values src.children.toList values' hv⟩
      · intro values els v' h
        cases els with
        | nil =>
            simp only [parse_list_items, Res.ok.injEq] at h
            subst h
            rfl
        | cons e rest =>
            simp only [parse_list_items, Res.bind_eq_ok] at h
            obtain ⟨v1, h1, h2⟩ := h
            exact (ihi v1 rest v' h2).trans (ihf values e v1 h1).1
      · intro cs validity src b' h
        simp only [parse_field_struct, Res.bind_eq_ok] at h
        obtain ⟨p1, hps, h⟩ := h
        obtain ⟨p2, hch, h⟩ := h
        obtain ⟨cs3, hpad, h⟩ := h
        simp only [Res.ok.injEq] at h
        subst h
        obtain ⟨cs1, any1⟩ := p1
        obtain ⟨cs2, any2⟩ := p2
        dsimp only at hps hch hpad
        obtain ⟨hs1, _, hnoop1⟩ := struct_pseudo_props hps
        obtain ⟨hs2, _⟩ := ihc cs1 src.children.toList (cs2, any2) hch
        cases hcond : (any1 || any2) with
        | false =>
            rw [hcond] at hpad
            simp only [struct_pad_if, Res.ok.injEq] at hpad
            subst hpad
            simp only [Bool.or_eq_false_iff] at hcond
            have e1 : cs1 = cs := hnoop1 hcond.1
            have e2 : cs2 = cs1 := by
              have := hcond.2
              subst this
              exact parse_struct_children_false hch
            subst e2; subst e1
            exact ⟨_, rfl, rfl, Or.inl rfl⟩
        | true =>
            rw [hcond] at hpad
            simp only [struct_pad_if] at hpad
            have hshape : cs2.shapeF = cs.shapeF := hs2.trans hs1
            refine ⟨cs3, rfl, (struct_pad_shape hpad).trans hshape, ?_⟩
            by_cases hnil : cs = Fields.nil
            · subst hnil
              have : cs2 = Fields.nil := (Fields.shapeF_nil_iff cs2).mp (by simpa using hshape)
              subst this
              simp only [struct_pad, Res.ok.injEq] at hpad
              subst hpad
              exact Or.inl rfl
            · rcases struct_pad_headLen_cases hpad with ⟨h2nil, _⟩ | hc
              · exact absurd ((Fields.shapeF_nil_iff cs).mp (by
                  rw [← hshape, h2nil]; rfl)) hnil
              · exact hc
      · intro cs els out h
        cases els with
        | nil =>
            simp only [parse_struct_children, Res.ok.injEq] at h
            subst h
            exact ⟨rfl, GrowBound.self cs _⟩
        | cons e rest =>
            simp only [parse_struct_children, Res.bind_eq_ok] at h
            obtain ⟨cs1, hin, h⟩ := h
            obtain ⟨⟨cs2, any2⟩, hrest, h⟩ := h
            simp only [Res.ok.injEq] at h
            subst h
            obtain ⟨hsin, hgin⟩ := ihin cs e.name e cs1 hin
            obtain ⟨hsc, hgc⟩ := ihc cs1 rest (cs2, any2) hrest
            refine ⟨hsc.trans hsin, ?_⟩
            refine GrowBound.mono ?_ (GrowBound.comp hgin hgc)
            intro nm
            by_cases hnm : nm = e.name
            · subst hnm
              simp [countName]
            · have : XmlNode.name e ≠ nm := fun hh => hnm hh.symm
              simp [countName, hnm, this]
      · intro cs key elx cs' h
        cases cs with
        | nil => exact absurd h (by simp [parse_into_field])
        | cons m b rest =>
            simp only [parse_into_field] at h
            by_cases hk : m = key
            · rw [if_pos hk] at h
              simp only [Res.bind_eq_ok] at h
              obtain ⟨b1, hb, h⟩ := h
              simp only [Res.ok.injEq] at h
              subst h
              obtain ⟨hbs, hbl⟩ := ihf b elx b1 hb
              refine ⟨by simp [Fields.shapeF, hbs], ?_, ?_, ?_, GrowBound.self rest _⟩
              · rfl
              · rcases hbl with hl | hl <;> omega
              · show b1.len ≤ b.len + (if m = key then 1 else 0)
                rw [if_pos hk]
                rcases hbl with hl | hl <;> omega
            · rw [if_neg hk] at h
              simp only [Res.bind_eq_ok] at h
              obtain ⟨rest', hr, h⟩ := h
              simp only [Res.ok.injEq] at h
              subst h
              obtain ⟨hrs, hrg⟩ := ihin rest key elx rest' hr
              exact ⟨by simp [Fields.shapeF, hrs], rfl, le_refl _, Nat.le_add_right _ _, hrg⟩

/-! ## Claim C2 -/

/-- Claim C2 (amended): primitive decoding laws of the columnar decoder.
Boolean text `"1"` decodes to `true`, `"0"` to `false`, absent text to null,
and any other present text, including all-whitespace text, is a hard error.
The numeric primitives (`UInt32`, `Int32`, `Float64`) trim first, so absent
or all-whitespace text decodes to null, parsable text to the value, and any
other text is a hard error.  Date text is fed to chrono untrimmed, so absent
text is null but whitespace-only text is a hard error.  All errors are
ordinary `.err` values which the surrounding decode propagates, so there is
no row-level recovery. -/
theorem c2_primitive_laws :
    (∀ fuel vs src, XmlNode.text src = none →
        parse_field (fuel + 1) (.boolean vs) src = .ok (.boolean (vs ++ [none]))) ∧
    (∀ fuel vs src, XmlNode.text src = some "1" →
        parse_field (fuel + 1) (.boolean vs) src = .ok (.boolean (vs ++ [some true]))) ∧
    (∀ fuel vs src, XmlNode.text src = some "0" →
        parse_field (fuel + 1) (.boolean vs) src = .ok (.boolean (vs ++ [some false]))) ∧
    (∀ fuel vs src s, XmlNode.text src = some s → s ≠ "1" → s ≠ "0" →
        ∃ m, parse_field (fuel + 1) (.boolean vs) src = .err m) ∧
    (∀ fuel vs src, non_empty (XmlNode.text src) = none →
        parse_field (fuel + 1) (.uint32 vs) src = .ok (.uint32 (vs ++ [none]))) ∧
    (∀ fuel vs src s n, non_empty (XmlNode.text src) = some s → rustParseU32 s = some n →
        parse_field (fuel + 1) (.uint32 vs) src = .ok (.uint32 (vs ++ [some n]))) ∧
    (∀ fuel vs src s, non_empty (XmlNode.text src) = some s → rustParseU32 s = none →
        ∃ m, parse_field (fuel + 1) (.uint32 vs) src = .err m) ∧
    (∀ fuel vs src, non_empty (XmlNode.text src) = none →
        parse_field (fuel + 1) (.int32 vs) src = .ok (.int32 (vs ++ [none]))) ∧
    (∀ fuel vs src s, non_empty (XmlNode.text src) = some s → rustParseI32 s = none →
        ∃ m, parse_field (fuel + 1) (.int32 vs) src = .err m) ∧
    (∀ fuel vs src, non_empty (XmlNode.text src) = none →
        parse_field (fuel + 1) (.float64 vs) src = .ok (.float64 (vs ++ [none]))) ∧
    (∀ fuel vs src s, non_empty (XmlNode.text src) = some s → floatTextOk s = false →
        ∃ m, parse_field (fuel + 1) (.float64 vs) src = .err m) ∧
    (∀ fuel vs src, XmlNode.text src = none →
        parse_field (fuel + 1) (.timestamp vs) src = .ok (.timestamp (vs ++ [none]))) ∧
    (∀ fuel vs src s, XmlNode.text src = some s → dateTextOk s = true →
        parse_field (fuel + 1) (.timestamp vs) src = .ok (.timestamp (vs ++ [some s]))) ∧
    (∀ fuel vs src s, XmlNode.text src = some s → dateTextOk s = false →
        ∃ m, parse_field (fuel + 1) (.timestamp vs) src = .err m) := by
  refine ⟨?_, ?_, ?_, ?_, ?_, ?_, ?_, ?_, ?_, ?_, ?_, ?_, ?_, ?_⟩
  · intro fuel vs src h; simp [parse_field, parse_bool, h]
  · intro fuel vs src h; simp [parse_field, parse_bool, h]
  · intro fuel vs src h; simp [parse_field, parse_bool, h]
  · intro fuel vs src s h h1 h0
    refine ⟨"invalid bool value " ++ s, ?_⟩
    simp [parse_field, parse_bool, h, h1, h0]
  · intro fuel vs src h; simp [parse_field, parse_from_str, h]
  · intro fuel vs src s n h hp; simp [parse_field, parse_from_str, h, hp]
  · intro fuel vs src s h hp
    refine ⟨"cannot parse " ++ s, ?_⟩
    simp [parse_field, parse_from_str, h, hp]
  · intro fuel vs src h; simp [parse_field, parse_from_str, h]
  · intro fuel vs src s h hp
    refine ⟨"cannot parse " ++ s, ?_⟩
    simp [parse_field, parse_from_str, h, hp]
  · intro fuel vs src h; simp [parse_field, parse_from_str, h]
  · intro fuel vs src s h hp
    refine ⟨"cannot parse " ++ s, ?_⟩
    simp [parse_field, parse_from_str, h, hp]
  · intro fuel vs src h; simp [parse_field, parse_date64, h]
  · intro fuel vs src s h hp; simp [parse_field, parse_date64, h, hp]
  · intro fuel vs src s h hp
    refine ⟨"invalid date value " ++ s, ?_⟩
    simp [parse_field, parse_date64, h, hp]

/-- Claim C2, counterexample to the claim as stated: a whitespace-only
boolean text is a decode-aborting error, not a null (and likewise aborts the
whole document decode). -/
theorem c2_counterexample :
    parse_response_to_arrow 10 ⟨[⟨"flag", DataType.boolean⟩], []⟩
        (el "r" [el "rows" [el "row" [elT "flag" " "]]]) =
      .err ("invalid bool value " ++ " ") ∧
    parse_field 1 (Builder.boolean []) (elT "flag" " ") ≠
      .ok (Builder.boolean [none]) := by
  refine ⟨rfl, fun h => ?_⟩
  rw [show parse_field 1 (Builder.boolean []) (elT "flag" " ") =
        Res.err ("invalid bool value " ++ " ") from rfl] at h
  exact Res.noConfusion h

/-- Claim C2, witness: the amended laws applied at concrete inputs. -/
theorem c2_witness :
    (∃ m, parse_field 1 (Builder.boolean []) (elT "flag" " ") = .err m) ∧
    parse_field 1 (Builder.uint32 []) (elT "n" " ") = .ok (.uint32 [none]) ∧
    parse_field 1 (Builder.uint32 []) (elT "n" " 42 ") = .ok (.uint32 [some 42]) ∧
    parse_field 1 (Builder.boolean []) (elT "flag" "1") = .ok (.boolean [some true]) := by
  have h := c2_primitive_laws
  refine ⟨h.2.2.2.1 0 [] _ " " rfl (by decide) (by decide), ?_, ?_, ?_⟩
  · exact h.2.2.2.2.1 0 [] _ rfl
  · exact h.2.2.2.2.2.1 0 [] _ "42" 42 rfl rfl
  · exact h.2.1 0 [] _ rfl

/-! ## Claim C6 -/

/-- Claim C6 (confirmed): for a list-typed slot, a successful decode appends
exactly one valid slot to the list column regardless of how many child
elements were decoded; when the present list element has zero children (and
the builder's offsets are consistent, as they always are for builders the
decoder constructs), the sealed slot is an empty list, never a null.  The
schema2 JSON pathway likewise decodes a childless list element to an empty
JSON array. -/
theorem c6_empty_list_law :
    (∀ fuel values slots src b',
        parse_field fuel (.list values slots) src = .ok b' →
        ∃ values',
          b' = .list values' (slots ++ [some (values'.len - consumed slots)])) ∧
    (∀ fuel values slots src, XmlNode.children src = .nil →
        consumed slots = values.len →
        parse_field (fuel + 3) (.list values slots) src =
          .ok (.list values (slots ++ [some 0]))) ∧
    (∀ fuel p fname fty, XmlNode.children p = .nil →
        parse_xml_node_to_json (fuel + 2) p (Ty2.list fname fty) = .ok (.arr [])) := by
  refine ⟨?_, ?_, ?_⟩
  · intro fuel values slots src b' h
    match fuel with
    | 0 => exact absurd h (by simp [parse_field])
    | 1 => exact absurd h (by simp [parse_field, parse_field_list])
    | g + 2 =>
        simp only [parse_field, parse_field_list, Res.bind_eq_ok] at h
        obtain ⟨values', hv, hb⟩ := h
        cases hb
        exact ⟨values', by simp [try_push_valid]⟩
  · intro fuel values slots src hc hcons
    simp [parse_field, parse_field_list, parse_list_items, try_push_valid, hc,
      XmlForest.toList, hcons]
  · intro fuel p fname fty hc
    simp [parse_xml_node_to_json, only_same_named_children, hc, XmlForest.toList,
      parse_xml_list_items]

/-- Claim C6, witness: a present, childless list element yields one empty,
non-null list slot (columnar), and an empty JSON array (JSON pathway). -/
theorem c6_witness :
    parse_field 3 (.list (.utf8 []) []) (el "tags" []) =
      .ok (.list (.utf8 []) [some 0]) ∧
    parse_xml_node_to_json 2 (el "tags" []) (Ty2.list "tag" .utf8) = .ok (.arr []) := by
  have h := c6_empty_list_law
  exact ⟨h.2.1 0 (.utf8 []) [] (el "tags" []) rfl rfl, h.2.2 0 (el "tags" []) "tag" .utf8 rfl⟩

/-! ## Claim C4 -/

/-- Claim C4 (amended): when a record-typed slot is decoded from a present
element, every child column ends exactly one past the struct's initial
length whenever at least one subfield or attribute/`#text` pseudo field was
matched, and the slot is recorded with `push(true)` (appended to a
materialised validity bitmap, a no-op on an unmaterialised one — both leave
the slot valid).  But when a present element matches nothing, no child
column advances, and `push(true)` records nothing on an unmaterialised
bitmap, so the caller's end-of-row padding nulls that row's slot exactly as
for an absent element; on an already materialised bitmap `push(true)`
instead appends a spurious valid bit, desynchronising the bitmap from the
children, and the decode then panics inside `StructArray::new` at
finalisation.  A null slot therefore does not require an absent element. -/
theorem c4_struct_presence :
    (∀ fuel cs validity src b', cs.shapeF.pnOkF →
        XmlNode.children src ≠ .nil →
        parse_field fuel (.strct cs validity) src = .ok b' →
        ∃ cs', b' = .strct cs' (struct_push validity true cs'.headLen) ∧
          ∀ l ∈ cs'.lens, l = cs.headLen + 1) ∧
    (∀ fuel cs validity src,
        (∀ n ∈ cs.names, strStartsWith n "@" = false ∧ n ≠ "#text" ∧ nameByteOk n = true) →
        XmlNode.children src = .nil →
        parse_field (fuel + 3) (.strct cs validity) src =
          .ok (.strct cs (struct_push validity true cs.headLen))) ∧
    (∀ k, struct_push none true k = none) ∧
    (∀ v k, struct_push (some v) true k = some (v ++ [true])) ∧
    (∀ cs validity, (Builder.strct cs validity).pushNull =
        .strct cs.pushNullAll (struct_push validity false cs.pushNullAll.headLen) ∧
      (cs.shapeF.pnOkF → cs.pushNullAll.lens = cs.lens.map (· + 1))) ∧
    (parse_response_to_arrow 10 ⟨[], [⟨"a1", "row", [⟨"id", DataType.uint32⟩]⟩]⟩
        (el "t" [el "rows" [el "row" [], el "row" [el "associations" []]]]) =
      .panic "StructArray invariant violated") := by
  refine ⟨?_, ?_, fun k => rfl, fun v k => rfl, ?_, rfl⟩
  · intro fuel cs validity src b' hpn hne h
    match fuel with
    | 0 => exact absurd h (by simp [parse_field])
    | 1 => exact absurd h (by simp [parse_field, parse_field_struct])
    | g + 2 =>
        simp only [parse_field, parse_field_struct, Res.bind_eq_ok] at h
        obtain ⟨p1, hps, h⟩ := h
        obtain ⟨p2, hch, h⟩ := h
        obtain ⟨cs3, hpad, h⟩ := h
        simp only [Res.ok.injEq] at h
        subst h
        obtain ⟨cs1, any1⟩ := p1
        obtain ⟨cs2, any2⟩ := p2
        dsimp only at hps hch hpad
        obtain ⟨hs1, _, _⟩ := struct_pseudo_props hps
        obtain ⟨hs2, _⟩ := (parse_shape_grow g).2.2.2.2.1 cs1 src.children.toList
          (cs2, any2) hch
        have hany2 : any2 = true := by
          cases hcl : src.children with
          | nil => exact absurd hcl hne
          | cons e rest =>
              rw [hcl] at hch
              simp only [XmlForest.toList] at hch
              exact parse_struct_children_cons_any hch
        rw [hany2, Bool.or_true] at hpad
        simp only [struct_pad_if] at hpad
        have hshape : cs2.shapeF = cs.shapeF := hs2.trans hs1
        refine ⟨cs3, rfl, ?_⟩
        exact struct_pad_ok_lens (by rw [hshape]; exact hpn) hpad
  · intro fuel cs validity src hnames hc
    simp [parse_field, parse_field_struct, struct_pseudo_noop hnames, hc,
      XmlForest.toList, parse_struct_children, struct_pad_if]
  · intro cs validity
    exact ⟨rfl, fun h => Fields.pushNullAll_lens cs h⟩

/-- Claim C4, counterexample to the claim as stated: a present but childless
`<associations/>` element matches no subfield, so `push(true)` records
nothing on the unmaterialised validity bitmap and the column does not
advance; the caller's end-of-row padding then nulls the slot — the decoded
column carries validity `some [false]`, a null slot for a row whose element
was present, contradicting "null exactly when the corresponding element is
entirely absent". -/
theorem c4_counterexample :
    parse_response_to_arrow 10 ⟨[], [⟨"a1", "row", [⟨"id", DataType.uint32⟩]⟩]⟩
        (el "t" [el "rows" [el "row" [el "associations" []]]]) =
      .ok [("associations",
        .strct (.cons "a1"
            (.list (.strct (.cons "id" (.uint32 []) .nil) none) [none]) .nil)
          (some [false]))] := rfl

/-- Claim C4, witness: the amended struct laws at concrete inputs — a
present element with one matched subfield advances every child column to
initial + 1 and leaves the lazy bitmap untouched; a match-nothing present
element on a materialised bitmap appends the spurious valid bit; and the
caller's padding pushes a null onto every child while recording an invalid
slot. -/
theorem c4_witness :
    (∃ cs', parse_field 5
        (.strct (.cons "a" (.utf8 []) (.cons "b" (.uint32 []) .nil)) none)
          (el "s" [elT "a" "x"]) =
        .ok (.strct cs' none) ∧ ∀ l ∈ cs'.lens, l = 1) ∧
    parse_field 3 (.strct (.cons "a" (.utf8 []) .nil) (some [false])) (el "s" []) =
      .ok (.strct (.cons "a" (.utf8 []) .nil) (some [false, true])) ∧
    (Builder.strct (.cons "a" (.utf8 [some "x"]) .nil) none).pushNull =
      .strct (.cons "a" (.utf8 [some "x", none]) .nil) (some [true, false]) := by
  have h := c4_struct_presence
  refine ⟨?_, ?_, ?_⟩
  · obtain ⟨cs', hb, hl⟩ := h.1 5 (.cons "a" (.utf8 []) (.cons "b" (.uint32 []) .nil)) none
      (el "s" [elT "a" "x"]) _ (by simp [Fields.shapeF, FShape.pnOkF, Builder.shape, BShape.pnOk])
      (by simp [el, XmlForest.ofList, XmlNode.children]) rfl
    refine ⟨cs', ?_, by simpa [Fields.headLen, Builder.len] using hl⟩
    have hres : parse_field 5
        (.strct (.cons "a" (.utf8 []) (.cons "b" (.uint32 []) .nil)) none)
          (el "s" [elT "a" "x"]) =
        .ok (.strct cs' (struct_push none true cs'.headLen)) := by
      rw [← hb]
      rfl
    exact hres
  · have hb := h.2.1 0 (.cons "a" (.utf8 []) .nil) (some [false]) (el "s" [])
      (by intro n hn; simp [Fields.names] at hn; subst hn
          refine ⟨rfl, by decide, by decide⟩) rfl
    rw [hb]
    rfl
  · exact (h.2.2.2.2.1 (.cons "a" (.utf8 [some "x"]) .nil) none).1

/-! ## Claim C3 -/

/-- Claim C3, counterexample to the claim as stated: the node
`<name format="isBool"><language id="1"/></name>` carries a `format`
attribute that both format tables resolve to a primitive (Boolean), yet both
inference pathways classify the node as multilingual — the structural rules
are tested before the format hint, so the format rule does not take strict
priority over the multilingual classification. -/
theorem c3_counterexample :
    Format.from_string "isBool" = some .IsBool ∧
    type_from_format .IsBool = .ok .boolean ∧
    Ty2.from_format .IsBool = .ok .bool ∧
    parse_schema3
        (el "r" [el "fields"
          [elA "name" [("format", "isBool")] none [elA "language" [("id", "1")] none []]]]) =
      .ok ⟨[⟨"id", DataType.uint32⟩, ⟨"name", DataType.multilingualUtf8⟩], []⟩ ∧
    parse_schema_field_type 10 (some "name")
        (elA "name" [("format", "isBool")] none [elA "language" [("id", "1")] none []]) =
      .ok (.language 1) := ⟨rfl, rfl, rfl, rfl, rfl⟩

/-- Claim C3 (amended): the format-to-primitive rule takes priority over the
name heuristic and the Utf8 default in both pathways, but only after the
structural classifications — in the arrow2 pathway a resolvable format
attribute fixes the type of any non-multilingual, non-`associations` node
regardless of its name, and in the schema2 pathway a resolvable format fixes
the type of any node with no element children and no `nodeType` marker. -/
theorem c3_format_priority :
    (∀ node f t, parse_format_attribute node = .ok (some f) →
        type_from_format f = .ok t → parse_simple_datatype node = .ok t) ∧
    (∀ fuel name p ty, try_type_from_format p = .ok (some ty) →
        XmlNode.children p = .nil → XmlNode.attribute p "nodeType" = none →
        parse_schema_field_type (fuel + 3) name p = .ok ty) := by
  constructor
  · intro node f t h1 h2
    simp [parse_simple_datatype, h1, h2, Res.toOption, Option.orElse]
  · intro fuel name p ty h1 hc hnt
    simp [parse_schema_field_type, parse_sft_rest, parse_sft_children, h1, hc, hnt,
      only_same_named_children1, only_same_named_children, XmlForest.toList,
      uniquely_named_children, namesDupFree, Option.orElse]

/-- Claim C3, witness: the amended priority applied at a concrete node with
a `format` hint, no structure and a name that would otherwise default. -/
theorem c3_witness :
    parse_simple_datatype (elA "x" [("format", "isBool")] none []) = .ok .boolean ∧
    parse_schema_field_type 3 (some "x") (elA "x" [("format", "isBool")] none []) =
      .ok Ty2.bool := by
  have h := c3_format_priority
  exact ⟨h.1 _ .IsBool _ rfl rfl, h.2 0 (some "x") _ Ty2.bool rfl rfl rfl⟩

/-! ## Claim C7 -/

/-- Claim C7, counterexample to the claim as stated: for a format identifier
outside the closed set (`bogus`) the arrow2 pathway does NOT fall back to the
heuristics — it hard-errors, exactly like the schema2 pathway; and for a
known-but-unsupported format (`isEmail`) the schema2 pathway does NOT
hard-error — it falls back (`Ok(None)` and then the Utf8 default), exactly
like the arrow2 pathway.  There is no dual policy. -/
theorem c7_counterexample :
    parse_simple_datatype (elA "x" [("format", "bogus")] none []) =
      .err ("unknown format variant " ++ "bogus") ∧
    try_type_from_format (elA "x" [("format", "bogus")] none []) =
      .err ("unknown format variant " ++ "bogus") ∧
    try_type_from_format (elA "x" [("format", "isEmail")] none []) = .ok none ∧
    parse_schema_field_type 3 (some "x") (elA "x" [("format", "isEmail")] none []) =
      .ok .utf8 := ⟨rfl, rfl, rfl, rfl⟩

/-- Claim C7 (amended): both inference pathways share one format-failure
policy — an identifier outside the closed `Format` set is a hard,
inference-aborting error in both, while an identifier inside the set whose
format the respective table does not support is treated as no hint (falling
back to the name heuristics and the Utf8 default) in both. -/
theorem c7_format_failure_policy :
    (∀ node s, XmlNode.attribute node "format" = some s →
        Format.from_string s = none →
        parse_simple_datatype node = .err ("unknown format variant " ++ s) ∧
        try_type_from_format node = .err ("unknown format variant " ++ s)) ∧
    (∀ node s f m, XmlNode.attribute node "format" = some s →
        Format.from_string s = some f → type_from_format f = .err m →
        parse_simple_datatype node =
          .ok ((type_from_name (XmlNode.name node)).getD .utf8)) ∧
    (∀ node s f m, XmlNode.attribute node "format" = some s →
        Format.from_string s = some f → Ty2.from_format f = .err m →
        try_type_from_format node = .ok none) := by
  refine ⟨?_, ?_, ?_⟩
  · intro node s h1 h2
    constructor
    · simp [parse_simple_datatype, parse_format_attribute, h1, h2]
    · simp [try_type_from_format, h1, h2]
  · intro node s f m h1 h2 h3
    simp [parse_simple_datatype, parse_format_attribute, h1, h2, h3, Res.toOption,
      Option.orElse]
  · intro node s f m h1 h2 h3
    simp [try_type_from_format, h1, h2, h3]

/-- Claim C7, witness: the shared policy at concrete nodes. -/
theorem c7_witness :
    (parse_simple_datatype (elA "y" [("format", "nonsense")] none []) =
        .err ("unknown format variant " ++ "nonsense") ∧
      try_type_from_format (elA "y" [("format", "nonsense")] none []) =
        .err ("unknown format variant " ++ "nonsense")) ∧
    parse_simple_datatype (elA "y" [("format", "isEmail")] none []) = .ok .utf8 ∧
    try_type_from_format (elA "y" [("format", "isEmail")] none []) = .ok none := by
  have h := c7_format_failure_policy
  refine ⟨h.1 _ "nonsense" rfl rfl, ?_, ?_⟩
  · exact h.2.1 _ "isEmail" .IsEmail "format is not supported" rfl rfl rfl
  · exact h.2.2 _ "isEmail" .IsEmail "format is not supported" rfl rfl rfl

/-! ## Claim C9 -/

/-- Claim C9, counterexample to the claim as stated: the name `date_add`
with no format hint and no structure infers `Date` in the arrow2 pathway but
plain `Utf8` in the schema2 pathway — the legacy pathway's `Type::from_name`
has no date rule at all (its `Type` enum cannot even express a date), so the
date heuristic does not hold "in both inference pathways". -/
theorem c9_counterexample :
    parse_simple_datatype (el "date_add" []) = .ok .date ∧
    parse_schema_field_type 3 (some "date_add") (el "date_add" []) = .ok .utf8 ∧
    Ty2.from_name "date_add" = none := ⟨rfl, rfl, rfl⟩

/-- Claim C9 (amended): with no usable format hint and no classifying
structure, a tag name starting or ending with `id` infers UInt32 in both
pathways; a name matching `date_*`/`*_date` (and not the id rule) infers
Date in the arrow2 pathway only, while the schema2 pathway has no date
heuristic and falls through to Utf8; all remaining names default to Utf8 in
both. -/
theorem c9_name_heuristic :
    (∀ node, XmlNode.attribute node "format" = none →
        (strStartsWith (XmlNode.name node) "id" || strEndsWith (XmlNode.name node) "id") = true →
        parse_simple_datatype node = .ok .uint32) ∧
    (∀ node, XmlNode.attribute node "format" = none →
        (strStartsWith (XmlNode.name node) "id" || strEndsWith (XmlNode.name node) "id") = false →
        (strStartsWith (XmlNode.name node) "date_" ||
          strEndsWith (XmlNode.name node) "_date") = true →
        parse_simple_datatype node = .ok .date) ∧
    (∀ node, XmlNode.attribute node "format" = none →
        (strStartsWith (XmlNode.name node) "id" || strEndsWith (XmlNode.name node) "id") = false →
        (strStartsWith (XmlNode.name node) "date_" ||
          strEndsWith (XmlNode.name node) "_date") = false →
        parse_simple_datatype node = .ok .utf8) ∧
    (∀ fuel nm p, XmlNode.children p = .nil → XmlNode.attribute p "format" = none →
        XmlNode.attribute p "nodeType" = none →
        (strStartsWith nm "id" || strEndsWith nm "id") = true →
        parse_schema_field_type (fuel + 3) (some nm) p = .ok .uint32) ∧
    (∀ fuel nm p, XmlNode.children p = .nil → XmlNode.attribute p "format" = none →
        XmlNode.attribute p "nodeType" = none →
        (strStartsWith nm "id" || strEndsWith nm "id") = false →
        parse_schema_field_type (fuel + 3) (some nm) p = .ok .utf8) := by
  refine ⟨?_, ?_, ?_, ?_, ?_⟩
  · intro node h1 h2
    simp [parse_simple_datatype, parse_format_attribute, h1, type_from_name, h2,
      Option.orElse]
  · intro node h1 h2 h3
    simp only [Bool.or_eq_false_iff] at h2
    simp [parse_simple_datatype, parse_format_attribute, h1, type_from_name, h2.1,
      h2.2, h3, Option.orElse]
  · intro node h1 h2 h3
    simp only [Bool.or_eq_false_iff] at h2
    simp only [Bool.or_eq_false_iff] at h3
    simp [parse_simple_datatype, parse_format_attribute, h1, type_from_name, h2.1,
      h2.2, h3.1, h3.2, Option.orElse]
  · intro fuel nm p hc h1 hnt h2
    simp [parse_schema_field_type, parse_sft_rest, parse_sft_children,
      try_type_from_format, h1, hc, hnt, Ty2.from_name, h2,
      only_same_named_children1, only_same_named_children, XmlForest.toList,
      uniquely_named_children, namesDupFree, Option.orElse]
    simp only [Bool.or_eq_true] at h2
    rw [if_pos h2]
  · intro fuel nm p hc h1 hnt h2
    simp only [Bool.or_eq_false_iff] at h2
    simp [parse_schema_field_type, parse_sft_rest, parse_sft_children,
      try_type_from_format, h1, hc, hnt, Ty2.from_name, h2.1, h2.2,
      only_same_named_children1, only_same_named_children, XmlForest.toList,
      uniquely_named_children, namesDupFree, Option.orElse]

/-- Claim C9, witness: the heuristics at concrete names. -/
theorem c9_witness :
    parse_simple_datatype (el "id_supplier" []) = .ok .uint32 ∧
    parse_simple_datatype (el "date_upd" []) = .ok .date ∧
    parse_simple_datatype (el "color" []) = .ok .utf8 ∧
    parse_schema_field_type 3 (some "id_supplier") (el "id_supplier" []) = .ok .uint32 ∧
    parse_schema_field_type 3 (some "date_upd") (el "date_upd" []) = .ok .utf8 := by
  have h := c9_name_heuristic
  refine ⟨h.1 _ rfl rfl, h.2.1 _ rfl rfl rfl, h.2.2.1 _ rfl rfl rfl, ?_, ?_⟩
  · exact h.2.2.2.1 0 "id_supplier" _ rfl rfl rfl rfl
  · exact h.2.2.2.2 0 "date_upd" _ rfl rfl rfl rfl

/-! ## Claim C8 -/

/-- Claim C8 (confirmed): whenever schema inference succeeds, the resulting
top-level record starts with the synthetic field `id` of type UInt32 — in
the arrow2 pathway the schema's field list begins with `id: UInt32`, and in
the schema2 pathway the single top-level container field holds a record
whose first field is `id: UInt32` (inserted by `insert_id_field`). -/
theorem c8_synthetic_id :
    (∀ doc s3, parse_schema3 doc = .ok s3 →
      ∃ rest, s3.fields = ⟨"id", DataType.uint32⟩ :: rest) ∧
    (∀ fuel p s2, parse_schema2 fuel p = .ok s2 →
      ∃ nm fs rest,
        s2.record.fields = (nm, Ty2.record (("id", Ty2.uint32) :: fs)) :: rest) := by
  constructor
  · intro doc s3 h
    unfold parse_schema3 at h
    cases hh : doc.children.toList.head? with
    | none => rw [hh] at h; exact absurd h (by simp)
    | some container =>
        rw [hh] at h
        simp only [Res.bind_eq_ok] at h
        obtain ⟨⟨fs, as2⟩, _, h⟩ := h
        simp only [Res.ok.injEq] at h
        subst h
        exact ⟨fs, rfl⟩
  · intro fuel p s2 h
    unfold parse_schema2 at h
    simp only [Res.bind_eq_ok] at h
    obtain ⟨ty, _, h⟩ := h
    cases ty with
    | record fields =>
        cases fields with
        | nil => exact absurd h (by simp [insert_id_field])
        | cons f rest =>
            obtain ⟨nm, ty0⟩ := f
            cases ty0 with
            | record fs =>
                simp only [insert_id_field, Res.ok.injEq] at h
                subst h
                exact ⟨nm, fs, rest, rfl⟩
            | int32 => exact absurd h (by simp [insert_id_field])
            | uint32 => exact absurd h (by simp [insert_id_field])
            | float64 => exact absurd h (by simp [insert_id_field])
            | utf8 => exact absurd h (by simp [insert_id_field])
            | bool => exact absurd h (by simp [insert_id_field])
            | list nm2 ty2 => exact absurd h (by simp [insert_id_field])
            | language id => exact absurd h (by simp [insert_id_field])
    | int32 => exact absurd h (by simp)
    | uint32 => exact absurd h (by simp)
    | float64 => exact absurd h (by simp)
    | utf8 => exact absurd h (by simp)
    | bool => exact absurd h (by simp)
    | list nm ty2 => exact absurd h (by simp)
    | language id => exact absurd h (by simp)

/-- Claim C8, witness: both inference pathways on concrete sample documents
place the synthetic `id: UInt32` first. -/
theorem c8_witness :
    (∃ rest, (Schema3.mk [⟨"id", DataType.uint32⟩, ⟨"name", DataType.utf8⟩] []).fields =
      ⟨"id", DataType.uint32⟩ :: rest) ∧
    (∃ nm fs rest,
      (Schema2.mk ⟨[("products",
          Ty2.record [("id", Ty2.uint32), ("product", Ty2.record [("descr", Ty2.utf8)])])]⟩
        ).record.fields = (nm, Ty2.record (("id", Ty2.uint32) :: fs)) :: rest) := by
  have h := c8_synthetic_id
  constructor
  · exact h.1 (el "r" [el "fields" [el "name" []]]) _ rfl
  · exact h.2 20 (el "prestashop" [el "products" [el "product" [el "descr" []]]]) _ rfl

/-! ## Column-map lemmas for the row loop -/

theorem Res.bind_assoc {α β γ : Type} (x : Res α) (f : α → Res β) (g : β → Res γ) :
    (x >>= f) >>= g = x >>= fun a => f a >>= g := by
  cases x <;> rfl

theorem updateCol_keys (m : Cols) (k : String) (b : Builder) :
    (updateCol m k b).map Prod.fst = m.map Prod.fst := by
  induction m with
  | nil => rfl
  | cons p rest ih =>
      by_cases h : p.1 = k <;> simp [updateCol, h] <;>
        simpa [updateCol] using ih

theorem lookupCol_isSome_iff (m : Cols) (k : String) :
    (lookupCol m k).isSome ↔ k ∈ m.map Prod.fst := by
  induction m with
  | nil => simp [lookupCol]
  | cons p rest ih =>
      cases hbe : (p.1 == k) with
      | true =>
          have h : p.1 = k := by simpa using hbe
          simp [lookupCol, List.find?, hbe, h]
      | false =>
          have h : ¬p.1 = k := by simpa using hbe
          have hstep : lookupCol (p :: rest) k = lookupCol rest k := by
            simp [lookupCol, List.find?, hbe]
          rw [hstep, ih]
          simp only [List.map_cons, List.mem_cons]
          constructor
          · exact Or.inr
          · rintro (hc | hc)
            · exact absurd hc.symm h
            · exact hc

theorem lookupCol_mem {m : Cols} {k : String} {b : Builder}
    (h : lookupCol m k = some b) : ∃ p ∈ m, p.1 = k ∧ p.2 = b := by
  unfold lookupCol at h
  cases hf : m.find? (fun p => p.1 == k) with
  | none => rw [hf] at h; exact absurd h (by simp)
  | some q =>
      rw [hf] at h
      simp only [Option.map] at h
      simp only [Option.some.injEq] at h
      have hm := List.mem_of_find?_eq_some hf
      have hk := List.find?_some hf
      simp only [beq_iff_eq] at hk
      exact ⟨q, hm, hk, h⟩

theorem mem_insertReplace {m : Cols} {k : String} {b : Builder} {p : String × Builder}
    (h : p ∈ insertReplace m k b) : p ∈ m ∨ p.2 = b := by
  unfold insertReplace at h
  split at h
  · simp only [updateCol, List.mem_map] at h
    obtain ⟨q, hq, heq⟩ := h
    by_cases hk : q.1 = k
    · rw [if_pos hk] at heq; right; rw [← heq]
    · rw [if_neg hk] at heq; left; rw [← heq]; exact hq
  · rcases List.mem_append.mp h with h | h
    · left; exact h
    · right
      have := List.eq_of_mem_singleton h
      rw [this]

theorem mem_keys_insertReplace_self (m : Cols) (k : String) (b : Builder) :
    k ∈ (insertReplace m k b).map Prod.fst := by
  unfold insertReplace
  split
  · rename_i hs
    rw [updateCol_keys]
    exact (lookupCol_isSome_iff m k).mp hs
  · simp

theorem mem_keys_insertReplace_mono (m : Cols) (k : String) (b : Builder) {k' : String}
    (h : k' ∈ m.map Prod.fst) : k' ∈ (insertReplace m k b).map Prod.fst := by
  unfold insertReplace
  split
  · rw [updateCol_keys]; exact h
  · simp only [List.map_append, List.mem_append]
    exact Or.inl h

theorem data_type_to_mutable_array_len (dt : DataType) :
    (data_type_to_mutable_array dt).len = 0 := by
  cases dt <;> rfl

theorem data_type_to_mutable_array_pnOk (dt : DataType) :
    (data_type_to_mutable_array dt).shape.pnOk := by
  cases dt <;> simp [data_type_to_mutable_array, Builder.shape, BShape.pnOk]

theorem associations_to_mutable_array_len (as : List Association) :
    (associations_to_mutable_array as).len = 0 := by
  cases as <;> rfl

theorem assocStructFields_pnOkF (as : List Association) :
    (assocStructFields as).shapeF.pnOkF := by
  induction as with
  | nil => trivial
  | cons a rest ih =>
      exact ⟨by simp [association_to_mutable_array, Builder.shape, BShape.pnOk], ih⟩

theorem associations_to_mutable_array_pnOk (as : List Association) (h : as ≠ []) :
    (associations_to_mutable_array as).shape.pnOk := by
  cases as with
  | nil => exact absurd rfl h
  | cons a rest =>
      refine ⟨by simp [assocStructFields, Fields.shapeF], ?_⟩
      exact assocStructFields_pnOkF (a :: rest)

theorem foldl_insert_mono (fs : List Field3) (m0 : Cols) {k : String}
    (h : k ∈ m0.map Prod.fst) :
    k ∈ ((fs.foldl
      (fun m f => insertReplace m f.name (data_type_to_mutable_array f.data_type)) m0).map
        Prod.fst) := by
  induction fs generalizing m0 with
  | nil => exact h
  | cons f rest ih =>
      exact ih _ (mem_keys_insertReplace_mono m0 f.name _ h)

theorem foldl_insert_mem (fs : List Field3) (m0 : Cols) :
    ∀ f ∈ fs, f.name ∈ ((fs.foldl
      (fun m f => insertReplace m f.name (data_type_to_mutable_array f.data_type)) m0).map
        Prod.fst) := by
  induction fs generalizing m0 with
  | nil => intro f hf; exact absurd hf (by simp)
  | cons g rest ih =>
      intro f hf
      rcases List.mem_cons.mp hf with hf | hf
      · subst hf
        exact foldl_insert_mono rest _ (mem_keys_insertReplace_self m0 f.name _)
      · exact ih _ f hf

theorem foldl_insert_builders (fs : List Field3) (m0 : Cols) (P : Builder → Prop)
    (hP : ∀ dt, P (data_type_to_mutable_array dt)) (h0 : ∀ p ∈ m0, P p.2) :
    ∀ p ∈ (fs.foldl
      (fun m f => insertReplace m f.name (data_type_to_mutable_array f.data_type)) m0),
      P p.2 := by
  induction fs generalizing m0 with
  | nil => exact h0
  | cons f rest ih =>
      refine ih _ ?_
      intro p hp
      rcases mem_insertReplace hp with hp | hp
      · exact h0 p hp
      · rw [hp]; exact hP _

theorem initColumns_builders (schema : Schema3) (P : Builder → Prop)
    (hP : ∀ dt, P (data_type_to_mutable_array dt))
    (hA : schema.associations ≠ [] → P (associations_to_mutable_array schema.associations)) :
    ∀ p ∈ initColumns schema, P p.2 := by
  unfold initColumns
  by_cases hemp : schema.associations.isEmpty
  · simp only [hemp, if_true]
    exact foldl_insert_builders _ _ P hP (by simp)
  · simp only [hemp, if_false]
    intro p hp
    rcases mem_insertReplace hp with hp | hp
    · exact foldl_insert_builders _ _ P hP (by simp) p hp
    · rw [hp]
      exact hA (by simpa [List.isEmpty_iff] using hemp)

theorem initColumns_field_keys (schema : Schema3) :
    ∀ f ∈ schema.fields, f.name ∈ (initColumns schema).map Prod.fst := by
  intro f hf
  unfold initColumns
  by_cases hemp : schema.associations.isEmpty
  · simp only [hemp, if_true]
    exact foldl_insert_mem _ _ f hf
  · simp only [hemp, if_false]
    exact mem_keys_insertReplace_mono _ _ _ (foldl_insert_mem _ _ f hf)

theorem initColumns_assoc_key (schema : Schema3) (h : schema.associations ≠ []) :
    "associations" ∈ (initColumns schema).map Prod.fst := by
  unfold initColumns
  have hemp : schema.associations.isEmpty = false := by
    simpa [List.isEmpty_iff] using h
  simp only [hemp, if_false, Bool.false_eq_true]
  exact mem_keys_insertReplace_self _ _ _

theorem padColumns_props {i : Nat} {m m' : Cols} (h : padColumns i m = .ok m') :
    (∀ p' ∈ m', ∃ p ∈ m, p.1 = p'.1 ∧ p'.2.shape = p.2.shape) ∧
    (m'.map Prod.fst = m.map Prod.fst) ∧
    ((∀ p ∈ m, p.2.shape.pnOk) → ∀ p' ∈ m', p'.2.len = i + 1) := by
  induction m generalizing m' with
  | nil =>
      simp only [padColumns, Res.ok.injEq] at h
      subst h
      exact ⟨by simp, rfl, by simp⟩
  | cons p rest ih =>
      obtain ⟨n, b⟩ := p
      simp only [padColumns] at h
      split at h
      · rename_i h0
        simp only [Res.bind_eq_ok] at h
        obtain ⟨rest', hrest, h⟩ := h
        simp only [Res.ok.injEq] at h
        subst h
        obtain ⟨ihs, ihk, ihl⟩ := ih hrest
        refine ⟨?_, by simp [ihk], ?_⟩
        · intro p' hp'
          rcases List.mem_cons.mp hp' with hp' | hp'
          · exact ⟨(n, b), by simp, by simp [hp'], by simp [hp', Builder.pushNull_shape]⟩
          · obtain ⟨q, hq, h1, h2⟩ := ihs p' hp'
            exact ⟨q, by simp [hq], h1, h2⟩
        · intro hpn p' hp'
          rcases List.mem_cons.mp hp' with hp' | hp'
          · rw [hp']
            simp only
            rw [Builder.pushNull_len b (hpn (n, b) (by simp)), h0]
          · exact ihl (fun q hq => hpn q (by simp [hq])) p' hp'
      · split at h
        · rename_i h0 h1
          simp only [Res.bind_eq_ok] at h
          obtain ⟨rest', hrest, h⟩ := h
          simp only [Res.ok.injEq] at h
          subst h
          obtain ⟨ihs, ihk, ihl⟩ := ih hrest
          refine ⟨?_, by simp [ihk], ?_⟩
          · intro p' hp'
            rcases List.mem_cons.mp hp' with hp' | hp'
            · exact ⟨(n, b), by simp, by simp [hp'], by simp [hp']⟩
            · obtain ⟨q, hq, h2, h3⟩ := ihs p' hp'
              exact ⟨q, by simp [hq], h2, h3⟩
          · intro hpn p' hp'
            rcases List.mem_cons.mp hp' with hp' | hp'
            · rw [hp']
              simpa using h1
            · exact ihl (fun q hq => hpn q (by simp [hq])) p' hp'
        · exact absurd h (by simp)

theorem parseRowFields_props {fuel : Nat} {m m' : Cols} {els : List XmlNode}
    (h : parseRowFields fuel m els = .ok m') :
    (m'.map Prod.fst = m.map Prod.fst) ∧
    (∀ p' ∈ m', ∃ p ∈ m, p.1 = p'.1 ∧ p'.2.shape = p.2.shape) ∧
    (∀ e ∈ els, XmlNode.name e ∈ m.map Prod.fst) := by
  induction els generalizing m with
  | nil =>
      simp only [parseRowFields, Res.ok.injEq] at h
      subst h
      exact ⟨rfl, fun p' hp' => ⟨p', hp', rfl, rfl⟩, by simp⟩
  | cons e rest ih =>
      simp only [parseRowFields] at h
      cases hl : lookupCol m e.name with
      | none => rw [hl] at h; exact absurd h (by simp)
      | some b =>
          rw [hl] at h
          simp only [Res.bind_eq_ok] at h
          obtain ⟨b', hb, h⟩ := h
          obtain ⟨ihk, ihs, ihn⟩ := ih h
          have hkeys : (updateCol m e.name b').map Prod.fst = m.map Prod.fst :=
            updateCol_keys m e.name b'
          refine ⟨ihk.trans hkeys, ?_, ?_⟩
          · intro p' hp'
            obtain ⟨q, hq, h1, h2⟩ := ihs p' hp'
            simp only [updateCol, List.mem_map] at hq
            obtain ⟨q0, hq0, heq⟩ := hq
            by_cases hk : q0.1 = e.name
            · rw [if_pos hk] at heq
              obtain ⟨p0, hp0, hpk, hpb⟩ := lookupCol_mem hl
              refine ⟨p0, hp0, ?_, ?_⟩
              · have h1' : q0.1 = p'.1 := by
                  rw [← heq] at h1
                  simpa using h1
                rw [hpk, ← hk]
                exact h1'
              · have h2' : p'.2.shape = b'.shape := by
                  rw [← heq] at h2
                  simpa using h2
                rw [h2', ((parse_shape_grow fuel).1 b e b' hb).1, hpb]
            · rw [if_neg hk] at heq
              rw [heq] at hq0
              exact ⟨q, hq0, h1, h2⟩
          · intro e' he'
            rcases List.mem_cons.mp he' with he' | he'
            · subst he'
              exact (lookupCol_isSome_iff m e'.name).mp (by simp [hl])
            · rw [← hkeys]
              exact ihn e' he'

theorem processRows_props {fuel : Nat} :
    ∀ {rows : List XmlNode} {m m' : Cols} {i : Nat},
    processRows fuel m rows i = .ok m' →
    (m'.map Prod.fst = m.map Prod.fst) ∧
    (∀ p' ∈ m', ∃ p ∈ m, p.1 = p'.1 ∧ p'.2.shape = p.2.shape) ∧
    ((∀ p ∈ m, p.2.shape.pnOk) → (∀ p ∈ m, p.2.len = i) →
      ∀ p' ∈ m', p'.2.len = i + rows.length) ∧
    (∀ row ∈ rows, ∀ e ∈ row.children.toList, XmlNode.name e ∈ m.map Prod.fst) := by
  intro rows
  induction rows with
  | nil =>
      intro m m' i h
      simp only [processRows, Res.ok.injEq] at h
      subst h
      exact ⟨rfl, fun p' hp' => ⟨p', hp', rfl, rfl⟩,
        fun _ hlen p' hp' => by simpa using hlen p' hp', by simp⟩
  | cons row rest ih =>
      intro m m' i h
      simp only [processRows, Res.bind_eq_ok] at h
      obtain ⟨m1, h1, h⟩ := h
      obtain ⟨m2, h2, h⟩ := h
      obtain ⟨rk, rs, rn⟩ := parseRowFields_props h1
      obtain ⟨ps, pk, pl⟩ := padColumns_props h2
      obtain ⟨ik, is, il, inm⟩ := ih h
      have hshape2 : ∀ p' ∈ m2, ∃ p ∈ m, p.1 = p'.1 ∧ p'.2.shape = p.2.shape := by
        intro p' hp'
        obtain ⟨q, hq, e1, e2⟩ := ps p' hp'
        obtain ⟨q0, hq0, e3, e4⟩ := rs q hq
        exact ⟨q0, hq0, e3.trans e1, e2.trans e4⟩
      refine ⟨?_, ?_, ?_, ?_⟩
      · exact ik.trans (pk.trans rk)
      · intro p' hp'
        obtain ⟨q, hq, e1, e2⟩ := is p' hp'
        obtain ⟨q0, hq0, e3, e4⟩ := hshape2 q hq
        exact ⟨q0, hq0, e3.trans e1, e2.trans e4⟩
      · intro hpn _
        have hpn1 : ∀ p ∈ m1, p.2.shape.pnOk := by
          intro p hp
          obtain ⟨q, hq, _, e2⟩ := rs p hp
          rw [e2]
          exact hpn q hq
        have hlen2 : ∀ p ∈ m2, p.2.len = i + 1 := pl hpn1
        have hpn2 : ∀ p ∈ m2, p.2.shape.pnOk := by
          intro p hp
          obtain ⟨q, hq, _, e2⟩ := hshape2 p hp
          rw [e2]
          exact hpn q hq
        intro p' hp'
        have := il hpn2 hlen2 p' hp'
        simpa [Nat.add_assoc, Nat.add_comm 1 rest.length] using this
      · intro r hr e he
        rcases List.mem_cons.mp hr with hr | hr
        · subst hr
          exact rn e he
        · have := inm r hr e he
          rwa [pk.trans rk] at this

theorem processRows_append {fuel : Nat} (xs ys : List XmlNode) :
    ∀ (m : Cols) (i : Nat), processRows fuel m (xs ++ ys) i =
      processRows fuel m xs i >>= fun m' => processRows fuel m' ys (i + xs.length) := by
  induction xs with
  | nil => intro m i; simp [processRows]
  | cons x rest ih =>
      intro m i
      simp only [List.cons_append, processRows, Res.bind_assoc]
      congr 1
      funext m1
      congr 1
      funext m2
      rw [show rest.append ys = rest ++ ys from rfl, ih]
      have hlen : i + 1 + rest.length = i + (x :: rest).length := by
        simp only [List.length_cons]
        omega
      rw [hlen]

theorem finalize_columns_ok {cols res : Cols} (h : finalize_columns cols = .ok res) :
    res = cols := by
  unfold finalize_columns at h
  split at h
  · simp only [Res.ok.injEq] at h
    exact h.symm
  · exact absurd h (by simp)

/-! ## Claim C1 -/

/-- Claim C1 (confirmed): the null-padding law — whenever the columnar
decoder accepts a data document, every declared top-level field has a column
(plus the synthetic `associations` column when associations exist), and
after each row completes (every prefix of the row sequence that decodes
successfully) every column's length equals the number of rows processed so
far; in particular every finished column's length equals the total row
count. -/
theorem c1_null_padding :
    ∀ fuel schema doc res, parse_response_to_arrow fuel schema doc = .ok res →
      (∀ f ∈ schema.fields, (lookupCol res f.name).isSome) ∧
      (schema.associations ≠ [] → (lookupCol res "associations").isSome) ∧
      ∀ container, doc.children.toList.head? = some container →
        (∀ p ∈ res, p.2.len = container.children.toList.length) ∧
        (∀ k, k ≤ container.children.toList.length →
          ∃ resk,
            processRows fuel (initColumns schema) (container.children.toList.take k) 0 =
              .ok resk ∧ ∀ p ∈ resk, p.2.len = k) := by
  intro fuel schema doc res h
  unfold parse_response_to_arrow at h
  cases hh : doc.children.toList.head? with
  | none => rw [hh] at h; exact absurd h (by simp)
  | some container0 =>
      rw [hh] at h
      change (processRows fuel (initColumns schema) container0.children.toList 0 >>=
        fun cols => finalize_columns cols) = Res.ok res at h
      rw [Res.bind_eq_ok] at h
      obtain ⟨cols, hrows, hfin⟩ := h
      obtain rfl : res = cols := finalize_columns_ok hfin
      have h := hrows
      obtain ⟨pk, ps, plen, pnm⟩ := processRows_props h
      have hpn : ∀ p ∈ initColumns schema, p.2.shape.pnOk :=
        initColumns_builders schema (fun b => b.shape.pnOk) data_type_to_mutable_array_pnOk
          (fun hne => associations_to_mutable_array_pnOk _ hne)
      have hlen0 : ∀ p ∈ initColumns schema, p.2.len = 0 :=
        initColumns_builders schema (fun b => b.len = 0)
          (fun dt => data_type_to_mutable_array_len dt)
          (fun _ => associations_to_mutable_array_len _)
      refine ⟨?_, ?_, ?_⟩
      · intro f hf
        rw [lookupCol_isSome_iff, pk]
        exact initColumns_field_keys schema f hf
      · intro hne
        rw [lookupCol_isSome_iff, pk]
        exact initColumns_assoc_key schema hne
      · intro container hcont
        injection hcont with hcont
        subst hcont
        constructor
        · intro p hp
          have := plen hpn hlen0 p hp
          simpa using this
        · intro k hk
          have hsplit := @processRows_append fuel
            (container0.children.toList.take k) (container0.children.toList.drop k)
            (initColumns schema) 0
          rw [List.take_append_drop] at hsplit
          rw [hsplit, Res.bind_eq_ok] at h
          obtain ⟨resk, hrk, _⟩ := h
          refine ⟨resk, hrk, ?_⟩
          obtain ⟨_, _, plen2, _⟩ := processRows_props hrk
          intro p hp
          have := plen2 hpn hlen0 p hp
          rw [List.length_take] at this
          simpa [Nat.min_eq_left hk] using this

/-- Claim C1, witness: the law applied to a concrete three-row document
(the repository's own simple-response test). -/
theorem c1_witness :
    (lookupCol [("name", Builder.utf8 [some "a", none, some "c"])] "name").isSome = true ∧
    ∀ p ∈ ([("name", Builder.utf8 [some "a", none, some "c"])] : Cols), p.2.len = 3 := by
  have h := c1_null_padding 10 ⟨[⟨"name", DataType.utf8⟩], []⟩
    (el "t" [el "rows" [el "row" [elT "name" "a"], el "row" [], el "row" [elT "name" "c"]]])
    [("name", .utf8 [some "a", none, some "c"])] rfl
  constructor
  · exact h.1 ⟨"name", DataType.utf8⟩ (by simp)
  · intro p hp
    have h3 := (h.2.2 (el "rows" [el "row" [elT "name" "a"], el "row" [], el "row" [elT "name" "c"]])
        rfl).1 p hp
    simpa using h3

/-! ## Claim C5 -/

theorem Fields.find?_isSome_iff (cs : Fields) (k : String) :
    (Fields.find? cs k).isSome ↔ k ∈ cs.names := by
  match cs with
  | .nil => simp [Fields.find?, Fields.names]
  | .cons n b rest =>
      by_cases h : n = k
      · simp [Fields.find?, Fields.names, h]
      · rw [show Fields.find? (.cons n b rest) k = Fields.find? rest k from by
          simp [Fields.find?, h]]
        rw [Fields.find?_isSome_iff rest k]
        simp only [Fields.names, List.mem_cons]
        constructor
        · exact Or.inr
        · rintro (hc | hc)
          · exact absurd hc.symm h
          · exact hc
  termination_by cs

theorem parse_into_field_name : ∀ {fuel : Nat} {cs : Fields} {key : String} {elx : XmlNode}
    {cs' : Fields}, parse_into_field fuel cs key elx = .ok cs' → key ∈ cs.names
  | 0, _, _, _, _, h => absurd h (by simp [parse_into_field])
  | _ + 1, .nil, _, _, _, h => absurd h (by simp [parse_into_field])
  | fuel + 1, .cons n b rest, key, elx, cs', h => by
      simp only [parse_into_field] at h
      by_cases hk : n = key
      · simp [Fields.names, hk]
      · rw [if_neg hk] at h
        simp only [Res.bind_eq_ok] at h
        obtain ⟨rest', hr, _⟩ := h
        simp only [Fields.names, List.mem_cons]
        exact Or.inr (parse_into_field_name hr)

theorem parse_struct_children_names : ∀ {fuel : Nat} {cs : Fields} {els : List XmlNode}
    {out : Fields × Bool}, parse_struct_children fuel cs els = .ok out →
    ∀ e ∈ els, XmlNode.name e ∈ cs.names
  | 0, _, _, _, h => absurd h (by simp [parse_struct_children])
  | _ + 1, cs, [], out, _ => by simp
  | fuel + 1, cs, e :: rest, out, h => by
      simp only [parse_struct_children, Res.bind_eq_ok] at h
      obtain ⟨cs1, hin, h⟩ := h
      obtain ⟨⟨cs2, any2⟩, hrest, _⟩ := h
      intro e' he'
      rcases List.mem_cons.mp he' with he' | he'
      · subst he'
        exact parse_into_field_name hin
      · have hnames : cs1.names = cs.names := by
          rw [Fields.names_eq_shapeF_names, Fields.names_eq_shapeF_names,
            ((parse_shape_grow fuel).2.2.2.2.2 cs e.name e cs1 hin).1]
        have := parse_struct_children_names hrest e' he'
        rwa [hnames] at this

/-- Claim C5, counterexample to the claim as stated: the JSON-tree decoding
pathway does not fail on an element with no corresponding declared field —
the undeclared `<b>` element is silently ignored and the whole document
decodes successfully. -/
theorem c5_counterexample :
    parse_data_to_jsonl 10 (el "root" [el "rows" [el "row" [elT "a" "x", elT "b" "y"]]])
        ⟨⟨[("row", Ty2.record [("a", Ty2.utf8)])]⟩⟩ =
      .ok [.obj [("row", .obj [("a", .str "x")])]] := rfl

/-- Claim C5 (amended): the columnar decoder (`parse_response_to_arrow`)
accepts a document only if every element at row level names a declared
column and every element child of a struct-decoded element names a declared
subfield — contrapositively, an unknown element aborts the whole columnar
decode with an unknown-field error and no partial batch exists.  The
JSON-tree pathway (schema2) by contrast silently ignores undeclared
elements. -/
theorem c5_unknown_field_abort :
    (∀ fuel schema doc res container, parse_response_to_arrow fuel schema doc = .ok res →
        doc.children.toList.head? = some container →
        ∀ row ∈ container.children.toList, ∀ e ∈ row.children.toList,
          (lookupCol (initColumns schema) (XmlNode.name e)).isSome) ∧
    (∀ fuel cs validity src b', parse_field fuel (.strct cs validity) src = .ok b' →
        ∀ e ∈ src.children.toList, (Fields.find? cs (XmlNode.name e)).isSome) := by
  constructor
  · intro fuel schema doc res container h hcont row hrow e he
    unfold parse_response_to_arrow at h
    rw [hcont] at h
    change (processRows fuel (initColumns schema) container.children.toList 0 >>=
      fun cols => finalize_columns cols) = Res.ok res at h
    rw [Res.bind_eq_ok] at h
    obtain ⟨cols, hrows, -⟩ := h
    obtain ⟨_, _, _, pnm⟩ := processRows_props hrows
    rw [lookupCol_isSome_iff]
    exact pnm row hrow e he
  · intro fuel cs validity src b' h e he
    match fuel, h with
    | 0, h => exact absurd h (by simp [parse_field])
    | 1, h => exact absurd h (by simp [parse_field, parse_field_struct])
    | g + 2, h => ?_
    simp only [parse_field, parse_field_struct, Res.bind_eq_ok] at h
    obtain ⟨p1, hps, h⟩ := h
    obtain ⟨p2, hch, h⟩ := h
    obtain ⟨cs3, hpad, h⟩ := h
    obtain ⟨cs1, any1⟩ := p1
    obtain ⟨cs2, any2⟩ := p2
    dsimp only at hps hch hpad
    obtain ⟨hs1, _, _⟩ := struct_pseudo_props hps
    have hnames : cs1.names = cs.names := by
      rw [Fields.names_eq_shapeF_names, Fields.names_eq_shapeF_names, hs1]
    rw [Fields.find?_isSome_iff]
    rw [← hnames]
    exact parse_struct_children_names hch e he

/-- Claim C5, witness: the columnar acceptance condition applied at a
concrete accepted document (every row element names a column). -/
theorem c5_witness :
    (lookupCol (initColumns ⟨[⟨"name", DataType.utf8⟩], []⟩) "name").isSome = true := by
  have h := c5_unknown_field_abort.1 10 ⟨[⟨"name", DataType.utf8⟩], []⟩
    (el "t" [el "rows" [el "row" [elT "name" "a"]]])
    [("name", .utf8 [some "a"])] (el "rows" [el "row" [elT "name" "a"]]) rfl rfl
  exact h (el "row" [elT "name" "a"]) (by simp [el, XmlForest.ofList, XmlNode.children,
    XmlForest.toList]) (elT "name" "a") (by simp [el, elT, XmlForest.ofList, XmlNode.children,
    XmlForest.toList])

/-! ## Panic-freedom of the columnar decoder -/

theorem parse_utf8_no_panic (vals : List (Option String)) (src : Option String) :
    (parse_utf8 vals src).isPanic = false := by
  cases src <;> rfl

theorem parse_bool_no_panic (vals : List (Option Bool)) (src : Option String) :
    (parse_bool vals src).isPanic = false := by
  unfold parse_bool
  split
  · split
    · rfl
    · split
      · rfl
      · rfl
  · rfl

theorem parse_from_str_no_panic {α : Type} (parse : String → Option α)
    (vals : List (Option α)) (src : Option String) :
    (parse_from_str parse vals src).isPanic = false := by
  unfold parse_from_str
  split
  · split
    · rfl
    · rfl
  · rfl

theorem parse_u32_no_panic (vals : List (Option Nat)) (src : Option String) :
    (parse_u32 vals src).isPanic = false := by
  unfold parse_u32
  split
  · split
    · rfl
    · rfl
  · rfl

theorem parse_date64_no_panic (vals : List (Option String)) (src : Option String) :
    (parse_date64 vals src).isPanic = false := by
  unfold parse_date64
  split
  · split
    · rfl
    · rfl
  · rfl

theorem Fields.invF_names (cs : Fields) (h : cs.invF) :
    ∀ n ∈ cs.names, nameByteOk n = true := by
  cases cs with
  | nil => simp [Fields.names]
  | cons n b rest =>
      obtain ⟨h1, -, -, h4⟩ := h
      intro m hm
      simp only [Fields.names, List.mem_cons] at hm
      rcases hm with rfl | hm
      · exact h1
      · exact Fields.invF_names rest h4 m hm
  termination_by cs

theorem Fields.invF_pnOkF (cs : Fields) (h : cs.invF) : cs.shapeF.pnOkF := by
  cases cs with
  | nil => trivial
  | cons n b rest =>
      obtain ⟨-, h2, -, h4⟩ := h
      exact ⟨h2, Fields.invF_pnOkF rest h4⟩
  termination_by cs

mutual
theorem Builder.pushNull_inv (b : Builder) (h : b.inv) (hp : b.shape.pnOk) :
    b.pushNull.inv := by
  cases b with
  | list values slots => exact h
  | strct cs validity =>
      obtain ⟨hlens, hsync, hw⟩ := h
      obtain ⟨hne, -⟩ := hp
      have hcs : cs ≠ .nil := fun hnil => hne ((Fields.shapeF_nil_iff cs).mpr hnil)
      have hhead : (Fields.pushNullAll cs).headLen = cs.headLen + 1 := by
        cases cs with
        | nil => exact absurd rfl hcs
        | cons n b0 rest =>
            obtain ⟨-, hbp, -, -⟩ := hw
            simp [Fields.pushNullAll, Fields.headLen, Builder.pushNull_len b0 hbp]
      refine ⟨?_, ?_, Fields.pushNullAll_invF cs hw⟩
      · intro l hl'
        rw [Fields.pushNullAll_lens cs (Fields.invF_pnOkF cs hw)] at hl'
        obtain ⟨l0, hl0, rfl⟩ := List.mem_map.mp hl'
        rw [hhead, hlens l0 hl0]
      · intro v hv
        cases hval : validity with
        | some v0 =>
            rw [hval] at hv
            simp only [struct_push, Option.some.injEq] at hv
            subst hv
            simp only [List.length_append, List.length_cons, List.length_nil]
            rw [hsync v0 hval, hhead]
        | none =>
            rw [hval] at hv
            simp only [struct_push, Option.some.injEq] at hv
            subst hv
            simp only [List.length_append, List.length_replicate, List.length_cons,
              List.length_nil]
            rw [hhead]
            omega
  | utf8 vs => trivial
  | boolean vs => trivial
  | uint32 vs => trivial
  | int32 vs => trivial
  | float64 vs => trivial
  | timestamp vs => trivial
theorem Fields.pushNullAll_invF (cs : Fields) (h : cs.invF) : cs.pushNullAll.invF := by
  cases cs with
  | nil => trivial
  | cons n b rest =>
      obtain ⟨h1, h2, h3, h4⟩ := h
      exact ⟨h1, by rw [Builder.pushNull_shape]; exact h2, Builder.pushNull_inv b h3 h2,
        Fields.pushNullAll_invF rest h4⟩
end

theorem struct_pseudo_no_panic (src : XmlNode) (cs : Fields)
    (h : ∀ n ∈ cs.names, nameByteOk n = true) :
    (struct_pseudo_fields src cs).isPanic = false := by
  match cs with
  | .nil => rfl
  | .cons n b rest =>
      have hn : nameByteOk n = true := h n (by simp [Fields.names])
      have hrest := struct_pseudo_no_panic src rest
        (fun m hm => h m (by simp [Fields.names, hm]))
      simp only [struct_pseudo_fields]
      rw [if_neg (show ¬ nameByteOk n = false by simp [hn])]
      by_cases hat : strStartsWith n "@" = true
      · rw [if_pos hat]
        cases b <;>
        first
        | · refine Res.isPanic_bind hrest ?_
            rintro ⟨rest', any⟩ hr
            rfl
        | · refine Res.isPanic_bind (parse_u32_no_panic _ _) ?_
            intro vs' hvs
            refine Res.isPanic_bind hrest ?_
            rintro ⟨rest', any⟩ hr
            rfl
      · rw [if_neg hat]
        by_cases htx : n = "#text"
        · rw [if_pos htx]
          cases b <;>
          first
          | · refine Res.isPanic_bind hrest ?_
              rintro ⟨rest', any⟩ hr
              rfl
          | · refine Res.isPanic_bind (parse_utf8_no_panic _ _) ?_
              intro vs' hvs
              refine Res.isPanic_bind hrest ?_
              rintro ⟨rest', any⟩ hr
              rfl
        · rw [if_neg htx]
          refine Res.isPanic_bind hrest ?_
          rintro ⟨rest', any⟩ hr
          rfl
  termination_by cs

theorem struct_pseudo_invF {src : XmlNode} {cs cs1 : Fields} {any : Bool}
    (h : struct_pseudo_fields src cs = .ok (cs1, any)) (hw : cs.invF) : cs1.invF := by
  match cs with
  | .nil =>
      simp only [struct_pseudo_fields] at h
      cases h
      trivial
  | .cons n b rest =>
      obtain ⟨w1, w2, w3, w4⟩ := hw
      simp only [struct_pseudo_fields] at h
      rw [if_neg (show ¬ nameByteOk n = false by simp [w1])] at h
      by_cases hat : strStartsWith n "@" = true
      · rw [if_pos hat] at h
        cases b <;>
        first
        | · simp only [Res.bind_eq_ok] at h
            obtain ⟨⟨rest', any'⟩, hrest, h⟩ := h
            cases h
            exact ⟨w1, w2, w3, struct_pseudo_invF hrest w4⟩
        | · simp only [Res.bind_eq_ok] at h
            obtain ⟨vs', hu, h⟩ := h
            obtain ⟨⟨rest', any'⟩, hrest, h⟩ := h
            cases h
            exact ⟨w1, trivial, trivial, struct_pseudo_invF hrest w4⟩
      · rw [if_neg hat] at h
        by_cases htx : n = "#text"
        · rw [if_pos htx] at h
          cases b <;>
          first
          | · simp only [Res.bind_eq_ok] at h
              obtain ⟨⟨rest', any'⟩, hrest, h⟩ := h
              cases h
              exact ⟨w1, w2, w3, struct_pseudo_invF hrest w4⟩
          | · simp only [Res.bind_eq_ok] at h
              obtain ⟨vs', hu, h⟩ := h
              obtain ⟨⟨rest', any'⟩, hrest, h⟩ := h
              cases h
              exact ⟨w1, trivial, trivial, struct_pseudo_invF hrest w4⟩
        · rw [if_neg htx] at h
          simp only [Res.bind_eq_ok] at h
          obtain ⟨⟨rest', any'⟩, hrest, h⟩ := h
          cases h
          exact ⟨w1, w2, w3, struct_pseudo_invF hrest w4⟩
  termination_by cs

theorem struct_pad_invF {initial : Nat} {cs cs' : Fields}
    (h : struct_pad initial cs = .ok cs') (hw : cs.invF) : cs'.invF := by
  match cs with
  | .nil =>
      simp only [struct_pad, Res.ok.injEq] at h
      subst h
      trivial
  | .cons n b rest =>
      obtain ⟨w1, w2, w3, w4⟩ := hw
      simp only [struct_pad] at h
      split at h
      · simp only [Res.bind_eq_ok] at h
        obtain ⟨rest', hrest, h⟩ := h
        simp only [Res.ok.injEq] at h
        subst h
        exact ⟨w1, w2, w3, struct_pad_invF hrest w4⟩
      · split at h
        · simp only [Res.bind_eq_ok] at h
          obtain ⟨rest', hrest, h⟩ := h
          simp only [Res.ok.injEq] at h
          subst h
          exact ⟨w1, by rw [Builder.pushNull_shape]; exact w2,
            Builder.pushNull_inv b w3 w2, struct_pad_invF hrest w4⟩
        · exact absurd h (by simp)
  termination_by cs

theorem countName_eq_zero {els : List XmlNode} {nm : String}
    (h : ∀ c ∈ els, XmlNode.name c ≠ nm) : countName els nm = 0 := by
  induction els with
  | nil => rfl
  | cons e rest ih =>
      simp only [countName, if_neg (h e (by simp)), ih (fun c hc => h c (by simp [hc]))]

theorem countName_cons_ge (e : XmlNode) (rest : List XmlNode) (nm : String) :
    countName rest nm ≤ countName (e :: rest) nm := by
  simp only [countName]
  split <;> omega

theorem GrowBound.lens_bounds {cs cs' : Fields} {f : String → Nat} {c : Nat}
    (h : GrowBound cs cs' f) (hbase : ∀ l ∈ cs.lens, l = c) (hbud : ∀ n, f n ≤ 1) :
    ∀ l ∈ cs'.lens, l = c ∨ l = c + 1 := by
  cases cs with
  | nil =>
      cases cs' with
      | nil => simp [Fields.lens]
      | cons => exact absurd h (by simp [GrowBound])
  | cons n b rest =>
      cases cs' with
      | nil => exact absurd h (by simp [GrowBound])
      | cons n' b' rest' =>
          obtain ⟨-, hlo, hhi, hrest⟩ := h
          intro l hl
          simp only [Fields.lens, List.mem_cons] at hl
          rcases hl with rfl | hl
          · have hb : b.len = c := hbase b.len (by simp [Fields.lens])
            have := hbud n
            omega
          · exact GrowBound.lens_bounds hrest
              (fun l0 hl0 => hbase l0 (by simp [Fields.lens, hl0])) hbud l hl
  termination_by cs

/-- Panic-freedom of one `parse_field` call: under the value-level invariant
and element well-formedness no branch of the decoder reaches a panic, and a
successful decode preserves the invariant. -/
theorem struct_pseudo_any {src : XmlNode} {cs cs1 : Fields} {any : Bool}
    (h : struct_pseudo_fields src cs = .ok (cs1, any)) :
    any = FShape.hasPseudo cs.shapeF := by
  match cs with
  | .nil =>
      simp only [struct_pseudo_fields] at h
      cases h
      rfl
  | .cons n b rest =>
      simp only [struct_pseudo_fields] at h
      by_cases hemp : nameByteOk n = false
      · rw [if_pos hemp] at h
        exact absurd h (by simp)
      · rw [if_neg hemp] at h
        by_cases hat : strStartsWith n "@" = true
        · rw [if_pos hat] at h
          cases b <;>
          first
          | · simp only [Res.bind_eq_ok] at h
              obtain ⟨⟨rest', any'⟩, hrest, h⟩ := h
              cases h
              rw [struct_pseudo_any hrest]
              simp [Fields.shapeF, FShape.hasPseudo, hat, Builder.shape]
          | · simp only [Res.bind_eq_ok] at h
              obtain ⟨vs', hu, h⟩ := h
              obtain ⟨⟨rest', any'⟩, hrest, h⟩ := h
              cases h
              simp [Fields.shapeF, FShape.hasPseudo, hat, Builder.shape]
        · rw [if_neg hat] at h
          by_cases htx : n = "#text"
          · rw [if_pos htx] at h
            subst htx
            cases b <;>
            first
            | · simp only [Res.bind_eq_ok] at h
                obtain ⟨⟨rest', any'⟩, hrest, h⟩ := h
                cases h
                rw [struct_pseudo_any hrest]
                simp [Fields.shapeF, FShape.hasPseudo, hat, Builder.shape]
            | · simp only [Res.bind_eq_ok] at h
                obtain ⟨vs', hu, h⟩ := h
                obtain ⟨⟨rest', any'⟩, hrest, h⟩ := h
                cases h
                simp [Fields.shapeF, FShape.hasPseudo, hat, Builder.shape]
          · rw [if_neg htx] at h
            simp only [Res.bind_eq_ok] at h
            obtain ⟨⟨rest', any'⟩, hrest, h⟩ := h
            cases h
            rw [struct_pseudo_any hrest]
            simp [Fields.shapeF, FShape.hasPseudo, hat, htx]
  termination_by cs

theorem parse_struct_children_true_ne_nil {fuel : Nat} {cs cs2 : Fields}
    {els : List XmlNode}
    (h : parse_struct_children fuel cs els = .ok (cs2, true)) : cs ≠ Fields.nil := by
  intro hnil
  subst hnil
  cases els with
  | nil =>
      match fuel, h with
      | 0, h => exact absurd h (by simp [parse_struct_children])
      | g + 1, h => simp [parse_struct_children] at h
  | cons e rest =>
      match fuel, h with
      | 0, h => exact absurd h (by simp [parse_struct_children])
      | g + 1, h => ?_
      simp only [parse_struct_children, Res.bind_eq_ok] at h
      obtain ⟨cs', hin, -⟩ := h
      cases g with
      | zero => exact absurd hin (by simp [parse_into_field])
      | succ g2 => exact absurd hin (by simp [parse_into_field])

/-- Panic-freedom of one `parse_field` call: under the value-level invariant
and element well-formedness no branch of the decoder reaches a panic, and a
successful decode preserves the invariant (in particular the struct validity
bitmaps stay synchronised with the child columns). -/
theorem parse_no_panic : ∀ fuel : Nat,
    (∀ b e, b.inv → GoodS b.shape e →
      (parse_field fuel b e).isPanic = false ∧
      ∀ b', parse_field fuel b e = .ok b' → b'.inv) ∧
    (∀ values slots e, values.inv → values.shape.pnOk →
      (∀ c ∈ e.children.toList, GoodS values.shape c) →
      (parse_field_list fuel values slots e).isPanic = false ∧
      ∀ b', parse_field_list fuel values slots e = .ok b' → b'.inv) ∧
    (∀ values els, values.inv → (∀ c ∈ els, GoodS values.shape c) →
      (parse_list_items fuel values els).isPanic = false ∧
      ∀ v', parse_list_items fuel values els = .ok v' → v'.inv) ∧
    (∀ cs validity e, (∀ l ∈ cs.lens, l = cs.headLen) →
      (∀ v, validity = some v → v.length = cs.headLen) → cs.invF →
      GoodS (.strct cs.shapeF) e →
      (parse_field_struct fuel cs validity e).isPanic = false ∧
      ∀ b', parse_field_struct fuel cs validity e = .ok b' → b'.inv) ∧
    (∀ cs els, cs.invF →
      (∀ c ∈ els, ∀ s, FShape.find? cs.shapeF (XmlNode.name c) = some s → GoodS s c) →
      (parse_struct_children fuel cs els).isPanic = false ∧
      ∀ out, parse_struct_children fuel cs els = .ok out → out.1.invF) ∧
    (∀ cs key elx, cs.invF →
      (∀ s, FShape.find? cs.shapeF key = some s → GoodS s elx) →
      (parse_into_field fuel cs key elx).isPanic = false ∧
      ∀ cs', parse_into_field fuel cs key elx = .ok cs' → cs'.invF) := by
  intro fuel
  induction fuel with
  | zero =>
      refine ⟨?_, ?_, ?_, ?_, ?_, ?_⟩
      · exact fun b e _ _ => ⟨rfl, fun b' h => by simp [parse_field] at h⟩
      · exact fun values slots e _ _ _ => ⟨rfl, fun b' h => by simp [parse_field_list] at h⟩
      · exact fun values els _ _ => ⟨rfl, fun v' h => by simp [parse_list_items] at h⟩
      · exact fun cs validity e _ _ _ _ => ⟨rfl, fun b' h => by simp [parse_field_struct] at h⟩
      · exact fun cs els _ _ => ⟨rfl, fun out h => by simp [parse_struct_children] at h⟩
      · exact fun cs key elx _ _ => ⟨rfl, fun cs' h => by simp [parse_into_field] at h⟩
  | succ n ih =>
      obtain ⟨ihf, ihl, ihi, ihs, ihc, ihin⟩ := ih
      refine ⟨?_, ?_, ?_, ?_, ?_, ?_⟩
      · intro b e hinv hg
        cases b with
        | utf8 vs =>
            constructor
            · exact Res.isPanic_bind (parse_utf8_no_panic vs e.text) (fun a _ => rfl)
            · intro b' h
              simp only [parse_field, Res.bind_eq_ok] at h
              obtain ⟨vs', hu, h⟩ := h
              simp only [Res.ok.injEq] at h
              subst h
              trivial
        | uint32 vs =>
            constructor
            · exact Res.isPanic_bind (parse_from_str_no_panic rustParseU32 vs e.text)
                (fun a _ => rfl)
            · intro b' h
              simp only [parse_field, Res.bind_eq_ok] at h
              obtain ⟨vs', hu, h⟩ := h
              simp only [Res.ok.injEq] at h
              subst h
              trivial
        | int32 vs =>
            constructor
            · exact Res.isPanic_bind (parse_from_str_no_panic rustParseI32 vs e.text)
                (fun a _ => rfl)
            · intro b' h
              simp only [parse_field, Res.bind_eq_ok] at h
              obtain ⟨vs', hu, h⟩ := h
              simp only [Res.ok.injEq] at h
              subst h
              trivial
        | float64 vs =>
            constructor
            · exact Res.isPanic_bind (parse_from_str_no_panic _ vs e.text) (fun a _ => rfl)
            · intro b' h
              simp only [parse_field, Res.bind_eq_ok] at h
              obtain ⟨vs', hu, h⟩ := h
              simp only [Res.ok.injEq] at h
              subst h
              trivial
        | timestamp vs =>
            constructor
            · exact Res.isPanic_bind (parse_date64_no_panic vs e.text) (fun a _ => rfl)
            · intro b' h
              simp only [parse_field, Res.bind_eq_ok] at h
              obtain ⟨vs', hu, h⟩ := h
              simp only [Res.ok.injEq] at h
              subst h
              trivial
        | boolean vs =>
            constructor
            · exact Res.isPanic_bind (parse_bool_no_panic vs e.text) (fun a _ => rfl)
            · intro b' h
              simp only [parse_field, Res.bind_eq_ok] at h
              obtain ⟨vs', hu, h⟩ := h
              simp only [Res.ok.injEq] at h
              subst h
              trivial
        | list values slots =>
            obtain ⟨hvi, hvp⟩ := hinv
            have hg' : ∀ c ∈ e.children.toList, GoodS values.shape c := by
              cases hg
              assumption
            simpa only [parse_field] using ihl values slots e hvi hvp hg'
        | strct cs validity =>
            obtain ⟨hl, hsy, hw⟩ := hinv
            simpa only [parse_field] using ihs cs validity e hl hsy hw hg
      · intro values slots e hinv hpnv hg
        have h3 := ihi values e.children.toList hinv hg
        constructor
        · simp only [parse_field_list]
          exact Res.isPanic_bind h3.1 (fun a _ => rfl)
        · intro b' h
          simp only [parse_field_list, Res.bind_eq_ok] at h
          obtain ⟨values', hv, h⟩ := h
          simp only [Res.ok.injEq] at h
          subst h
          refine ⟨h3.2 values' hv, ?_⟩
          rw [(parse_shape_grow n).2.2.1 values e.children.toList values' hv]
          exact hpnv
      · intro values els hinv hg
        cases els with
        | nil =>
            refine ⟨rfl, ?_⟩
            intro v' h
            simp only [parse_list_items, Res.ok.injEq] at h
            subst h
            exact hinv
        | cons e rest =>
            have h1 := ihf values e hinv (hg e (by simp))
            constructor
            · simp only [parse_list_items]
              refine Res.isPanic_bind h1.1 ?_
              intro v hv
              have hsh := ((parse_shape_grow n).1 values e v hv).1
              exact (ihi v rest (h1.2 v hv)
                (fun c hc => by rw [hsh]; exact hg c (by simp [hc]))).1
            · intro v' h
              simp only [parse_list_items, Res.bind_eq_ok] at h
              obtain ⟨v, hv, h2⟩ := h
              have hsh := ((parse_shape_grow n).1 values e v hv).1
              exact (ihi v rest (h1.2 v hv)
                (fun c hc => by rw [hsh]; exact hg c (by simp [hc]))).2 v' h2
      · intro cs validity e hlens hsy hw hg
        obtain ⟨hcount, hpseudo, hrec, hpa⟩ : (∀ nm, countName e.children.toList nm ≤ 1) ∧
            (∀ c ∈ e.children.toList, strStartsWith (XmlNode.name c) "@" = false ∧
              XmlNode.name c ≠ "#text") ∧
            (∀ c ∈ e.children.toList, ∀ s,
              FShape.find? cs.shapeF (XmlNode.name c) = some s → GoodS s c) ∧
            (FShape.hasPseudo cs.shapeF = true ∨ e.children.toList ≠ []) := by
          cases hg
          exact ⟨by assumption, by assumption, by assumption, by assumption⟩
        have hnames : ∀ m ∈ cs.names, nameByteOk m = true := Fields.invF_names cs hw
        have hbud : ∀ nm, (if strStartsWith nm "@" || nm = "#text" then 1 else 0) +
            countName e.children.toList nm ≤ 1 := by
          intro nm
          by_cases hps' : (strStartsWith nm "@" || nm = "#text") = true
          · rw [if_pos hps']
            simp only [Bool.or_eq_true, decide_eq_true_eq] at hps'
            have hz : countName e.children.toList nm = 0 :=
              countName_eq_zero (fun c hc hne => by
                obtain ⟨hp1, hp2⟩ := hpseudo c hc
                rw [hne] at hp1 hp2
                rcases hps' with ha | hb
                · simp [ha] at hp1
                · exact hp2 hb)
            omega
          · rw [if_neg hps']
            simpa using hcount nm
        constructor
        · simp only [parse_field_struct]
          refine Res.isPanic_bind (struct_pseudo_no_panic e cs hnames) ?_
          rintro ⟨cs1, any1⟩ hps
          obtain ⟨hs1, hg1, -⟩ := struct_pseudo_props hps
          have hw1 : cs1.invF := struct_pseudo_invF hps hw
          refine Res.isPanic_bind
            ((ihc cs1 e.children.toList hw1
              (fun c hc s hf => hrec c hc s (by rw [← hs1]; exact hf))).1) ?_
          rintro ⟨cs2, any2⟩ hch
          obtain ⟨hs2, hg2⟩ :=
            (parse_shape_grow n).2.2.2.2.1 cs1 e.children.toList (cs2, any2) hch
          refine Res.isPanic_bind ?_ ?_
          · cases hany : (any1 || any2) with
            | false => rfl
            | true =>
                simp only [struct_pad_if]
                have hcomp := GrowBound.comp hg1 hg2
                have hbounds : ∀ l ∈ cs2.lens, l = cs.headLen ∨ l = cs.headLen + 1 :=
                  GrowBound.lens_bounds hcomp hlens hbud
                obtain ⟨cs3, hpad⟩ := struct_pad_ok_of_bounds hbounds
                rw [hpad]
                rfl
          · intro cs3 hpad
            rfl
        · intro b' h
          simp only [parse_field_struct, Res.bind_eq_ok] at h
          obtain ⟨p1, hps, h⟩ := h
          obtain ⟨p2, hch, h⟩ := h
          obtain ⟨cs3, hpad, h⟩ := h
          simp only [Res.ok.injEq] at h
          subst h
          obtain ⟨cs1, any1⟩ := p1
          obtain ⟨cs2, any2⟩ := p2
          dsimp only at hps hch hpad
          obtain ⟨hs1, hg1, hnoop1⟩ := struct_pseudo_props hps
          have hw1 : cs1.invF := struct_pseudo_invF hps hw
          have hw2 : cs2.invF := (ihc cs1 e.children.toList hw1
            (fun c hc s hf => hrec c hc s (by rw [← hs1]; exact hf))).2 (cs2, any2) hch
          obtain ⟨hs2, hg2⟩ :=
            (parse_shape_grow n).2.2.2.2.1 cs1 e.children.toList (cs2, any2) hch
          cases hcond : (any1 || any2) with
          | false =>
              exfalso
              simp only [Bool.or_eq_false_iff] at hcond
              have hps0 : FShape.hasPseudo cs.shapeF = false := by
                have := struct_pseudo_any hps
                rw [hcond.1] at this
                exact this.symm
              rcases hpa with hpa | hpa
              · rw [hps0] at hpa
                exact Bool.noConfusion hpa
              · cases hcl : e.children.toList with
                | nil => exact hpa hcl
                | cons c0 crest =>
                    rw [hcl] at hch
                    have := parse_struct_children_cons_any hch
                    rw [hcond.2] at this
                    exact Bool.noConfusion this
          | true =>
              rw [hcond] at hpad
              simp only [struct_pad_if] at hpad
              have hw3 : cs3.invF := struct_pad_invF hpad hw2
              have hl3 : ∀ l ∈ cs3.lens, l = cs.headLen + 1 :=
                struct_pad_ok_lens (Fields.invF_pnOkF cs2 hw2) hpad
              have hcsne : cs ≠ Fields.nil := by
                intro hnil
                have hcond2 : any1 = true ∨ any2 = true := by simpa using hcond
                rcases hcond2 with h1 | h2
                · have hany1 := struct_pseudo_any hps
                  rw [h1, hnil] at hany1
                  simp [Fields.shapeF, FShape.hasPseudo] at hany1
                · have hch2 : parse_struct_children n cs1 e.children.toList =
                      .ok (cs2, true) := by
                    rw [← h2]
                    exact hch
                  have hc1nil : cs1 = Fields.nil := by
                    apply (Fields.shapeF_nil_iff cs1).mp
                    rw [hs1, hnil]
                    rfl
                  exact parse_struct_children_true_ne_nil hch2 hc1nil
              have hc3ne : cs3 ≠ Fields.nil := by
                intro hnil
                apply hcsne
                apply (Fields.shapeF_nil_iff cs).mp
                rw [← hs1, ← hs2, ← struct_pad_shape hpad, hnil]
                rfl
              have hhead3 : cs3.headLen = cs.headLen + 1 := by
                cases hc : cs3 with
                | nil => exact absurd hc hc3ne
                | cons n0 b0 rest0 =>
                    have hb0 := hl3 b0.len (by rw [hc]; simp [Fields.lens])
                    simpa [Fields.headLen] using hb0
              refine ⟨?_, ?_, hw3⟩
              · intro l hl
                rw [hl3 l hl, hhead3]
              · intro v hv
                cases hval : validity with
                | some v0 =>
                    rw [hval] at hv
                    simp only [struct_push, Option.some.injEq] at hv
                    subst hv
                    simp only [List.length_append, List.length_cons, List.length_nil]
                    rw [hsy v0 hval, hhead3]
                | none =>
                    rw [hval] at hv
                    simp only [struct_push] at hv
                    exact absurd hv (by simp)
      · intro cs els hw hg
        cases els with
        | nil =>
            refine ⟨rfl, ?_⟩
            intro out h
            simp only [parse_struct_children, Res.ok.injEq] at h
            subst h
            exact hw
        | cons e rest =>
            have h6 := ihin cs e.name e hw (fun s hf => hg e (by simp) s hf)
            constructor
            · simp only [parse_struct_children]
              refine Res.isPanic_bind h6.1 ?_
              intro cs' hcs'
              have hsh : cs'.shapeF = cs.shapeF :=
                ((parse_shape_grow n).2.2.2.2.2 cs e.name e cs' hcs').1
              refine Res.isPanic_bind
                ((ihc cs' rest (h6.2 cs' hcs')
                  (fun c hc s hf => hg c (by simp [hc]) s (by rw [← hsh]; exact hf))).1) ?_
              rintro ⟨cs2, any2⟩ hr2
              rfl
            · intro out h
              simp only [parse_struct_children, Res.bind_eq_ok] at h
              obtain ⟨cs', hcs', h⟩ := h
              obtain ⟨⟨cs2, any2⟩, hrest, h⟩ := h
              simp only [Res.ok.injEq] at h
              subst h
              have hsh : cs'.shapeF = cs.shapeF :=
                ((parse_shape_grow n).2.2.2.2.2 cs e.name e cs' hcs').1
              exact (ihc cs' rest (h6.2 cs' hcs')
                (fun c hc s hf => hg c (by simp [hc]) s (by rw [← hsh]; exact hf))).2
                (cs2, any2) hrest
      · intro cs key elx hw hg
        cases cs with
        | nil => exact ⟨rfl, fun cs' h => by simp [parse_into_field] at h⟩
        | cons m b rest =>
            obtain ⟨w1, w2, w3, w4⟩ := hw
            by_cases hk : m = key
            · have hgb : GoodS b.shape elx := by
                apply hg
                simp [Fields.shapeF, FShape.find?, hk]
              have h1 := ihf b elx w3 hgb
              constructor
              · simp only [parse_into_field, if_pos hk]
                exact Res.isPanic_bind h1.1 (fun b' _ => rfl)
              · intro cs' h
                simp only [parse_into_field, if_pos hk, Res.bind_eq_ok] at h
                obtain ⟨b', hb, h⟩ := h
                simp only [Res.ok.injEq] at h
                subst h
                exact ⟨w1, by rw [((parse_shape_grow n).1 b elx b' hb).1]; exact w2,
                  h1.2 b' hb, w4⟩
            · have hg' : ∀ s, FShape.find? rest.shapeF key = some s → GoodS s elx := by
                intro s hf
                apply hg
                simp only [Fields.shapeF, FShape.find?, if_neg hk]
                exact hf
              have h6 := ihin rest key elx w4 hg'
              constructor
              · simp only [parse_into_field, if_neg hk]
                exact Res.isPanic_bind h6.1 (fun r _ => rfl)
              · intro cs' h
                simp only [parse_into_field, if_neg hk, Res.bind_eq_ok] at h
                obtain ⟨rest', hr, h⟩ := h
                simp only [Res.ok.injEq] at h
                subst h
                exact ⟨w1, w2, w3, h6.2 rest' hr⟩


theorem lookupCol_of_mem_nodup {m : Cols} {k : String} {b : Builder}
    (hnd : (List.map Prod.fst m).Nodup) (hm : (k, b) ∈ m) : lookupCol m k = some b := by
  induction m with
  | nil => simp at hm
  | cons p rest ih =>
      rcases List.mem_cons.mp hm with h | h
      · rw [← h]
        simp [lookupCol, List.find?]
      · simp only [List.map_cons, List.nodup_cons] at hnd
        have hbe : (p.1 == k) = false := by
          rw [beq_eq_false_iff_ne]
          intro he
          exact hnd.1 (by rw [he]; exact List.mem_map.mpr ⟨(k, b), h, rfl⟩)
        have := ih hnd.2 h
        simpa [lookupCol, List.find?, hbe] using this

theorem insertReplace_nodup (m : Cols) (k : String) (b : Builder)
    (h : (List.map Prod.fst m).Nodup) :
    (List.map Prod.fst (insertReplace m k b)).Nodup := by
  unfold insertReplace
  split
  · rw [updateCol_keys]
    exact h
  · rename_i hsome
    rw [List.map_append]
    simp only [List.map_cons, List.map_nil]
    rw [List.nodup_append]
    refine ⟨h, List.nodup_singleton _, ?_⟩
    intro a ha hb
    simp only [List.mem_singleton] at hb
    subst hb
    have hs : (lookupCol m a).isSome := (lookupCol_isSome_iff m a).mpr ha
    simp only [hsome] at hs
    simp at hs

theorem foldl_insert_nodup (fs : List Field3) (m0 : Cols)
    (h : (List.map Prod.fst m0).Nodup) :
    (List.map Prod.fst (fs.foldl
      (fun m f => insertReplace m f.name (data_type_to_mutable_array f.data_type))
      m0)).Nodup := by
  induction fs generalizing m0 with
  | nil => exact h
  | cons f rest ih => exact ih _ (insertReplace_nodup _ _ _ h)

theorem initColumns_keys_nodup (schema : Schema3) :
    (List.map Prod.fst (initColumns schema)).Nodup := by
  by_cases h : schema.associations.isEmpty
  · simp only [initColumns, if_pos h]
    exact foldl_insert_nodup _ _ (by simp)
  · simp only [initColumns, if_neg h]
    exact insertReplace_nodup _ _ _ (foldl_insert_nodup _ _ (by simp))

theorem mem_updateCol {m : Cols} {k : String} {b : Builder} {p : String × Builder}
    (h : p ∈ updateCol m k b) :
    ∃ q ∈ m, (q.1 = k ∧ p = (q.1, b)) ∨ (q.1 ≠ k ∧ p = q) := by
  simp only [updateCol, List.mem_map] at h
  obtain ⟨q, hq, he⟩ := h
  by_cases hk : q.1 = k
  · rw [if_pos hk] at he
    exact ⟨q, hq, Or.inl ⟨hk, he.symm⟩⟩
  · rw [if_neg hk] at he
    exact ⟨q, hq, Or.inr ⟨hk, he.symm⟩⟩

theorem lookupCol_updateCol_self {m : Cols} {k : String} {b0 : Builder}
    (h : lookupCol m k = some b0) (b : Builder) :
    lookupCol (updateCol m k b) k = some b := by
  induction m with
  | nil => simp [lookupCol] at h
  | cons p rest ih =>
      by_cases hk : p.1 = k
      · simp [lookupCol, updateCol, List.find?, hk]
      · have hbe : (p.1 == k) = false := beq_eq_false_iff_ne.mpr hk
        have h' : lookupCol rest k = some b0 := by
          simpa [lookupCol, List.find?, hbe] using h
        have := ih h'
        simpa [lookupCol, updateCol, List.find?, hk, hbe] using this

theorem lookupCol_updateCol_ne {m : Cols} {k k' : String} (b : Builder) (hne : k' ≠ k) :
    lookupCol (updateCol m k b) k' = lookupCol m k' := by
  induction m with
  | nil => rfl
  | cons p rest ih =>
      by_cases hk : p.1 = k
      · have hbe : (p.1 == k') = false := by
          rw [beq_eq_false_iff_ne, hk]
          exact fun he => hne he.symm
        simp only [updateCol, List.map_cons, if_pos hk]
        simpa [lookupCol, List.find?, hbe, updateCol] using ih
      · simp only [updateCol, List.map_cons, if_neg hk]
        by_cases hbe : (p.1 == k') = true
        · simp [lookupCol, List.find?, hbe]
        · rw [Bool.not_eq_true] at hbe
          simpa [lookupCol, List.find?, hbe, updateCol] using ih

theorem parseRowFields_pf (fuel : Nat) : ∀ (els : List XmlNode) (m : Cols),
    (List.map Prod.fst m).Nodup →
    (∀ p ∈ m, p.2.inv) →
    (∀ e ∈ els, ∀ b, lookupCol m e.name = some b → GoodS b.shape e) →
    (parseRowFields fuel m els).isPanic = false ∧
    ∀ m', parseRowFields fuel m els = .ok m' →
      (∀ p ∈ m', p.2.inv) ∧
      (∀ p' ∈ m', ∃ p ∈ m, p'.1 = p.1 ∧ p'.2.shape = p.2.shape ∧
        p.2.len ≤ p'.2.len ∧ p'.2.len ≤ p.2.len + countName els p'.1) := by
  intro els
  induction els with
  | nil =>
      intro m hnd hinv hg
      refine ⟨rfl, ?_⟩
      intro m' h
      simp only [parseRowFields, Res.ok.injEq] at h
      subst h
      exact ⟨hinv, fun p' hp' => ⟨p', hp', rfl, rfl, le_refl _, Nat.le_add_right _ _⟩⟩
  | cons e rest ih =>
      intro m hnd hinv hg
      cases hl : lookupCol m e.name with
      | none =>
          constructor
          · simp only [parseRowFields, hl]
            rfl
          · intro m' h
            simp only [parseRowFields, hl] at h
            exact absurd h (by simp)
      | some b =>
          have hmem : (e.name, b) ∈ m := by
            obtain ⟨p0, hp0, hpk, hpb⟩ := lookupCol_mem hl
            rw [← hpk, ← hpb]
            simpa using hp0
          have hbinv : b.inv := hinv (e.name, b) hmem
          have hgb : GoodS b.shape e := hg e (by simp) b hl
          have hpf := (parse_no_panic fuel).1 b e hbinv hgb
          have hstep : ∀ b', parse_field fuel b e = .ok b' →
              (List.map Prod.fst (updateCol m e.name b')).Nodup ∧
              (∀ p ∈ updateCol m e.name b', p.2.inv) ∧
              (∀ e' ∈ rest, ∀ c, lookupCol (updateCol m e.name b') e'.name = some c →
                GoodS c.shape e') := by
            intro b' hb
            refine ⟨by rw [updateCol_keys]; exact hnd, ?_, ?_⟩
            · intro p hp
              obtain ⟨q, hq, hcase⟩ := mem_updateCol hp
              rcases hcase with ⟨-, rfl⟩ | ⟨-, rfl⟩
              · exact hpf.2 b' hb
              · exact hinv _ hq
            · intro e' he' c hc
              by_cases hk : e'.name = e.name
              · rw [hk, lookupCol_updateCol_self hl b'] at hc
                injection hc with hc
                subst hc
                rw [((parse_shape_grow fuel).1 b e b' hb).1]
                exact hg e' (by simp [he']) b (by rw [hk]; exact hl)
              · rw [lookupCol_updateCol_ne b' hk] at hc
                exact hg e' (by simp [he']) c hc
          constructor
          · simp only [parseRowFields, hl]
            refine Res.isPanic_bind hpf.1 ?_
            intro b' hb
            obtain ⟨hnd', hinv', hg'⟩ := hstep b' hb
            exact (ih (updateCol m e.name b') hnd' hinv' hg').1
          · intro m' h
            simp only [parseRowFields, hl, Res.bind_eq_ok] at h
            obtain ⟨b', hb, hrec⟩ := h
            obtain ⟨hnd', hinv', hg'⟩ := hstep b' hb
            have hrest := (ih (updateCol m e.name b') hnd' hinv' hg').2 m' hrec
            refine ⟨hrest.1, ?_⟩
            intro p' hp'
            obtain ⟨q, hq, e1, e2, e3, e4⟩ := hrest.2 p' hp'
            obtain ⟨q0, hq0, hcase⟩ := mem_updateCol hq
            rcases hcase with ⟨hkEq, rfl⟩ | ⟨hkNe, rfl⟩
            · dsimp only at e1 e2 e3 e4
              have hq0b : q0.2 = b := by
                have hlq := lookupCol_of_mem_nodup hnd hq0
                rw [hkEq, hl] at hlq
                injection hlq with hlq
                exact hlq.symm
              have hgrow := ((parse_shape_grow fuel).1 b e b' hb).2
              refine ⟨q0, hq0, e1, ?_, ?_, ?_⟩
              · rw [e2, ((parse_shape_grow fuel).1 b e b' hb).1, hq0b]
              · rw [hq0b]
                rcases hgrow with hgw | hgw <;> omega
              · have hcnt : countName (e :: rest) p'.1 = 1 + countName rest p'.1 := by
                  have hne : XmlNode.name e = p'.1 := by
                    rw [e1, hkEq]
                  simp [countName, hne]
                rw [hq0b, hcnt]
                rcases hgrow with hgw | hgw <;> omega
            · have hge := countName_cons_ge e rest p'.1
              exact ⟨_, hq0, e1, e2, e3, by omega⟩

theorem padColumns_no_panic (i : Nat) : ∀ (m : Cols),
    (∀ p ∈ m, p.2.len = i ∨ p.2.len = i + 1) →
    ∃ m', padColumns i m = .ok m' := by
  intro m
  induction m with
  | nil => exact fun _ => ⟨[], rfl⟩
  | cons p rest ih =>
      obtain ⟨nm, b⟩ := p
      intro hb
      obtain ⟨rest', hrest⟩ := ih (fun q hq => hb q (by simp [hq]))
      rcases hb (nm, b) (by simp) with h0 | h1
      · exact ⟨(nm, b.pushNull) :: rest', by simp [padColumns, h0, hrest]⟩
      · have hne : ¬ b.len = i := by
          simp only at h1
          omega
        exact ⟨(nm, b) :: rest', by simp [padColumns, hne, h1, hrest]⟩

theorem padColumns_inv {i : Nat} {m m' : Cols} (h : padColumns i m = .ok m')
    (hinv : ∀ p ∈ m, p.2.inv) (hpn : ∀ p ∈ m, p.2.shape.pnOk) :
    ∀ p' ∈ m', p'.2.inv := by
  induction m generalizing m' with
  | nil =>
      simp only [padColumns, Res.ok.injEq] at h
      subst h
      simp
  | cons p rest ih =>
      obtain ⟨nm, b⟩ := p
      simp only [padColumns] at h
      split at h
      · simp only [Res.bind_eq_ok] at h
        obtain ⟨rest', hrest, h⟩ := h
        simp only [Res.ok.injEq] at h
        subst h
        intro p' hp'
        rcases List.mem_cons.mp hp' with rfl | hp'
        · exact Builder.pushNull_inv b (hinv (nm, b) (by simp)) (hpn (nm, b) (by simp))
        · exact ih hrest (fun q hq => hinv q (by simp [hq]))
            (fun q hq => hpn q (by simp [hq])) p' hp'
      · split at h
        · simp only [Res.bind_eq_ok] at h
          obtain ⟨rest', hrest, h⟩ := h
          simp only [Res.ok.injEq] at h
          subst h
          intro p' hp'
          rcases List.mem_cons.mp hp' with rfl | hp'
          · exact hinv (nm, b) (by simp)
          · exact ih hrest (fun q hq => hinv q (by simp [hq]))
              (fun q hq => hpn q (by simp [hq])) p' hp'
        · exact absurd h (by simp)

theorem processRows_pf (fuel : Nat) : ∀ (rows : List XmlNode) (m : Cols) (i : Nat),
    (List.map Prod.fst m).Nodup →
    (∀ p ∈ m, p.2.inv) →
    (∀ p ∈ m, p.2.shape.pnOk) →
    (∀ p ∈ m, p.2.len = i) →
    (∀ row ∈ rows, (∀ nm, countName row.children.toList nm ≤ 1) ∧
      ∀ e ∈ row.children.toList, ∀ b, lookupCol m e.name = some b → GoodS b.shape e) →
    (processRows fuel m rows i).isPanic = false ∧
    ∀ m', processRows fuel m rows i = .ok m' → ∀ p ∈ m', p.2.inv ∧ p.2.shape.pnOk := by
  intro rows
  induction rows with
  | nil =>
      intro m i _ hinv hpn _ _
      refine ⟨rfl, ?_⟩
      intro m' h
      simp only [processRows, Res.ok.injEq] at h
      subst h
      exact fun p hp => ⟨hinv p hp, hpn p hp⟩
  | cons row rest ih =>
      intro m i hnd hinv hpn hlen hrows
      have hrow := hrows row (by simp)
      have hpf := parseRowFields_pf fuel row.children.toList m hnd hinv hrow.2
      have hstep : ∀ m1, parseRowFields fuel m row.children.toList = .ok m1 →
          (∀ p ∈ m1, p.2.len = i ∨ p.2.len = i + 1) ∧
          ∀ m2, padColumns i m1 = .ok m2 →
            (List.map Prod.fst m2).Nodup ∧ (∀ p ∈ m2, p.2.inv) ∧
            (∀ p ∈ m2, p.2.shape.pnOk) ∧ (∀ p ∈ m2, p.2.len = i + 1) ∧
            (∀ r ∈ rest, (∀ nm, countName r.children.toList nm ≤ 1) ∧
              ∀ e ∈ r.children.toList, ∀ b, lookupCol m2 e.name = some b →
                GoodS b.shape e) := by
        intro m1 h1
        obtain ⟨hinv1, hgrow1⟩ := hpf.2 m1 h1
        obtain ⟨rk1, rs1, -⟩ := parseRowFields_props h1
        have hpn1 : ∀ p ∈ m1, p.2.shape.pnOk := by
          intro p hp
          obtain ⟨q, hq, -, a2⟩ := rs1 p hp
          rw [a2]
          exact hpn q hq
        refine ⟨?_, ?_⟩
        · intro p hp
          obtain ⟨q, hq, -, -, e3, e4⟩ := hgrow1 p hp
          have h4 := hlen q hq
          have hc := hrow.1 p.1
          omega
        · intro m2 h2
          obtain ⟨ps2, pk2, pl2⟩ := padColumns_props h2
          have hnd2 : (List.map Prod.fst m2).Nodup := by
            rw [pk2, rk1]
            exact hnd
          have hinv2 : ∀ p ∈ m2, p.2.inv := padColumns_inv h2 hinv1 hpn1
          have hshape2 : ∀ p' ∈ m2, ∃ p ∈ m, p.1 = p'.1 ∧ p'.2.shape = p.2.shape := by
            intro p' hp'
            obtain ⟨q, hq, a1, a2⟩ := ps2 p' hp'
            obtain ⟨q0, hq0, a3, a4⟩ := rs1 q hq
            exact ⟨q0, hq0, a3.trans a1, a2.trans a4⟩
          have hpn2 : ∀ p ∈ m2, p.2.shape.pnOk := by
            intro p hp
            obtain ⟨q, hq, -, a2⟩ := hshape2 p hp
            rw [a2]
            exact hpn q hq
          have hlen2 : ∀ p ∈ m2, p.2.len = i + 1 := pl2 hpn1
          have hrows2 : ∀ r ∈ rest, (∀ nm, countName r.children.toList nm ≤ 1) ∧
              ∀ e ∈ r.children.toList, ∀ b, lookupCol m2 e.name = some b →
                GoodS b.shape e := by
            intro r hr
            refine ⟨(hrows r (by simp [hr])).1, ?_⟩
            intro e he b hbl
            obtain ⟨p0, hp0, hk0, hb0⟩ := lookupCol_mem hbl
            obtain ⟨q, hq, a1, a2⟩ := hshape2 p0 hp0
            have hql : lookupCol m q.1 = some q.2 := lookupCol_of_mem_nodup hnd (by
              rw [show (q.1, q.2) = q from rfl]
              exact hq)
            rw [a1, hk0] at hql
            have hgq := (hrows r (by simp [hr])).2 e he q.2 hql
            rw [← hb0, a2]
            exact hgq
          exact ⟨hnd2, hinv2, hpn2, hlen2, hrows2⟩
      constructor
      · simp only [processRows]
        refine Res.isPanic_bind hpf.1 ?_
        intro m1 h1
        obtain ⟨hb1, hrest2⟩ := hstep m1 h1
        obtain ⟨m2, h2⟩ := padColumns_no_panic i m1 hb1
        refine Res.isPanic_bind (by rw [h2]; rfl) ?_
        intro m2' h2'
        rw [h2] at h2'
        injection h2' with h2'
        subst h2'
        obtain ⟨hnd2, hinv2, hpn2, hlen2, hrows2⟩ := hrest2 m2 h2
        exact (ih m2 (i + 1) hnd2 hinv2 hpn2 hlen2 hrows2).1
      · intro m' h
        simp only [processRows, Res.bind_eq_ok] at h
        obtain ⟨m1, h1, h⟩ := h
        obtain ⟨m2, h2, h3⟩ := h
        obtain ⟨-, hrest2⟩ := hstep m1 h1
        obtain ⟨hnd2, hinv2, hpn2, hlen2, hrows2⟩ := hrest2 m2 h2
        exact (ih m2 (i + 1) hnd2 hinv2 hpn2 hlen2 hrows2).2 m' h3

theorem data_type_to_mutable_array_inv (dt : DataType) :
    (data_type_to_mutable_array dt).inv := by
  cases dt
  case multilingualUtf8 =>
    refine ⟨⟨?_, ?_, ?_⟩, ?_⟩
    · intro l hl
      simp only [Fields.lens, Builder.len, Fields.headLen, List.mem_cons,
        List.not_mem_nil, or_false, List.length_nil] at hl ⊢
      rcases hl with rfl | rfl <;> rfl
    · intro v hv
      exact Option.noConfusion hv
    · exact ⟨by decide, trivial, trivial, by decide, trivial, trivial, trivial⟩
    · exact ⟨by simp [Fields.shapeF], trivial, trivial, trivial⟩
  all_goals trivial

theorem fieldsBuilders_invF (fs : List Field3) (h : ∀ f ∈ fs, nameByteOk f.name = true) :
    (fieldsBuilders fs).invF := by
  induction fs with
  | nil => trivial
  | cons f rest ih =>
      exact ⟨h f (by simp), data_type_to_mutable_array_pnOk f.data_type,
        data_type_to_mutable_array_inv f.data_type, ih (fun g hg => h g (by simp [hg]))⟩

theorem fieldsBuilders_lens (fs : List Field3) :
    ∀ l ∈ (fieldsBuilders fs).lens, l = 0 := by
  induction fs with
  | nil => simp [fieldsBuilders, Fields.lens]
  | cons f rest ih =>
      intro l hl
      simp only [fieldsBuilders, Fields.lens, List.mem_cons] at hl
      rcases hl with rfl | hl
      · exact data_type_to_mutable_array_len f.data_type
      · exact ih l hl

theorem fieldsBuilders_shapeF_ne (fs : List Field3) (h : fs ≠ []) :
    (fieldsBuilders fs).shapeF ≠ FShape.nil := by
  cases fs with
  | nil => exact absurd rfl h
  | cons f rest => simp [fieldsBuilders, Fields.shapeF]

theorem association_to_mutable_array_inv (a : Association) (hne : a.fields ≠ [])
    (h : ∀ f ∈ a.fields, nameByteOk f.name = true) :
    (association_to_mutable_array a).inv := by
  have hw := fieldsBuilders_invF a.fields h
  refine ⟨⟨?_, ?_, hw⟩, fieldsBuilders_shapeF_ne a.fields hne, Fields.invF_pnOkF _ hw⟩
  · intro l hl
    rw [fieldsBuilders_lens a.fields l hl, Fields.headLen_eq_lens_head]
    cases hc : (fieldsBuilders a.fields).lens with
    | nil => rfl
    | cons x xs => simp [fieldsBuilders_lens a.fields x (by rw [hc]; simp)]
  · intro v hv
    exact Option.noConfusion hv

theorem assocStructFields_lens (as : List Association) :
    ∀ l ∈ (assocStructFields as).lens, l = 0 := by
  induction as with
  | nil => simp [assocStructFields, Fields.lens]
  | cons a rest ih =>
      intro l hl
      simp only [assocStructFields, Fields.lens, List.mem_cons] at hl
      rcases hl with rfl | hl
      · rfl
      · exact ih l hl

theorem assocStructFields_invF (as : List Association)
    (h : ∀ a ∈ as, nameByteOk a.name = true ∧ a.fields ≠ [] ∧
      ∀ f ∈ a.fields, nameByteOk f.name = true) :
    (assocStructFields as).invF := by
  induction as with
  | nil => trivial
  | cons a rest ih =>
      exact ⟨(h a (by simp)).1, trivial,
        association_to_mutable_array_inv a (h a (by simp)).2.1 (h a (by simp)).2.2,
        ih (fun a' ha' => h a' (by simp [ha']))⟩

theorem associations_to_mutable_array_inv (as : List Association)
    (h : ∀ a ∈ as, nameByteOk a.name = true ∧ a.fields ≠ [] ∧
      ∀ f ∈ a.fields, nameByteOk f.name = true) :
    (associations_to_mutable_array as).inv := by
  refine ⟨?_, ?_, assocStructFields_invF as h⟩
  · intro l hl
    rw [assocStructFields_lens as l hl, Fields.headLen_eq_lens_head]
    cases hc : (assocStructFields as).lens with
    | nil => rfl
    | cons x xs => simp [assocStructFields_lens as x (by rw [hc]; simp)]
  · intro v hv
    exact Option.noConfusion hv

mutual
theorem Builder.finalizeOk_of_inv (b : Builder) (h : b.inv) (hp : b.shape.pnOk) :
    b.finalizeOk = true := by
  cases b with
  | strct cs validity =>
      obtain ⟨hl, hs, hw⟩ := h
      obtain ⟨hne, -⟩ := hp
      have hcs : cs.isNil = false := by
        cases cs with
        | nil => exact absurd rfl hne
        | cons n b0 rest => rfl
      have hA : cs.lens.all (fun l => l == cs.headLen) = true := by
        rw [List.all_eq_true]
        intro l hl'
        exact beq_iff_eq.mpr (hl l hl')
      cases validity with
      | none => simp [Builder.finalizeOk, hcs, hA, Fields.finalizeOkF_of_invF cs hw]
      | some v =>
          have hB : (v.length == cs.headLen) = true := beq_iff_eq.mpr (hs v rfl)
          simp [Builder.finalizeOk, hcs, hA, hB, Fields.finalizeOkF_of_invF cs hw]
  | list values slots =>
      obtain ⟨hvi, hvp⟩ := h
      exact Builder.finalizeOk_of_inv values hvi hvp
  | utf8 vs => rfl
  | boolean vs => rfl
  | uint32 vs => rfl
  | int32 vs => rfl
  | float64 vs => rfl
  | timestamp vs => rfl
theorem Fields.finalizeOkF_of_invF (cs : Fields) (h : cs.invF) :
    cs.finalizeOkF = true := by
  cases cs with
  | nil => rfl
  | cons n b rest =>
      obtain ⟨-, w2, w3, w4⟩ := h
      simp only [Fields.finalizeOkF, Bool.and_eq_true]
      exact ⟨Builder.finalizeOk_of_inv b w3 w2, Fields.finalizeOkF_of_invF rest w4⟩
end

/-! ## Claim C10 -/

/-- Claim C10, counterexample: the original claim restricts its precondition
to scalar tags, but a row that repeats only a LIST tag — here the
multilingual column `langs`, whose builder shape is a list of structs, so no
scalar tag is repeated — also drives its column two entries ahead in one row
and the decoder panics on the `assert_eq!`; "no row repeats a scalar field
tag" therefore does not keep the assertion from firing. -/
theorem c10_counterexample :
    parse_response_to_arrow 10 ⟨[⟨"langs", DataType.multilingualUtf8⟩], []⟩
        (el "t" [el "rows" [el "row" [el "langs" [], el "langs" []]]]) =
      .panic "assertion failed: array length" ∧
    (data_type_to_mutable_array DataType.multilingualUtf8).shape =
      .list (.strct (.cons "@id" .uint32 (.cons "#text" .utf8 .nil))) := by
  exact ⟨rfl, rfl⟩

/-- Claim C10 (amended): the column-alignment check is a panicking assertion,
not a recoverable error — a data document in which one row repeats the scalar
tag `name` twice drives that column two entries ahead and
`parse_response_to_arrow` panics instead of returning an `Err`.  The
assertion (and the other panic sources: the pseudo-field loop's
`&field.name[0..1]` slicing, and the `StructArray::new` checks at
finalisation, which a validity bitmap desynchronised by a match-nothing
struct element would violate) is kept from firing by the preconditions that
no row repeats ANY field tag (scalar or not), every struct-decoded element
repeats no child tag, carries no tag colliding with the attribute/`#text`
pseudo fields and always matches something, and the declared association and
association-field names are sliceable with at least one field per
association; under those preconditions the decoder never panics: every
result is `Ok` or an ordinary `Err`. -/
theorem c10_panic_discipline :
    (parse_response_to_arrow 10 ⟨[⟨"name", DataType.utf8⟩], []⟩
        (el "t" [el "rows" [el "row" [elT "name" "a", elT "name" "b"]]]) =
      .panic "assertion failed: array length") ∧
    (∀ fuel schema doc,
      schemaNamesOk schema →
      (∀ container, doc.children.toList.head? = some container →
        ∀ row ∈ container.children.toList,
          (∀ nm, countName row.children.toList nm ≤ 1) ∧
          ∀ e ∈ row.children.toList, ∀ b,
            lookupCol (initColumns schema) e.name = some b → GoodS b.shape e) →
      (parse_response_to_arrow fuel schema doc).isPanic = false) := by
  constructor
  · rfl
  · intro fuel schema doc hnames hdoc
    unfold parse_response_to_arrow
    cases hh : doc.children.toList.head? with
    | none => rfl
    | some container =>
        have hinv0 : ∀ p ∈ initColumns schema, p.2.inv :=
          initColumns_builders schema (fun b => b.inv)
            (fun dt => data_type_to_mutable_array_inv dt)
            (fun hne => associations_to_mutable_array_inv schema.associations hnames)
        have hpn0 : ∀ p ∈ initColumns schema, p.2.shape.pnOk :=
          initColumns_builders schema (fun b => b.shape.pnOk)
            data_type_to_mutable_array_pnOk
            (fun hne => associations_to_mutable_array_pnOk _ hne)
        have hlen0 : ∀ p ∈ initColumns schema, p.2.len = 0 :=
          initColumns_builders schema (fun b => b.len = 0)
            (fun dt => data_type_to_mutable_array_len dt)
            (fun _ => associations_to_mutable_array_len _)
        have hpf := processRows_pf fuel container.children.toList (initColumns schema) 0
          (initColumns_keys_nodup schema) hinv0 hpn0 hlen0 (hdoc container hh)
        refine Res.isPanic_bind hpf.1 ?_
        intro cols hcols
        have hok := hpf.2 cols hcols
        have hall : cols.all (fun p => p.2.finalizeOk) = true := by
          rw [List.all_eq_true]
          intro p hp
          exact Builder.finalizeOk_of_inv p.2 (hok p hp).1 (hok p hp).2
        simp [finalize_columns, hall]

/-- Claim C10, witness: the no-panic law applied to a concrete two-row
document with no repeated tags. -/
theorem c10_witness :
    (parse_response_to_arrow 10 ⟨[⟨"name", DataType.utf8⟩], []⟩
        (el "t" [el "rows" [el "row" [elT "name" "a"], el "row" []]])).isPanic = false := by
  refine c10_panic_discipline.2 10 ⟨[⟨"name", DataType.utf8⟩], []⟩
    (el "t" [el "rows" [el "row" [elT "name" "a"], el "row" []]]) ?_ ?_
  · intro a ha
    simp at ha
  · intro container hcont row hrow
    have hc : container = el "rows" [el "row" [elT "name" "a"], el "row" []] := by
      have hcont2 : some (el "rows" [el "row" [elT "name" "a"], el "row" []]) =
          some container := hcont ▸ rfl
      injection hcont2 with hcont2
      exact hcont2.symm
    subst hc
    have hrow2 : row = el "row" [elT "name" "a"] ∨ row = el "row" [] := by
      have hmem : row ∈ [el "row" [elT "name" "a"], el "row" []] := hrow
      simpa using hmem
    rcases hrow2 with rfl | rfl
    · constructor
      · intro nm
        show (if XmlNode.name (elT "name" "a") = nm then 1 else 0) + 0 ≤ 1
        split <;> omega
      · intro e he b hb
        have he2 : e ∈ [elT "name" "a"] := he
        have he3 : e = elT "name" "a" := by simpa using he2
        subst he3
        rw [show lookupCol (initColumns ⟨[⟨"name", DataType.utf8⟩], []⟩)
            (XmlNode.name (elT "name" "a")) = some (Builder.utf8 []) from rfl] at hb
        injection hb with hb
        subst hb
        exact GoodS.utf8 _
    · constructor
      · intro nm
        show (0 : Nat) ≤ 1
        omega
      · intro e he
        have he2 : e ∈ ([] : List XmlNode) := he
        simp at he2

end PS17
